import Mathlib

set_option linter.unusedVariables false

/-!  Verification of the sibling-marker Anki addon (src/__init__.py).

The Python source is shallowly embedded.  Anki's collection is modelled as a
record of notes, cards, a review log and the addon's stored timestamp; each
addon function becomes a pure state transformer over that record.  Reads of
Python card/note objects mid-loop are modelled as reads of the current state;
this matches the source because each card appears at most once per loop and
note objects are shared, so a Python snapshot object always agrees with the
evolving collection state at the moment it is read.  -/

/-!  Tag utilities (the Label Codec).  -/

/-- Tag namespace for group membership labels (the source's group tag marker
string constant, "sibling::").  -/
def sibTagPref : String := "sibling::"

/-- Tag namespace for suspension markers ("sibling-suspended::").  -/
def susTagPref : String := "sibling-suspended::"

/-- Python `s.startswith(p)`, via the underlying character lists.  -/
def strStartsWith (p s : String) : Bool := p.data.isPrefixOf s.data

/-- Python's `\w` character class restricted to ASCII: alphanumerics and
underscore.  -/
def isWordChar (c : Char) : Bool := c.isAlphanum || c = '_'

/-- Characters kept by the first substitution of `sanitize_group_name`
(the class of word characters, hyphen and colon).  -/
def isAllowedChar (c : Char) : Bool := isWordChar c || c = '-' || c = ':'

/-- First stage of `sanitize_group_name`: each character outside the allowed
class is replaced by an underscore.  -/
def replaceBad : List Char → List Char
  | [] => []
  | c :: cs => (if isAllowedChar c then c else '_') :: replaceBad cs

/-- Second stage: every maximal run of one or more colons is rewritten to
exactly two colons (the source substitutes one-or-more colons by a double
colon).  The flag records being inside a colon run already emitted.  -/
def collColAux : Bool → List Char → List Char
  | _, [] => []
  | inRun, c :: cs =>
    if c = ':' then
      (if inRun then collColAux true cs else ':' :: ':' :: collColAux true cs)
    else c :: collColAux false cs

def collCol (l : List Char) : List Char := collColAux false l

/-- Third stage: each maximal run of underscores collapses to a single one.  -/
def collUndAux : Bool → List Char → List Char
  | _, [] => []
  | inRun, c :: cs =>
    if c = '_' then
      (if inRun then collUndAux true cs else '_' :: collUndAux true cs)
    else c :: collUndAux false cs

def collUnd (l : List Char) : List Char := collUndAux false l

/-- Characters trimmed from both ends by the final strip of underscores and
colons.  -/
def isStripChar (c : Char) : Bool := c = '_' || c = ':'

/-- Python `s.strip('_:')`.  -/
def stripEnds (l : List Char) : List Char :=
  ((l.dropWhile isStripChar).reverse.dropWhile isStripChar).reverse

/-- Embedding of `sanitize_group_name`; `none` models the Python `None`
returned when the sanitized string is empty.  -/
def sanitize_group_name (s : String) : Option String :=
  let r := stripEnds (collUnd (collCol (replaceBad s.data)))
  if r = [] then none else some (String.mk (r.map Char.toLower))

/-- Replacement of each maximal run of disallowed characters by a single
underscore, exactly as claim C4 words its first clause.  -/
def replBadRunsAux : Bool → List Char → List Char
  | _, [] => []
  | inBad, c :: cs =>
    if isAllowedChar c then c :: replBadRunsAux false cs
    else if inBad then replBadRunsAux true cs
    else '_' :: replBadRunsAux true cs

/-- Colon normalization under a strict reading of claim C4: every run of two
or more colons becomes exactly two, while a lone colon (not a run of multiple
colons) is left unchanged.  State 0: outside a run; state 1: one pending
colon; state 2: inside a run already emitted.  -/
def collMultiAux : Nat → List Char → List Char
  | st, [] => if st = 1 then [':'] else []
  | st, c :: cs =>
    if c = ':' then
      if st = 0 then collMultiAux 1 cs
      else if st = 1 then ':' :: ':' :: collMultiAux 2 cs
      else collMultiAux 2 cs
    else
      if st = 1 then ':' :: c :: collMultiAux 0 cs
      else c :: collMultiAux 0 cs

/-- The sanitizer exactly as claim C4 describes it, reading "collapses every
run of multiple colons into exactly two" strictly (a single colon is not a
run of multiple colons, so it is preserved).  -/
def claimSanitizeC4 (s : String) : Option String :=
  let r := stripEnds (collUnd (collMultiAux 0 (replBadRunsAux false s.data)))
  if r = [] then none else some (String.mk (r.map Char.toLower))

/-- The sanitizer as claim C4 reads after amendment: identical, except that
every run of one or more colons collapses to exactly two.  -/
def claimSanitizeC4Amended (s : String) : Option String :=
  let r := stripEnds (collUnd (collCol (replBadRunsAux false s.data)))
  if r = [] then none else some (String.mk (r.map Char.toLower))

/-- Embedding of `get_sibling_tag`.  -/
def get_sibling_tag (g : String) : String := sibTagPref ++ g

/-- Embedding of `extract_group_name`: strips the group tag namespace, or
returns `none` for non-matching labels.  -/
def extract_group_name (t : String) : Option String :=
  if strStartsWith sibTagPref t then some (String.mk (t.data.drop sibTagPref.data.length))
  else none

/-!  Data model: the host collection.  -/

/-- An Anki card: identifier, owning note, scheduling queue, card type and
due value.  Queue values follow Anki: -3 and -2 buried, -1 suspended, 0 new,
1 learning, 2 review, 3 day-learning, 4 preview.  -/
structure SCard where
  id : Nat
  nid : Nat
  queue : Int
  ctype : Int
  due : Int
deriving DecidableEq

/-- An Anki note: identifier and its tag list.  -/
structure SNote where
  id : Nat
  tags : List String
deriving DecidableEq

/-- One review-log row: `rid` is the revlog id (an epoch-millisecond
timestamp) and `cid` the reviewed card.  -/
structure RevEntry where
  rid : Nat
  cid : Nat
deriving DecidableEq

/-- The collection state visible to the addon: notes, cards, review log, the
scheduler's current day index and the addon's stored last-check timestamp.  -/
structure Col where
  notes : List SNote
  cards : List SCard
  revlog : List RevEntry
  today : Int
  lastCheck : Nat
deriving DecidableEq

/-- Fetch a card by identifier (`mw.col.get_card`).  -/
def Col.getCard (col : Col) (cid : Nat) : Option SCard :=
  col.cards.find? (fun c => c.id == cid)

/-- Fetch a note by identifier (`mw.col.get_note`).  -/
def Col.getNote (col : Col) (nid : Nat) : Option SNote :=
  col.notes.find? (fun n => n.id == nid)

/-- Cards belonging to a note (`note.cards()` / `note.card_ids()`).  -/
def Col.noteCards (col : Col) (nid : Nat) : List SCard :=
  col.cards.filter (fun c => c.nid == nid)

/-- Persist an updated card (`mw.col.update_card`): the stored card with the
same identifier is replaced.  -/
def Col.updateCard (col : Col) (c : SCard) : Col :=
  { col with cards := col.cards.map (fun x => if x.id == c.id then c else x) }

/-- Persist an updated note (`mw.col.update_note`).  -/
def Col.updateNote (col : Col) (n : SNote) : Col :=
  { col with notes := col.notes.map (fun x => if x.id == n.id then n else x) }

/-- Notes carrying a given tag: models `find_notes(f"tag:{tag}")` followed by
`get_note` on each hit.  -/
def Col.notesWithTag (col : Col) (tag : String) : List SNote :=
  col.notes.filter (fun n => decide (tag ∈ n.tags))

/-- Well-formedness of a collection: card and note identifiers are unique and
every card's owning note exists.  -/
@[reducible] def Col.wf (col : Col) : Prop :=
  (col.cards.map SCard.id).Nodup ∧ (col.notes.map SNote.id).Nodup ∧
  ∀ c ∈ col.cards, ∃ n ∈ col.notes, n.id = c.nid

/-!  Group index.  -/

/-- Embedding of `get_sibling_tags_for_note`.  -/
def get_sibling_tags_for_note (n : SNote) : List String :=
  n.tags.filter (fun t => strStartsWith sibTagPref t)

/-- Append a note id to a group's entry in an association list, creating the
entry at the end if absent; models insertion into the Python dict, whose
iteration order is insertion order.  -/
def addGroupEntry : List (String × List Nat) → String → Nat → List (String × List Nat)
  | [], g, nid => [(g, [nid])]
  | (g', ns) :: rest, g, nid =>
    if g' = g then (g', ns ++ [nid]) :: rest
    else (g', ns) :: addGroupEntry rest g nid

/-- One sibling tag of the group scan: a successfully extracted, nonempty
group name files the note under it; empty extracted names are skipped
(Python's falsy test on the extracted string).  -/
def groupTagStep (nid : Nat) (gs2 : List (String × List Nat)) (t : String) :
    List (String × List Nat) :=
  match extract_group_name t with
  | some g => if g = "" then gs2 else addGroupEntry gs2 g nid
  | none => gs2

/-- One note of the group scan: every sibling tag of the note is filed.  -/
def groupNoteStep (gs : List (String × List Nat)) (n : SNote) :
    List (String × List Nat) :=
  (get_sibling_tags_for_note n).foldl (groupTagStep n.id) gs

/-- Embedding of `get_all_sibling_groups`: scans every note's sibling tags
and accumulates a group-name-to-note-ids mapping.  -/
def get_all_sibling_groups (col : Col) : List (String × List Nat) :=
  col.notes.foldl groupNoteStep []

/-- All note ids appearing in any group of the snapshot mapping.  -/
def allGroupNids (col : Col) : List Nat :=
  (get_all_sibling_groups col).foldr (fun e acc => e.2 ++ acc) []

/-!  Membership manager.  -/

/-- Deduplicated owning-note ids of a card selection, in first-occurrence
order (the Python code accumulates them into a set; failures of `get_card`
are skipped).  -/
def dedupNids (col : Col) (cardIds : List Nat) : List Nat :=
  cardIds.foldl (fun acc cid =>
    match col.getCard cid with
    | some c => if c.nid ∈ acc then acc else acc ++ [c.nid]
    | none => acc) []

/-- Existing group names carried by the involved notes, deduplicated, in
scan order (the source accumulates them into a set).  -/
def collectExisting (col : Col) (noteIds : List Nat) : List String :=
  noteIds.foldl (fun acc nid =>
    match col.getNote nid with
    | some n =>
      (get_sibling_tags_for_note n).foldl (fun acc2 t =>
        match extract_group_name t with
        | some g => if g = "" ∨ g ∈ acc2 then acc2 else acc2 ++ [g]
        | none => acc2) acc
    | none => acc) []

/-- The user's answer to the existing-groups dialog in
`mark_cards_as_siblings` (Yes / No / Cancel).  -/
inductive DlgChoice
  | useFirst
  | createNew
  | cancelOp
deriving DecidableEq

/-- Result of `mark_cards_as_siblings`: the Boolean actually returned by the
source, the internal `modified_count`, and the updated collection.  -/
structure MarkRes where
  ok : Bool
  modified : Nat
  col : Col
deriving DecidableEq

/-- One note of the tag-writing loop of `mark_cards_as_siblings` (and of
`add_to_existing_group`): the tag is appended unless already present, and a
modification is counted; failed note fetches are skipped.  -/
def addTagStep (tag : String) (acc : Col × Nat) (nid : Nat) : Col × Nat :=
  match acc.1.getNote nid with
  | some n =>
    if tag ∈ n.tags then acc
    else (acc.1.updateNote { n with tags := n.tags ++ [tag] }, acc.2 + 1)
  | none => acc

/-- Tag-writing loop of `mark_cards_as_siblings` (and of
`add_to_existing_group`): appends the tag to each involved note that lacks
it, counting the notes modified.  -/
def addTagLoop (tag : String) (noteIds : List Nat) (col : Col) : Col × Nat :=
  noteIds.foldl (addTagStep tag) (col, 0)

/-!  Suspend / release sequencer.  -/

/-- Per-card body of the suspension loop in `suspend_new_card_siblings`: the
card is suspended, then the marker tag is appended to its note unless already
present.  A failed note fetch leaves the card suspended but uncounted, as the
source's exception handler does.  -/
def suspendStep (g : String) (acc : Col × Nat) (c : SCard) : Col × Nat :=
  let col1 := acc.1.updateCard { c with queue := -1 }
  match col1.getNote c.nid with
  | some n =>
    let st := susTagPref ++ g
    let col2 := if st ∈ n.tags then col1
                else col1.updateNote { n with tags := n.tags ++ [st] }
    (col2, acc.2 + 1)
  | none => (col1, acc.2)

/-- Lift of the card-id order used by the source's sorts.  -/
def cardIdLe (a b : SCard) : Prop := a.id ≤ b.id

instance : DecidableRel cardIdLe := fun a b => inferInstanceAs (Decidable (a.id ≤ b.id))

instance : IsTotal SCard cardIdLe := ⟨fun a b => Nat.le_total a.id b.id⟩

instance : IsTrans SCard cardIdLe := ⟨fun a b c h1 h2 => Nat.le_trans h1 h2⟩

/-- Candidate filtering of `suspend_new_card_siblings`: the cards of the
selection currently in new state (queue 0 and type 0); failed lookups are
skipped.  -/
def newCandidates (col : Col) : List Nat → List SCard
  | [] => []
  | cid :: rest =>
    match col.getCard cid with
    | some c =>
      if c.queue = 0 ∧ c.ctype = 0 then c :: newCandidates col rest
      else newCandidates col rest
    | none => newCandidates col rest

/-- Embedding of `suspend_new_card_siblings`: among the candidate cards in
new state (queue 0, type 0), sorted by card id, the first is left as is and
every other one is suspended and its note marked.  -/
def suspend_new_card_siblings (col : Col) (g : String) (cardIds : List Nat) : Col × Nat :=
  let newCards := newCandidates col cardIds
  if newCards.length < 2 then (col, 0)
  else
    match List.insertionSort cardIdLe newCards with
    | [] => (col, 0)
    | _ :: rest => rest.foldl (suspendStep g) (col, 0)

/-- Does a tag carry the suspension-marker namespace.  -/
def isMarkerTag (t : String) : Bool := strStartsWith susTagPref t

/-- Does the note carry any suspension marker.  -/
def noteHasMarker (n : SNote) : Bool := n.tags.any isMarkerTag

/-- Removal of every suspension-marker tag from a note, as the release step
of `check_and_unsuspend_siblings` performs it.  -/
def stripMarkers (n : SNote) : SNote :=
  { n with tags := n.tags.filter (fun t => !isMarkerTag t) }

/-- Number of review-log rows for a card (the `SELECT COUNT()` query).  -/
def countReviews (col : Col) (cid : Nat) : Nat :=
  col.revlog.countP (fun e => e.cid == cid)

/-- Loop state of the per-group scan in `check_and_unsuspend_siblings`:
the evolving collection, the `previous_all_reviewed` and `unsuspended_one`
flags and the running total.  -/
structure ScanSt where
  col : Col
  prevReviewed : Bool
  releasedOne : Bool
  count : Nat

/-- Per-card body of the scan in `check_and_unsuspend_siblings`.  A card is
a suspended sibling when its queue is -1 and its note carries any suspension
marker; the first such card seen while `prevReviewed` holds is released:
queue back to 0 and all markers stripped from its note.  Any other card
clears `prevReviewed` when it is a never-reviewed new card.  -/
def unsuspendStep (st : ScanSt) (e : Nat × Nat) : ScanSt :=
  match st.col.getCard e.1, st.col.getNote e.2 with
  | some c, some n =>
    if c.queue = -1 ∧ noteHasMarker n = true then
      if st.prevReviewed = true ∧ st.releasedOne = false then
        { col := (st.col.updateCard { c with queue := 0 }).updateNote (stripMarkers n),
          prevReviewed := st.prevReviewed, releasedOne := true, count := st.count + 1 }
      else st
    else if countReviews st.col e.1 = 0 ∧ c.ctype = 0 then
      { st with prevReviewed := false }
    else st
  | _, _ => st

/-- Card/note id pairs of all cards of a group's member notes, as gathered at
the start of the group's scan.  -/
def gatherGroupCards (col : Col) (nids : List Nat) : List (Nat × Nat) :=
  nids.foldl (fun acc nid =>
    match col.getNote nid with
    | some n => acc ++ (col.noteCards n.id).map (fun c => (c.id, c.nid))
    | none => acc) []

/-- Order on gathered pairs: ascending card identifier.  -/
def cidLe (a b : Nat × Nat) : Prop := a.1 ≤ b.1

instance : DecidableRel cidLe := fun a b => inferInstanceAs (Decidable (a.1 ≤ b.1))

instance : IsTotal (Nat × Nat) cidLe := ⟨fun a b => Nat.le_total a.1 b.1⟩

instance : IsTrans (Nat × Nat) cidLe := ⟨fun a b c h1 h2 => Nat.le_trans h1 h2⟩

/-- One group's pass of `check_and_unsuspend_siblings`: gather the group's
cards, sort by ascending card id, and run the release scan.  -/
def processGroup (acc : Col × Nat) (entry : String × List Nat) : Col × Nat :=
  let pairs := gatherGroupCards acc.1 entry.2
  if pairs = [] then acc
  else
    let st := (List.insertionSort cidLe pairs).foldl unsuspendStep
      { col := acc.1, prevReviewed := true, releasedOne := false, count := acc.2 }
    (st.col, st.count)

/-- Embedding of `check_and_unsuspend_siblings`: the per-group pass applied
to every group of the snapshot mapping, returning the updated collection and
the total number of cards unsuspended.  -/
def check_and_unsuspend_siblings (col : Col) : Col × Nat :=
  (get_all_sibling_groups col).foldl processGroup (col, 0)

/-- Evolution of the `previous_all_reviewed` flag over one scan entry when no
release happens at it, read against a fixed collection.  -/
def prevUpd (col : Col) (p : Bool) (e : Nat × Nat) : Bool :=
  match col.getCard e.1, col.getNote e.2 with
  | some c, some n =>
    if c.queue = -1 ∧ noteHasMarker n = true then p
    else if countReviews col e.1 = 0 ∧ c.ctype = 0 then false
    else p
  | _, _ => p

/-- The `previous_all_reviewed` flag after scanning a list of entries none of
which triggered a release.  -/
def prevAfter (col : Col) (p : Bool) (L : List (Nat × Nat)) : Bool :=
  L.foldl (prevUpd col) p

/-- Modelled from the spec: a user-initiated suspension performed through the
host application outside the addon; it sets the card's queue to suspended and
places no marker label.  -/
def userSuspend (col : Col) (cid : Nat) : Col :=
  match col.getCard cid with
  | some c => col.updateCard { c with queue := -1 }
  | none => col

/-!  Bury coordinator.  -/

/-- Bury eligibility by phase, from the queue dispatch in
`bury_custom_siblings`: new and learning unconditionally; review and
day-learning only when due at or before the current scheduling day.  -/
def shouldBury (today : Int) (c : SCard) : Bool :=
  if c.queue = 0 then true
  else if c.queue = 1 then true
  else if c.queue = 2 then decide (c.due ≤ today)
  else if c.queue = 3 then decide (c.due ≤ today)
  else false

/-- Accumulation into the Python set of cards to bury.  -/
def insertAbsent (l : List Nat) (x : Nat) : List Nat :=
  if x ∈ l then l else l ++ [x]

/-- Inner loop of `bury_custom_siblings` over one sibling note's cards.  -/
def buryFromNoteCards (today : Int) (answered : SCard) (cards : List SCard)
    (acc : List Nat) : List Nat :=
  cards.foldl (fun a c =>
    if c.id = answered.id then a
    else if 0 ≤ c.queue ∧ shouldBury today c = true then insertAbsent a c.id
    else a) acc

/-- Middle loop of `bury_custom_siblings` over the notes carrying one sibling
tag, skipping the answered card's own note.  -/
def buryFromTag (col : Col) (answered : SCard) (tag : String)
    (acc : List Nat) : List Nat :=
  (col.notesWithTag tag).foldl (fun a n =>
    if n.id = answered.nid then a
    else buryFromNoteCards col.today answered (col.noteCards n.id) a) acc

/-- The deduplicated set of card ids to bury, accumulated across all sibling
tags of the answered card's note.  -/
def buryListOf (col : Col) (answered : SCard) (sibTags : List String) : List Nat :=
  sibTags.foldl (fun a t =>
    match extract_group_name t with
    | some g => if g = "" then a else buryFromTag col answered t a
    | none => a) []

/-- Modelled from the spec: the host's bulk bury command
(`col.sched.bury_cards`), which moves each listed card to a buried queue.  -/
def Col.buryCards (col : Col) (cids : List Nat) : Col :=
  { col with cards := col.cards.map (fun c =>
      if c.id ∈ cids then { c with queue := -2 } else c) }

/-- Embedding of `bury_custom_siblings`: computes the union of eligible
sibling cards across every group of the answered card's note and issues one
bury command for the whole union.  -/
def bury_custom_siblings (col : Col) (answered : SCard) : Col × Nat :=
  match col.getNote answered.nid with
  | none => (col, 0)
  | some note =>
    let sibTags := get_sibling_tags_for_note note
    if sibTags = [] then (col, 0)
    else
      let toBury := buryListOf col answered sibTags
      if toBury = [] then (col, 0)
      else (col.buryCards toBury, toBury.length)

/-- Eligibility of a card id for burying after answering `answered`, whose
note is `note`: some sibling tag of the answered note is carried by the
card's (distinct) note, and the card is active and due per its phase.  -/
def eligibleForBury (col : Col) (answered : SCard) (note : SNote) (cid : Nat) : Prop :=
  ∃ c ∈ col.cards, c.id = cid ∧ c.nid ≠ answered.nid ∧ c.id ≠ answered.id ∧
    (∃ t ∈ note.tags, (∃ g, extract_group_name t = some g ∧ g ≠ "") ∧
      ∃ n ∈ col.notes, n.id = c.nid ∧ t ∈ n.tags) ∧
    0 ≤ c.queue ∧ shouldBury col.today c = true

/-!  Sync catch-up scanner.  -/

/-- Distinct reviewed card ids, in first-occurrence order (the `SELECT
DISTINCT cid` query).  -/
def distinctCids (entries : List RevEntry) : List Nat :=
  entries.foldl (fun acc e => if e.cid ∈ acc then acc else acc ++ [e.cid]) []

/-- Embedding of `process_reviews_since_last_check`: replays the bury logic
for every card reviewed after the stored timestamp, then advances the
timestamp to `now` (also when no reviews were found or lookups failed).  -/
def process_reviews_since_last_check (col : Col) (now : Nat) : Col × Nat :=
  let reviews := distinctCids (col.revlog.filter (fun e => decide (col.lastCheck < e.rid)))
  if reviews = [] then ({ col with lastCheck := now }, 0)
  else
    let res := reviews.foldl (fun (acc : Col × Nat) cid =>
      match acc.1.getCard cid with
      | some c =>
        let b := bury_custom_siblings acc.1 c
        (b.1, acc.2 + b.2)
      | none => acc) (col, 0)
    ({ res.1 with lastCheck := now }, res.2)

/-!  Due-date spreader.  -/

/-- Sort order of the spreader: ascending due value, card id as tie-break.  -/
def dueIdLe (a b : SCard) : Prop := a.due < b.due ∨ (a.due = b.due ∧ a.id ≤ b.id)

instance : DecidableRel dueIdLe := fun a b =>
  inferInstanceAs (Decidable (a.due < b.due ∨ (a.due = b.due ∧ a.id ≤ b.id)))

instance : IsTotal SCard dueIdLe :=
  ⟨fun a b => by
    rcases lt_trichotomy a.due b.due with h | h | h
    · exact Or.inl (Or.inl h)
    · rcases Nat.le_total a.id b.id with h2 | h2
      · exact Or.inl (Or.inr ⟨h, h2⟩)
      · exact Or.inr (Or.inr ⟨h.symm, h2⟩)
    · exact Or.inr (Or.inl h)⟩

instance : IsTrans SCard dueIdLe :=
  ⟨fun a b c h1 h2 => by
    rcases h1 with h1 | ⟨h1, h1i⟩ <;> rcases h2 with h2 | ⟨h2, h2i⟩
    · exact Or.inl (lt_trans h1 h2)
    · exact Or.inl (h2 ▸ h1)
    · exact Or.inl (h1 ▸ h2)
    · exact Or.inr ⟨h1.trans h2, Nat.le_trans h1i h2i⟩⟩

/-- The group's review cards due at or before today, gathered note by note
(models `find_notes` on the group tag followed by filtering each note's
cards).  -/
def dueReviewCards (col : Col) (tag : String) : List SCard :=
  col.notes.foldl (fun acc n =>
    if tag ∈ n.tags then
      acc ++ (col.noteCards n.id).filter (fun c =>
        c.queue == 2 && decide (c.due ≤ col.today))
    else acc) []

/-- Per-card body of the spreading loop: position `i` (1-based) is assigned
due value `today + i * minGap`, writing only when the value changes.  The
accumulator carries the collection, the next position and the count of cards
rescheduled.  -/
def spreadStep (today minGap : Int) (acc : Col × Int × Nat) (c : SCard) : Col × Int × Nat :=
  let nd := today + acc.2.1 * minGap
  if c.due = nd then (acc.1, acc.2.1 + 1, acc.2.2)
  else (acc.1.updateCard { c with due := nd }, acc.2.1 + 1, acc.2.2 + 1)

/-- Number of writes the spreading loop issues from start position `i`:
positions whose due value already equals the target are skipped (the claim's
"writing only when the value changes").  -/
def spreadWriteCount (today minGap : Int) : Int → List SCard → Nat
  | _, [] => 0
  | i, c :: cs =>
    (if c.due = today + i * minGap then 0 else 1) + spreadWriteCount today minGap (i + 1) cs

/-- Embedding of `spread_review_card_due_dates`.  -/
def spread_review_card_due_dates (col : Col) (g : String) (minGap : Int) : Col × Nat :=
  let cardsDue := dueReviewCards col (get_sibling_tag g)
  if cardsDue.length < 2 then (col, 0)
  else
    match List.insertionSort dueIdLe cardsDue with
    | [] => (col, 0)
    | _ :: rest =>
      let res := rest.foldl (spreadStep col.today minGap) (col, 1, 0)
      (res.1, res.2.2)

/-!  Membership manager, continued (needs the separation pipeline).  -/

/-- Embedding of `apply_sibling_separation`: suspend extra new cards, then
spread review due dates, for a freshly marked group.  -/
def apply_sibling_separation (col : Col) (g : String) (cardIds : List Nat) : Col :=
  let s := suspend_new_card_siblings col g cardIds
  (spread_review_card_due_dates s.1 g 1).1

/-- Embedding of `mark_cards_as_siblings`.  The generated fallback name and
the dialog answer are passed in explicitly (the source draws the former from
a random generator and the latter from a message box).  The source returns
only the Boolean; the internal modified count and the final state are exposed
alongside it.  -/
def mark_cards_as_siblings (col : Col) (cardIds : List Nat) (groupName : Option String)
    (gen : String) (choice : DlgChoice) : MarkRes :=
  if cardIds.length < 2 then ⟨false, 0, col⟩
  else
    let noteIds := dedupNids col cardIds
    if noteIds.length < 2 then ⟨false, 0, col⟩
    else
      let existing := collectExisting col noteIds
      let finalName : Option String :=
        if existing ≠ [] ∧ groupName = none then
          match choice with
          | DlgChoice.cancelOp => none
          | DlgChoice.useFirst => existing.head?
          | DlgChoice.createNew => some gen
        else
          match groupName with
          | some nm => some ((sanitize_group_name nm).getD gen)
          | none => some gen
      match finalName with
      | none => ⟨false, 0, col⟩
      | some fn =>
        let res := addTagLoop (get_sibling_tag fn) noteIds col
        if 0 < res.2 then ⟨true, res.2, apply_sibling_separation res.1 fn cardIds⟩
        else ⟨true, res.2, res.1⟩

/-- Python `list.remove`: deletes the first occurrence.  -/
def removeFirstTag : List String → String → List String
  | [], _ => []
  | x :: xs, t => if x = t then xs else x :: removeFirstTag xs t

/-- One note of the removal loop of `remove_from_sibling_group`: the first
occurrence of each of the note's sibling group tags is deleted; a note with
no sibling tags, or a failed fetch, is skipped.  -/
def unmarkStep (acc : Col × Nat) (nid : Nat) : Col × Nat :=
  match acc.1.getNote nid with
  | some n =>
    let sibTags := get_sibling_tags_for_note n
    if sibTags = [] then acc
    else (acc.1.updateNote { n with tags := sibTags.foldl removeFirstTag n.tags }, acc.2 + 1)
  | none => acc

/-- Embedding of `remove_from_sibling_group`: for each involved note, every
sibling group tag is removed; suspension-marker tags are not in that list and
cards are never touched.  -/
def remove_from_sibling_group (col : Col) (cardIds : List Nat) : Col × Nat :=
  (dedupNids col cardIds).foldl unmarkStep (col, 0)

/-- Release relation of the scan, card side: the card went from suspended to
new while its note carried some suspension marker.  -/
def cardReleased (s : Col) (c c' : SCard) : Prop :=
  c.queue = -1 ∧ c' = { c with queue := 0 } ∧
  ∃ n, s.getNote c.nid = some n ∧ noteHasMarker n = true

/-- Observable relation between a collection and the result of running the
release scan on it: every card is unchanged or released, every note is
unchanged or had exactly its markers stripped, and nothing appears or
disappears.  -/
def ScanRel (s t : Col) : Prop :=
  (∀ cid,
    (∀ c, s.getCard cid = some c →
      ∃ c', t.getCard cid = some c' ∧ (c' = c ∨ cardReleased s c c')) ∧
    (s.getCard cid = none → t.getCard cid = none)) ∧
  (∀ nid,
    (∀ n, s.getNote nid = some n →
      ∃ n', t.getNote nid = some n' ∧
        (n' = n ∨ (n' = stripMarkers n ∧ noteHasMarker n = true))) ∧
    (s.getNote nid = none → t.getNote nid = none))


/-!  Basic facts about collection reads and writes.  -/

theorem find_update_of_ne {α : Type} (idf : α → Nat) (u : α) (k : Nat) (hk : k ≠ idf u)
    (l : List α) :
    (l.map (fun x => if idf x == idf u then u else x)).find? (fun c => idf c == k) =
      l.find? (fun c => idf c == k) := by
  induction l with
  | nil => rfl
  | cons a l ih =>
    simp only [List.map_cons]
    by_cases ha : idf a = idf u
    · have h1 : (idf u == k) = false := beq_eq_false_iff_ne.mpr fun hq => hk hq.symm
      have h2 : (idf a == k) = false := beq_eq_false_iff_ne.mpr fun hq => hk (by rw [← hq, ha])
      rw [if_pos (beq_iff_eq.mpr ha)]
      simp only [List.find?_cons, h1, h2]
      exact ih
    · rw [if_neg (fun hb => ha (beq_iff_eq.mp hb))]
      by_cases hk2 : idf a = k
      · have h2 : (idf a == k) = true := beq_iff_eq.mpr hk2
        simp only [List.find?_cons, h2]
      · have h2 : (idf a == k) = false := beq_eq_false_iff_ne.mpr hk2
        simp only [List.find?_cons, h2]
        exact ih

theorem find_update_self {α : Type} (idf : α → Nat) (u : α) (l : List α) (c0 : α)
    (h : l.find? (fun c => idf c == idf u) = some c0) :
    (l.map (fun x => if idf x == idf u then u else x)).find? (fun c => idf c == idf u) =
      some u := by
  induction l with
  | nil => simp at h
  | cons a l ih =>
    simp only [List.map_cons]
    by_cases ha : idf a = idf u
    · rw [if_pos (beq_iff_eq.mpr ha)]
      have h1 : (idf u == idf u) = true := beq_iff_eq.mpr rfl
      simp only [List.find?_cons, h1]
    · rw [if_neg (fun hb => ha (beq_iff_eq.mp hb))]
      have h2 : (idf a == idf u) = false := beq_eq_false_iff_ne.mpr ha
      simp only [List.find?_cons, h2] at h ⊢
      exact ih h

theorem find_update_none {α : Type} (idf : α → Nat) (u : α) (l : List α)
    (h : l.find? (fun c => idf c == idf u) = none) :
    (l.map (fun x => if idf x == idf u then u else x)).find? (fun c => idf c == idf u) =
      none := by
  induction l with
  | nil => rfl
  | cons a l ih =>
    simp only [List.map_cons]
    by_cases ha : idf a = idf u
    · have h1 : (idf a == idf u) = true := beq_iff_eq.mpr ha
      simp only [List.find?_cons, h1] at h
      simp at h
    · rw [if_neg (fun hb => ha (beq_iff_eq.mp hb))]
      have h2 : (idf a == idf u) = false := beq_eq_false_iff_ne.mpr ha
      simp only [List.find?_cons, h2] at h ⊢
      exact ih h

theorem map_update_ids {α : Type} (idf : α → Nat) (u : α) (l : List α) :
    (l.map (fun x => if idf x == idf u then u else x)).map idf = l.map idf := by
  induction l with
  | nil => rfl
  | cons a l ih =>
    simp only [List.map_cons, ih]
    by_cases ha : idf a = idf u
    · rw [if_pos (beq_iff_eq.mpr ha), ha]
    · rw [if_neg (fun hb => ha (beq_iff_eq.mp hb))]

theorem getCard_spec {col : Col} {cid : Nat} {c : SCard} (h : col.getCard cid = some c) :
    c ∈ col.cards ∧ c.id = cid := by
  refine ⟨List.mem_of_find?_eq_some h, ?_⟩
  have := List.find?_some h
  simpa using this

theorem getNote_spec {col : Col} {nid : Nat} {n : SNote} (h : col.getNote nid = some n) :
    n ∈ col.notes ∧ n.id = nid := by
  refine ⟨List.mem_of_find?_eq_some h, ?_⟩
  have := List.find?_some h
  simpa using this

theorem updateCard_notes (col : Col) (u : SCard) : (col.updateCard u).notes = col.notes := rfl

theorem updateNote_cards (col : Col) (n : SNote) : (col.updateNote n).cards = col.cards := rfl

theorem getNote_updateCard (col : Col) (u : SCard) (nid : Nat) :
    (col.updateCard u).getNote nid = col.getNote nid := rfl

theorem getCard_updateNote (col : Col) (n : SNote) (cid : Nat) :
    (col.updateNote n).getCard cid = col.getCard cid := rfl

theorem getCard_updateCard_ne {col : Col} {u : SCard} {cid : Nat} (h : cid ≠ u.id) :
    (col.updateCard u).getCard cid = col.getCard cid :=
  find_update_of_ne SCard.id u cid h col.cards

theorem getCard_updateCard_self {col : Col} {u : SCard} {c0 : SCard}
    (h : col.getCard u.id = some c0) :
    (col.updateCard u).getCard u.id = some u :=
  find_update_self SCard.id u col.cards c0 h

theorem getCard_updateCard_none {col : Col} {u : SCard} (h : col.getCard u.id = none) :
    (col.updateCard u).getCard u.id = none :=
  find_update_none SCard.id u col.cards h

theorem getNote_updateNote_ne {col : Col} {u : SNote} {nid : Nat} (h : nid ≠ u.id) :
    (col.updateNote u).getNote nid = col.getNote nid :=
  find_update_of_ne SNote.id u nid h col.notes

theorem getNote_updateNote_self {col : Col} {u : SNote} {n0 : SNote}
    (h : col.getNote u.id = some n0) :
    (col.updateNote u).getNote u.id = some u :=
  find_update_self SNote.id u col.notes n0 h

theorem getNote_updateNote_none {col : Col} {u : SNote} (h : col.getNote u.id = none) :
    (col.updateNote u).getNote u.id = none :=
  find_update_none SNote.id u col.notes h

theorem updateCard_cardIds (col : Col) (u : SCard) :
    (col.updateCard u).cards.map SCard.id = col.cards.map SCard.id :=
  map_update_ids SCard.id u col.cards

theorem updateNote_noteIds (col : Col) (u : SNote) :
    (col.updateNote u).notes.map SNote.id = col.notes.map SNote.id :=
  map_update_ids SNote.id u col.notes

/-!  Reduction lemmas for the sanitizer pipeline stages.  -/

theorem replaceBad_allowed {c : Char} (h : isAllowedChar c = true) (cs : List Char) :
    replaceBad (c :: cs) = c :: replaceBad cs := by
  simp [replaceBad, h]

theorem replaceBad_bad {c : Char} (h : ¬ isAllowedChar c = true) (cs : List Char) :
    replaceBad (c :: cs) = '_' :: replaceBad cs := by
  simp [replaceBad, h]

theorem replBad_allowed {c : Char} (h : isAllowedChar c = true) (b : Bool) (cs : List Char) :
    replBadRunsAux b (c :: cs) = c :: replBadRunsAux false cs := by
  simp [replBadRunsAux, h]

theorem replBad_bad_false {c : Char} (h : ¬ isAllowedChar c = true) (cs : List Char) :
    replBadRunsAux false (c :: cs) = '_' :: replBadRunsAux true cs := by
  simp [replBadRunsAux, h]

theorem replBad_bad_true {c : Char} (h : ¬ isAllowedChar c = true) (cs : List Char) :
    replBadRunsAux true (c :: cs) = replBadRunsAux true cs := by
  simp [replBadRunsAux, h]

theorem collColAux_colon (cf : Bool) (X : List Char) :
    collColAux cf (':' :: X) =
      if cf then collColAux true X else ':' :: ':' :: collColAux true X := by
  simp [collColAux]

theorem collColAux_other {c : Char} (hc : ¬ c = ':') (cf : Bool) (X : List Char) :
    collColAux cf (c :: X) = c :: collColAux false X := by
  simp [collColAux, hc]

theorem collUndAux_und (uf : Bool) (Y : List Char) :
    collUndAux uf ('_' :: Y) =
      if uf then collUndAux true Y else '_' :: collUndAux true Y := by
  simp [collUndAux]

theorem collUndAux_other {c : Char} (hc : ¬ c = '_') (uf : Bool) (Y : List Char) :
    collUndAux uf (c :: Y) = c :: collUndAux false Y := by
  simp [collUndAux, hc]

/-- Core equivalence behind claim C4's amendment: replacing disallowed
characters one by one (as the source does) and replacing each maximal run by
one underscore (as the claim words it) agree once underscores are collapsed,
in any colon-collapsing context.  The second component is the same statement
inside a run of already-replaced characters.  -/
theorem sanitize_pipe_eq (l : List Char) :
    (∀ cf uf, collUndAux uf (collColAux cf (replaceBad l)) =
       collUndAux uf (collColAux cf (replBadRunsAux false l))) ∧
    collUndAux true (collColAux false (replaceBad l)) =
      collUndAux true (collColAux false (replBadRunsAux true l)) := by
  induction l with
  | nil => exact ⟨fun _ _ => rfl, rfl⟩
  | cons c cs ih =>
    obtain ⟨ih1, ih2⟩ := ih
    by_cases hA : isAllowedChar c = true
    · by_cases hc : c = ':'
      · subst hc
        constructor
        · intro cf uf
          rw [replaceBad_allowed hA, replBad_allowed hA, collColAux_colon, collColAux_colon]
          cases cf
          · rw [if_neg Bool.false_ne_true, if_neg Bool.false_ne_true,
              collUndAux_other (by decide), collUndAux_other (by decide),
              collUndAux_other (by decide), collUndAux_other (by decide), ih1 true false]
          · rw [if_pos rfl, if_pos rfl]
            exact ih1 true uf
        · rw [replaceBad_allowed hA, replBad_allowed hA, collColAux_colon, collColAux_colon,
            if_neg Bool.false_ne_true, if_neg Bool.false_ne_true,
            collUndAux_other (by decide), collUndAux_other (by decide),
            collUndAux_other (by decide), collUndAux_other (by decide), ih1 true false]
      · by_cases hu : c = '_'
        · subst hu
          constructor
          · intro cf uf
            rw [replaceBad_allowed hA, replBad_allowed hA,
              collColAux_other (by decide), collColAux_other (by decide),
              collUndAux_und, collUndAux_und, ih1 false true]
          · rw [replaceBad_allowed hA, replBad_allowed hA,
              collColAux_other (by decide), collColAux_other (by decide),
              collUndAux_und, collUndAux_und, if_pos rfl, if_pos rfl]
            exact ih1 false true
        · constructor
          · intro cf uf
            rw [replaceBad_allowed hA, replBad_allowed hA,
              collColAux_other hc, collColAux_other hc,
              collUndAux_other hu, collUndAux_other hu, ih1 false false]
          · rw [replaceBad_allowed hA, replBad_allowed hA,
              collColAux_other hc, collColAux_other hc,
              collUndAux_other hu, collUndAux_other hu, ih1 false false]
    · constructor
      · intro cf uf
        rw [replaceBad_bad hA, replBad_bad_false hA,
          collColAux_other (by decide), collColAux_other (by decide),
          collUndAux_und, collUndAux_und, ih2]
      · rw [replaceBad_bad hA, replBad_bad_true hA,
          collColAux_other (by decide), collUndAux_und, if_pos rfl]
        exact ih2

/-- Claim C4, counterexample: on the input "a:b" the source's sanitizer
doubles the lone colon, while the pipeline described by the claim (which only
collapses runs of multiple colons) leaves the string unchanged.  -/
theorem C4_counterexample :
    sanitize_group_name "a:b" = some "a::b" ∧
    claimSanitizeC4 "a:b" = some "a:b" ∧
    sanitize_group_name "a:b" ≠ claimSanitizeC4 "a:b" := by
  refine ⟨by decide, by decide, by decide⟩

/-- Claim C4 as amended: for every raw name the sanitizer agrees with the
claim's pipeline — replace each run of disallowed characters by a single
underscore, collapse every run of one or more colons into exactly two,
collapse repeated underscores, trim leading and trailing underscores and
colons, lower-case, and return nothing when empty — and sanitizing
"Anatomy Bones!" yields "anatomy_bones".  -/
theorem C4_amended_sanitize :
    (∀ s, sanitize_group_name s = claimSanitizeC4Amended s) ∧
    sanitize_group_name "Anatomy Bones!" = some "anatomy_bones" := by
  constructor
  · intro s
    simp only [sanitize_group_name, claimSanitizeC4Amended, collCol, collUnd]
    rw [(sanitize_pipe_eq s.data).1 false false]
  · decide

/-- Claim C9: the Last-Check Timestamp after a catch-up pass equals the
current time — also when zero review entries were found or when every card
lookup failed — hence it never decreases, given that the clock reading is at
least the previously stored value.  -/
theorem C9_catchup_timestamp (col : Col) (now : Nat) (h : col.lastCheck ≤ now) :
    (process_reviews_since_last_check col now).1.lastCheck = now ∧
    col.lastCheck ≤ (process_reviews_since_last_check col now).1.lastCheck := by
  have h1 : (process_reviews_since_last_check col now).1.lastCheck = now := by
    by_cases hr :
      distinctCids (col.revlog.filter (fun e => decide (col.lastCheck < e.rid))) = []
    · simp [process_reviews_since_last_check, hr]
    · simp [process_reviews_since_last_check, hr]
  exact ⟨h1, by rw [h1]; exact h⟩

/-- Witness for C9 at a concrete collection: a stale card id in the review
log (its card no longer exists), timestamp still advanced.  -/
theorem C9_witness :
    (⟨[], [], [⟨5, 99⟩], 0, 3⟩ : Col).lastCheck ≤ 1000 ∧
    ((process_reviews_since_last_check (⟨[], [], [⟨5, 99⟩], 0, 3⟩ : Col) 1000).1.lastCheck
        = 1000 ∧
      (⟨[], [], [⟨5, 99⟩], 0, 3⟩ : Col).lastCheck ≤
        (process_reviews_since_last_check (⟨[], [], [⟨5, 99⟩], 0, 3⟩ : Col) 1000).1.lastCheck) :=
  ⟨by decide, C9_catchup_timestamp (⟨[], [], [⟨5, 99⟩], 0, 3⟩ : Col) 1000 (by decide)⟩

/-!  The suspension pass (claim C5).  -/

theorem getCard_isSome_updateCard (col : Col) (u : SCard) (cid : Nat) :
    ((col.updateCard u).getCard cid).isSome = (col.getCard cid).isSome := by
  by_cases h : cid = u.id
  · subst h
    cases hc : col.getCard u.id with
    | none => rw [getCard_updateCard_none hc]
    | some c0 =>
      rw [getCard_updateCard_self hc]
      rfl
  · rw [getCard_updateCard_ne h]

theorem getNote_isSome_updateNote (col : Col) (u : SNote) (nid : Nat) :
    ((col.updateNote u).getNote nid).isSome = (col.getNote nid).isSome := by
  by_cases h : nid = u.id
  · subst h
    cases hc : col.getNote u.id with
    | none => rw [getNote_updateNote_none hc]
    | some n0 =>
      rw [getNote_updateNote_self hc]
      rfl
  · rw [getNote_updateNote_ne h]

theorem getCard_ite_updateNote (P : Prop) [Decidable P] (col : Col) (u : SNote) (cid : Nat) :
    (if P then col else col.updateNote u).getCard cid = col.getCard cid := by
  split
  · rfl
  · rfl

theorem newCandidates_getCard {col : Col} {cardIds : List Nat} {c : SCard}
    (h : c ∈ newCandidates col cardIds) :
    col.getCard c.id = some c ∧ c.queue = 0 ∧ c.ctype = 0 := by
  induction cardIds with
  | nil => simp [newCandidates] at h
  | cons cid rest ih =>
    rw [newCandidates] at h
    cases hg : col.getCard cid with
    | none =>
      rw [hg] at h
      exact ih h
    | some c0 =>
      rw [hg] at h
      have h1 : c ∈ (if c0.queue = 0 ∧ c0.ctype = 0 then c0 :: newCandidates col rest
          else newCandidates col rest) := h
      by_cases hq : c0.queue = 0 ∧ c0.ctype = 0
      · rw [if_pos hq] at h1
        rcases List.mem_cons.mp h1 with rfl | h2
        · have hid : c.id = cid := (getCard_spec hg).2
          exact ⟨hid ▸ hg, hq⟩
        · exact ih h2
      · rw [if_neg hq] at h1
        exact ih h1

theorem newCandidates_ids_sublist (col : Col) (cardIds : List Nat) :
    ((newCandidates col cardIds).map SCard.id).Sublist cardIds := by
  induction cardIds with
  | nil => simp [newCandidates]
  | cons cid rest ih =>
    rw [newCandidates]
    cases hg : col.getCard cid with
    | none => exact ih.cons cid
    | some c0 =>
      show (List.map SCard.id (if c0.queue = 0 ∧ c0.ctype = 0 then
          c0 :: newCandidates col rest else newCandidates col rest)).Sublist (cid :: rest)
      by_cases hq : c0.queue = 0 ∧ c0.ctype = 0
      · rw [if_pos hq]
        have hid : c0.id = cid := (getCard_spec hg).2
        rw [List.map_cons, hid]
        exact ih.cons₂ cid
      · rw [if_neg hq]
        exact ih.cons cid

theorem suspendLoop_spec (g : String) (rest : List SCard) :
    ∀ (col : Col) (cnt : Nat),
      (∀ c ∈ rest, (col.getCard c.id).isSome = true) →
      (∀ c ∈ rest, (col.getNote c.nid).isSome = true) →
      ((rest.map SCard.id).Nodup) →
      (rest.foldl (suspendStep g) (col, cnt)).2 = cnt + rest.length ∧
      (∀ cid, cid ∉ rest.map SCard.id →
        (rest.foldl (suspendStep g) (col, cnt)).1.getCard cid = col.getCard cid) ∧
      (∀ c ∈ rest,
        (rest.foldl (suspendStep g) (col, cnt)).1.getCard c.id =
          some { c with queue := -1 }) ∧
      (∀ nid n, col.getNote nid = some n →
        ∃ n', (rest.foldl (suspendStep g) (col, cnt)).1.getNote nid = some n' ∧
          (n' = n ∨ ((susTagPref ++ g) ∉ n.tags ∧
            n'.tags = n.tags ++ [susTagPref ++ g]))) ∧
      (∀ nid, col.getNote nid = none →
        (rest.foldl (suspendStep g) (col, cnt)).1.getNote nid = none) ∧
      (∀ c ∈ rest, ∃ n,
        (rest.foldl (suspendStep g) (col, cnt)).1.getNote c.nid = some n ∧
        (susTagPref ++ g) ∈ n.tags) := by
  induction rest with
  | nil =>
    intro col cnt _ _ _
    exact ⟨rfl, fun _ _ => rfl, by simp, fun nid n h => ⟨n, h, Or.inl rfl⟩,
      fun nid h => h, by simp⟩
  | cons c rest ih =>
    intro col cnt hcard hnote hnd
    have hcardc : (col.getCard c.id).isSome = true := hcard c (List.mem_cons_self c rest)
    have hnotec : (col.getNote c.nid).isSome = true := hnote c (List.mem_cons_self c rest)
    obtain ⟨c0, hc0⟩ := Option.isSome_iff_exists.mp hcardc
    obtain ⟨n, hn⟩ := Option.isSome_iff_exists.mp hnotec
    have hnid : n.id = c.nid := (getNote_spec hn).2
    have hcol1note : (col.updateCard { c with queue := -1 }).getNote c.nid = some n := hn
    have hstep : suspendStep g (col, cnt) c =
        (if (susTagPref ++ g) ∈ n.tags then col.updateCard { c with queue := -1 }
         else (col.updateCard { c with queue := -1 }).updateNote
           ⟨n.id, n.tags ++ [susTagPref ++ g]⟩, cnt + 1) := by
      rw [suspendStep]
      rw [hcol1note]
    have hfold : (c :: rest).foldl (suspendStep g) (col, cnt) =
        rest.foldl (suspendStep g)
          (if (susTagPref ++ g) ∈ n.tags then col.updateCard { c with queue := -1 }
           else (col.updateCard { c with queue := -1 }).updateNote
             ⟨n.id, n.tags ++ [susTagPref ++ g]⟩, cnt + 1) := by
      rw [List.foldl_cons, hstep]
    set col1 := col.updateCard { c with queue := -1 } with hcol1
    set col2 := if (susTagPref ++ g) ∈ n.tags then col1
      else col1.updateNote ⟨n.id, n.tags ++ [susTagPref ++ g]⟩ with hcol2
    have hcards2 : ∀ cid, col2.getCard cid = col1.getCard cid := by
      intro cid
      rw [hcol2]
      exact getCard_ite_updateNote _ col1 _ cid
    have hgetCard2 : ∀ cid, (col2.getCard cid).isSome = (col.getCard cid).isSome := by
      intro cid
      rw [hcards2 cid, hcol1, getCard_isSome_updateCard]
    have hnotes2some : ∀ nid n0, col.getNote nid = some n0 →
        ∃ n1, col2.getNote nid = some n1 ∧
          (n1 = n0 ∨ ((susTagPref ++ g) ∉ n0.tags ∧
            n1.tags = n0.tags ++ [susTagPref ++ g])) := by
      intro nid n0 h0
      rw [hcol2]
      split
      · refine ⟨n0, ?_, Or.inl rfl⟩
        rw [hcol1]
        exact h0
      · rename_i htg
        by_cases hnn : nid = n.id
        · have hsame : n0 = n := by
            rw [hnn, hnid, hn] at h0
            exact (Option.some_inj.mp h0).symm
          subst hsame
          refine ⟨⟨n0.id, n0.tags ++ [susTagPref ++ g]⟩, ?_, Or.inr ⟨htg, rfl⟩⟩
          have hb : col1.getNote (⟨n0.id, n0.tags ++ [susTagPref ++ g]⟩ : SNote).id =
              some n0 := by
            show col1.getNote n0.id = some n0
            rw [hcol1]
            show col.getNote n0.id = some n0
            rw [← hnn]
            exact h0
          have hself := getNote_updateNote_self hb
          rw [hnn]
          exact hself
        · refine ⟨n0, ?_, Or.inl rfl⟩
          have hnn2 : nid ≠ (⟨n.id, n.tags ++ [susTagPref ++ g]⟩ : SNote).id := hnn
          rw [getNote_updateNote_ne hnn2, hcol1]
          exact h0
    have hnotes2none : ∀ nid, col.getNote nid = none → col2.getNote nid = none := by
      intro nid h0
      rw [hcol2]
      split
      · rw [hcol1]
        exact h0
      · have hnn : nid ≠ n.id := by
          intro he
          rw [he, hnid, hn] at h0
          cases h0
        have hnn2 : nid ≠ (⟨n.id, n.tags ++ [susTagPref ++ g]⟩ : SNote).id := hnn
        rw [getNote_updateNote_ne hnn2, hcol1]
        exact h0
    have hnote2isSome : ∀ nid, (col2.getNote nid).isSome = (col.getNote nid).isSome := by
      intro nid
      cases h0 : col.getNote nid with
      | none => rw [hnotes2none nid h0]
      | some n0 =>
        obtain ⟨n1, h1, _⟩ := hnotes2some nid n0 h0
        rw [h1]
        rfl
    have hndtail : (rest.map SCard.id).Nodup := (List.nodup_cons.mp (by simpa using hnd)).2
    have hheadnot : c.id ∉ rest.map SCard.id := (List.nodup_cons.mp (by simpa using hnd)).1
    obtain ⟨A, B, C, D, D0, E⟩ := ih col2 (cnt + 1)
      (fun c' hc' => by rw [hgetCard2]; exact hcard c' (List.mem_cons_of_mem c hc'))
      (fun c' hc' => by rw [hnote2isSome]; exact hnote c' (List.mem_cons_of_mem c hc'))
      hndtail
    rw [hfold]
    refine ⟨?_, ?_, ?_, ?_, ?_, ?_⟩
    · rw [A, List.length_cons]
      omega
    · intro cid hcid
      have h1 : cid ∉ rest.map SCard.id := by
        intro hx
        exact hcid (by simp [hx])
      have h2 : cid ≠ c.id := by
        intro hx
        exact hcid (by simp [hx])
      rw [B cid h1, hcards2 cid, hcol1]
      have h2x : cid ≠ ({ c with queue := -1 } : SCard).id := h2
      exact getCard_updateCard_ne h2x
    · intro c' hc'
      rcases List.mem_cons.mp hc' with rfl | hc2
      · rw [B c'.id hheadnot, hcards2 c'.id, hcol1]
        have hc0x : col.getCard ({ c' with queue := -1 } : SCard).id = some c0 := hc0
        exact getCard_updateCard_self hc0x
      · exact C c' hc2
    · intro nid n0 h0
      obtain ⟨n1, h1, hd1⟩ := hnotes2some nid n0 h0
      obtain ⟨n', h', hd'⟩ := D nid n1 h1
      refine ⟨n', h', ?_⟩
      rcases hd1 with rfl | ⟨htg1, ht1⟩
      · exact hd'
      · rcases hd' with rfl | ⟨htg2, ht2⟩
        · exact Or.inr ⟨htg1, ht1⟩
        · exact absurd (ht1 ▸ List.mem_append_right n0.tags (by simp)) htg2
    · intro nid h0
      exact D0 nid (hnotes2none nid h0)
    · intro c' hc'
      rcases List.mem_cons.mp hc' with rfl | hc2
      · have hmem2 : ∃ m, col2.getNote c'.nid = some m ∧ (susTagPref ++ g) ∈ m.tags := by
          rw [hcol2]
          split
          · rename_i htg
            refine ⟨n, ?_, htg⟩
            rw [hcol1]
            show col.getNote c'.nid = some n
            exact hn
          · refine ⟨⟨n.id, n.tags ++ [susTagPref ++ g]⟩, ?_,
              List.mem_append_right n.tags (by simp)⟩
            have hb : col1.getNote (⟨n.id, n.tags ++ [susTagPref ++ g]⟩ : SNote).id =
                some n := by
              show col1.getNote n.id = some n
              rw [hcol1]
              show col.getNote n.id = some n
              rw [hnid]
              exact hn
            have hself := getNote_updateNote_self hb
            rw [← hnid]
            exact hself
        obtain ⟨m, hm, htm⟩ := hmem2
        obtain ⟨n', h', hd'⟩ := D c'.nid m hm
        refine ⟨n', h', ?_⟩
        rcases hd' with rfl | ⟨_, ht⟩
        · exact htm
        · rw [ht]
          exact List.mem_append_left _ htm
      · exact E c' hc2

/-- Claim C5: for a group with N new-state Items among the candidate cards,
`suspend_new_card_siblings` sorts them by ascending card identifier, leaves
the first active (untouched), transitions each of the remaining N - 1 to
suspended while adding the group's Suspension Marker label to each suspended
Item's owning Record, returns N - 1, and touches no other card; each note is
changed at most by appending the marker label.  -/
theorem C5_suspend_extras (col : Col) (g : String) (cardIds : List Nat)
    (hwf : col.wf) (hnd : cardIds.Nodup) :
    (suspend_new_card_siblings col g cardIds).2 =
      (newCandidates col cardIds).length - 1 ∧
    (List.insertionSort cardIdLe (newCandidates col cardIds)).Perm
      (newCandidates col cardIds) ∧
    (List.insertionSort cardIdLe (newCandidates col cardIds)).Sorted cardIdLe ∧
    (match List.insertionSort cardIdLe (newCandidates col cardIds) with
     | [] => (suspend_new_card_siblings col g cardIds).1 = col
     | c0 :: rest =>
       (suspend_new_card_siblings col g cardIds).1.getCard c0.id = some c0 ∧
       (∀ c ∈ rest,
         (suspend_new_card_siblings col g cardIds).1.getCard c.id =
           some { c with queue := -1 } ∧
         ∃ n, (suspend_new_card_siblings col g cardIds).1.getNote c.nid = some n ∧
           (susTagPref ++ g) ∈ n.tags) ∧
       (∀ cid, cid ∉ rest.map SCard.id →
         (suspend_new_card_siblings col g cardIds).1.getCard cid = col.getCard cid) ∧
       (∀ nid n n', col.getNote nid = some n →
         (suspend_new_card_siblings col g cardIds).1.getNote nid = some n' →
         (n' = n ∨ n'.tags = n.tags ++ [susTagPref ++ g]))) := by
  have hperm := List.perm_insertionSort cardIdLe (newCandidates col cardIds)
  have hsorted := List.sorted_insertionSort cardIdLe (newCandidates col cardIds)
  have hNCnd : ((newCandidates col cardIds).map SCard.id).Nodup :=
    (newCandidates_ids_sublist col cardIds).nodup hnd
  have hSnd : ((List.insertionSort cardIdLe (newCandidates col cardIds)).map
      SCard.id).Nodup := ((hperm.map SCard.id).nodup_iff).mpr hNCnd
  by_cases hlen : (newCandidates col cardIds).length < 2
  · have hfun : suspend_new_card_siblings col g cardIds = (col, 0) := by
      simp only [suspend_new_card_siblings]
      rw [if_pos hlen]
    refine ⟨?_, hperm, hsorted, ?_⟩
    · rw [hfun]
      omega
    · cases hS : List.insertionSort cardIdLe (newCandidates col cardIds) with
      | nil => rw [hfun]
      | cons c0 rest =>
        have hlenS : rest.length = 0 := by
          have := hperm.length_eq
          rw [hS] at this
          simp only [List.length_cons] at this
          omega
        have hrest : rest = [] := List.length_eq_zero.mp hlenS
        subst hrest
        have hc0 : c0 ∈ newCandidates col cardIds := by
          rw [← hperm.mem_iff, hS]
          exact List.mem_cons_self c0 []
        refine ⟨?_, by simp, ?_, ?_⟩
        · rw [hfun]
          exact (newCandidates_getCard hc0).1
        · intro cid _
          rw [hfun]
        · intro nid n n' h1 h2
          rw [hfun] at h2
          rw [h1] at h2
          exact Or.inl (Option.some_inj.mp h2).symm
  · cases hS : List.insertionSort cardIdLe (newCandidates col cardIds) with
    | nil =>
      have := hperm.length_eq
      rw [hS] at this
      simp at this
      omega
    | cons c0 rest =>
      rw [hS] at hperm hsorted
      have hfun : suspend_new_card_siblings col g cardIds =
          rest.foldl (suspendStep g) (col, 0) := by
        simp only [suspend_new_card_siblings]
        rw [if_neg hlen, hS]
      have hmemNC : ∀ c ∈ rest, c ∈ newCandidates col cardIds := by
        intro c hc
        rw [← hperm.mem_iff]
        exact List.mem_cons_of_mem c0 hc
      have hcard : ∀ c ∈ rest, (col.getCard c.id).isSome = true := by
        intro c hc
        rw [(newCandidates_getCard (hmemNC c hc)).1]
        rfl
      have hnote : ∀ c ∈ rest, (col.getNote c.nid).isSome = true := by
        intro c hc
        have hmem : c ∈ col.cards := (getCard_spec (newCandidates_getCard (hmemNC c hc)).1).1
        obtain ⟨n, hn, hnidn⟩ := hwf.2.2 c hmem
        rw [Col.getNote, List.find?_isSome]
        exact ⟨n, hn, by simp [hnidn]⟩
      have hndrest : (rest.map SCard.id).Nodup := by
        rw [hS, List.map_cons] at hSnd
        exact (List.nodup_cons.mp hSnd).2
      have hheadnot : c0.id ∉ rest.map SCard.id := by
        rw [hS, List.map_cons] at hSnd
        exact (List.nodup_cons.mp hSnd).1
      obtain ⟨A, B, C, D, D0, E⟩ := suspendLoop_spec g rest col 0 hcard hnote hndrest
      have hlenEq : (newCandidates col cardIds).length = rest.length + 1 := by
        have := hperm.length_eq
        simp only [List.length_cons] at this
        omega
      refine ⟨?_, hperm, hsorted, ?_, ?_, ?_, ?_⟩
      · rw [hfun, A, hlenEq]
        omega
      · rw [hfun, B c0.id hheadnot]
        have hc0 : c0 ∈ newCandidates col cardIds := by
          rw [← hperm.mem_iff]
          exact List.mem_cons_self c0 rest
        exact (newCandidates_getCard hc0).1
      · intro c hc
        rw [hfun]
        exact ⟨C c hc, E c hc⟩
      · intro cid hcid
        rw [hfun]
        exact B cid hcid
      · intro nid n n' h1 h2
        rw [hfun] at h2
        obtain ⟨n'', h'', hd⟩ := D nid n h1
        rw [h''] at h2
        obtain rfl := Option.some_inj.mp h2
        rcases hd with rfl | ⟨_, ht⟩
        · exact Or.inl rfl
        · exact Or.inr ht

/-- Witness for C5: two notes, three new cards; the count and the post-state
of the first and suspended cards follow from the theorem at this input.  -/
theorem C5_witness :
    (⟨[⟨1, ["sibling::g"]⟩, ⟨2, ["sibling::g"]⟩],
      [⟨1, 1, 0, 0, 0⟩, ⟨2, 1, 0, 0, 1⟩, ⟨3, 2, 0, 0, 2⟩], [], 0, 0⟩ : Col).wf ∧
    ([1, 2, 3] : List Nat).Nodup ∧
    (suspend_new_card_siblings
      (⟨[⟨1, ["sibling::g"]⟩, ⟨2, ["sibling::g"]⟩],
        [⟨1, 1, 0, 0, 0⟩, ⟨2, 1, 0, 0, 1⟩, ⟨3, 2, 0, 0, 2⟩], [], 0, 0⟩ : Col)
      "g" [1, 2, 3]).2 =
      (newCandidates
        (⟨[⟨1, ["sibling::g"]⟩, ⟨2, ["sibling::g"]⟩],
          [⟨1, 1, 0, 0, 0⟩, ⟨2, 1, 0, 0, 1⟩, ⟨3, 2, 0, 0, 2⟩], [], 0, 0⟩ : Col)
        [1, 2, 3]).length - 1 :=
  ⟨by decide, by decide,
    (C5_suspend_extras
      (⟨[⟨1, ["sibling::g"]⟩, ⟨2, ["sibling::g"]⟩],
        [⟨1, 1, 0, 0, 0⟩, ⟨2, 1, 0, 0, 1⟩, ⟨3, 2, 0, 0, 2⟩], [], 0, 0⟩ : Col)
      "g" [1, 2, 3] (by decide) (by decide)).1⟩

/-!  The due-date spreader (claim C6).  -/

theorem eq_of_nodup_map {α : Type} (f : α → Nat) {l : List α} (h : (l.map f).Nodup) :
    ∀ a ∈ l, ∀ b ∈ l, f a = f b → a = b := by
  induction l with
  | nil => simp
  | cons x l ih =>
    simp only [List.map_cons, List.nodup_cons] at h
    intro a ha b hb hf
    rcases List.mem_cons.mp ha with rfl | ha2 <;> rcases List.mem_cons.mp hb with rfl | hb2
    · rfl
    · have hmem : f a ∈ l.map f := by
        rw [hf]
        exact List.mem_map_of_mem f hb2
      exact absurd hmem h.1
    · have hmem : f b ∈ l.map f := by
        rw [← hf]
        exact List.mem_map_of_mem f ha2
      exact absurd hmem h.1
    · exact ih h.2 a ha2 b hb2 hf

theorem find_eq_of_mem_nodup {α : Type} (f : α → Nat) {l : List α}
    (h : (l.map f).Nodup) {c : α} (hc : c ∈ l) :
    l.find? (fun x => f x == f c) = some c := by
  induction l with
  | nil => cases hc
  | cons a l ih =>
    simp only [List.map_cons, List.nodup_cons] at h
    rcases List.mem_cons.mp hc with rfl | hc2
    · rw [List.find?_cons_of_pos _ (by simp)]
    · have hne : f a ≠ f c := by
        intro he
        have hmem : f a ∈ l.map f := by
          rw [he]
          exact List.mem_map_of_mem f hc2
        exact h.1 hmem
      rw [List.find?_cons_of_neg _ (by simpa using hne)]
      exact ih h.2 hc2

theorem getCard_of_mem_nodup {col : Col} (hnd : (col.cards.map SCard.id).Nodup)
    {c : SCard} (hc : c ∈ col.cards) : col.getCard c.id = some c :=
  find_eq_of_mem_nodup SCard.id hnd hc

theorem getNote_of_mem_nodup {col : Col} (hnd : (col.notes.map SNote.id).Nodup)
    {n : SNote} (hn : n ∈ col.notes) : col.getNote n.id = some n :=
  find_eq_of_mem_nodup SNote.id hnd hn

theorem mem_noteCards {col : Col} {nid : Nat} {c : SCard} :
    c ∈ col.noteCards nid ↔ c ∈ col.cards ∧ c.nid = nid := by
  simp [Col.noteCards, List.mem_filter]

theorem dueRC_mem_aux (col : Col) (tag : String) (notes : List SNote) (c : SCard) :
    ∀ acc : List SCard,
    (c ∈ notes.foldl (fun acc n =>
        if tag ∈ n.tags then
          acc ++ (col.noteCards n.id).filter (fun c =>
            c.queue == 2 && decide (c.due ≤ col.today))
        else acc) acc ↔
      c ∈ acc ∨ ∃ n ∈ notes, tag ∈ n.tags ∧ c ∈ col.cards ∧ c.nid = n.id ∧
        c.queue = 2 ∧ c.due ≤ col.today) := by
  induction notes with
  | nil => intro acc; simp
  | cons n ns ih =>
    intro acc
    simp only [List.foldl_cons]
    by_cases ht : tag ∈ n.tags
    · rw [if_pos ht, ih]
      constructor
      · rintro (h | ⟨n', hn', rest⟩)
        · rcases List.mem_append.mp h with h2 | h2
          · exact Or.inl h2
          · have h3 := List.mem_filter.mp h2
            have h4 := mem_noteCards.mp h3.1
            have h5 : c.queue = 2 ∧ c.due ≤ col.today := by simpa using h3.2
            exact Or.inr ⟨n, List.mem_cons_self n ns, ht, h4.1, h4.2, h5.1, h5.2⟩
        · exact Or.inr ⟨n', List.mem_cons_of_mem n hn', rest⟩
      · rintro (h | ⟨n', hn', ht', hcc, hnid, hq, hd⟩)
        · exact Or.inl (List.mem_append_left _ h)
        · rcases List.mem_cons.mp hn' with rfl | hn2
          · refine Or.inl (List.mem_append_right _ ?_)
            exact List.mem_filter.mpr ⟨mem_noteCards.mpr ⟨hcc, hnid⟩, by simp [hq, hd]⟩
          · exact Or.inr ⟨n', hn2, ht', hcc, hnid, hq, hd⟩
    · rw [if_neg ht, ih]
      constructor
      · rintro (h | ⟨n', hn', rest⟩)
        · exact Or.inl h
        · exact Or.inr ⟨n', List.mem_cons_of_mem n hn', rest⟩
      · rintro (h | ⟨n', hn', ht', rest⟩)
        · exact Or.inl h
        · rcases List.mem_cons.mp hn' with rfl | hn2
          · exact absurd ht' ht
          · exact Or.inr ⟨n', hn2, ht', rest⟩

theorem dueReviewCards_iff {col : Col} {tag : String} {c : SCard} :
    c ∈ dueReviewCards col tag ↔
      ∃ n ∈ col.notes, tag ∈ n.tags ∧ c ∈ col.cards ∧ c.nid = n.id ∧
        c.queue = 2 ∧ c.due ≤ col.today := by
  rw [dueReviewCards, dueRC_mem_aux]
  simp

theorem dueRC_nodup_aux (col : Col) (tag : String) :
    ∀ (notes : List SNote) (acc : List SCard),
      (col.cards.map SCard.id).Nodup →
      (notes.map SNote.id).Nodup →
      ((acc.map SCard.id).Nodup) →
      (∀ c ∈ acc, c ∈ col.cards) →
      (∀ c ∈ acc, ∀ n ∈ notes, c.nid ≠ n.id) →
      (((notes.foldl (fun acc n =>
          if tag ∈ n.tags then
            acc ++ (col.noteCards n.id).filter (fun c =>
              c.queue == 2 && decide (c.due ≤ col.today))
          else acc) acc)).map SCard.id).Nodup ∧
      (∀ c ∈ notes.foldl (fun acc n =>
          if tag ∈ n.tags then
            acc ++ (col.noteCards n.id).filter (fun c =>
              c.queue == 2 && decide (c.due ≤ col.today))
          else acc) acc, c ∈ col.cards) := by
  intro notes
  induction notes with
  | nil =>
    intro acc _ _ hacc hmem _
    exact ⟨hacc, hmem⟩
  | cons n ns ih =>
    intro acc hcnd hnn hacc hmem hdisj
    simp only [List.foldl_cons]
    by_cases ht : tag ∈ n.tags
    · rw [if_pos ht]
      have hchunksub : ((col.noteCards n.id).filter (fun c =>
          c.queue == 2 && decide (c.due ≤ col.today))).Sublist col.cards :=
        (List.filter_sublist _).trans (List.filter_sublist _)
      have hchunknd : (((col.noteCards n.id).filter (fun c =>
          c.queue == 2 && decide (c.due ≤ col.today))).map SCard.id).Nodup :=
        (hchunksub.map SCard.id).nodup hcnd
      have hchunkmem : ∀ c ∈ (col.noteCards n.id).filter (fun c =>
          c.queue == 2 && decide (c.due ≤ col.today)), c ∈ col.cards ∧ c.nid = n.id := by
        intro c hc
        exact mem_noteCards.mp (List.mem_filter.mp hc).1
      apply ih
      · exact hcnd
      · exact (List.nodup_cons.mp (by simpa using hnn)).2
      · rw [List.map_append, List.nodup_append]
        refine ⟨hacc, hchunknd, ?_⟩
        intro x hx1 hx2
        obtain ⟨c1, hc1, rfl⟩ := List.mem_map.mp hx1
        obtain ⟨c2, hc2, hid⟩ := List.mem_map.mp hx2
        have hc2' := hchunkmem c2 hc2
        have : c1 = c2 := eq_of_nodup_map SCard.id hcnd c1 (hmem c1 hc1) c2 hc2'.1 hid.symm
        exact hdisj c1 hc1 n (List.mem_cons_self n ns) (this ▸ hc2'.2)
      · intro c hc
        rcases List.mem_append.mp hc with h | h
        · exact hmem c h
        · exact (hchunkmem c h).1
      · intro c hc n' hn'
        rcases List.mem_append.mp hc with h | h
        · exact hdisj c h n' (List.mem_cons_of_mem n hn')
        · have hcn : c.nid = n.id := (hchunkmem c h).2
          have hne : n.id ∉ ns.map SNote.id :=
            (List.nodup_cons.mp (by simpa using hnn)).1
          intro he
          apply hne
          rw [← hcn, he]
          exact List.mem_map_of_mem SNote.id hn'
    · rw [if_neg ht]
      apply ih
      · exact hcnd
      · exact (List.nodup_cons.mp (by simpa using hnn)).2
      · exact hacc
      · exact hmem
      · intro c hc n' hn'
        exact hdisj c hc n' (List.mem_cons_of_mem n hn')

theorem dueReviewCards_ids_nodup (col : Col) (tag : String) (hwf : col.wf) :
    ((dueReviewCards col tag).map SCard.id).Nodup := by
  rw [dueReviewCards]
  exact (dueRC_nodup_aux col tag col.notes [] hwf.1 hwf.2.1 (by simp) (by simp) (by simp)).1

theorem spreadLoop_spec (today minGap : Int) (rest : List SCard) :
    ∀ (col : Col) (i : Int) (cnt : Nat),
      (∀ c ∈ rest, col.getCard c.id = some c) →
      ((rest.map SCard.id).Nodup) →
      ((rest.foldl (spreadStep today minGap) (col, i, cnt)).2.2 =
        cnt + spreadWriteCount today minGap i rest) ∧
      (∀ cid, cid ∉ rest.map SCard.id →
        (rest.foldl (spreadStep today minGap) (col, i, cnt)).1.getCard cid =
          col.getCard cid) ∧
      (∀ k, ∀ hk : k < rest.length,
        (rest.foldl (spreadStep today minGap) (col, i, cnt)).1.getCard
            (rest.get ⟨k, hk⟩).id =
          some { rest.get ⟨k, hk⟩ with due := today + (i + (k : Int)) * minGap }) ∧
      ((rest.foldl (spreadStep today minGap) (col, i, cnt)).1.notes = col.notes) := by
  induction rest with
  | nil =>
    intro col i cnt _ _
    exact ⟨rfl, fun _ _ => rfl, fun k hk => absurd hk (by simp), rfl⟩
  | cons c rest ih =>
    intro col i cnt hself hnd
    have hndtail : (rest.map SCard.id).Nodup := (List.nodup_cons.mp (by simpa using hnd)).2
    have hheadnot : c.id ∉ rest.map SCard.id := (List.nodup_cons.mp (by simpa using hnd)).1
    by_cases hdue : c.due = today + i * minGap
    · have hstep : spreadStep today minGap (col, i, cnt) c = (col, i + 1, cnt) := by
        simp only [spreadStep]
        rw [if_pos hdue]
      have hfold : (c :: rest).foldl (spreadStep today minGap) (col, i, cnt) =
          rest.foldl (spreadStep today minGap) (col, i + 1, cnt) := by
        rw [List.foldl_cons, hstep]
      obtain ⟨A, B, C, D⟩ := ih col (i + 1) cnt
        (fun c' hc' => hself c' (List.mem_cons_of_mem c hc')) hndtail
      rw [hfold]
      refine ⟨?_, ?_, ?_, D⟩
      · rw [A, spreadWriteCount, if_pos hdue]
        omega
      · intro cid hcid
        have h1 : cid ∉ rest.map SCard.id := fun hx => hcid (by simp [hx])
        exact B cid h1
      · intro k hk
        cases k with
        | zero =>
          show (rest.foldl (spreadStep today minGap) (col, i + 1, cnt)).1.getCard c.id =
            some { c with due := today + (i + ((0 : Nat) : Int)) * minGap }
          rw [B c.id hheadnot]
          have he : today + (i + ((0 : Nat) : Int)) * minGap = c.due := by
            push_cast
            rw [add_zero]
            exact hdue.symm
          rw [he]
          exact hself c (List.mem_cons_self c rest)
        | succ k =>
          have hk2 : k < rest.length := by simpa using hk
          have := C k hk2
          have he : today + ((i + 1) + (k : Int)) * minGap =
              today + (i + ((k + 1 : Nat) : Int)) * minGap := by
            push_cast
            ring
          show (rest.foldl (spreadStep today minGap) (col, i + 1, cnt)).1.getCard
              (rest.get ⟨k, hk2⟩).id =
            some { rest.get ⟨k, hk2⟩ with due := today + (i + ((k + 1 : Nat) : Int)) * minGap }
          rw [this, he]
    · have hstep : spreadStep today minGap (col, i, cnt) c =
          (col.updateCard { c with due := today + i * minGap }, i + 1, cnt + 1) := by
        simp only [spreadStep]
        rw [if_neg hdue]
      have hfold : (c :: rest).foldl (spreadStep today minGap) (col, i, cnt) =
          rest.foldl (spreadStep today minGap)
            (col.updateCard { c with due := today + i * minGap }, i + 1, cnt + 1) := by
        rw [List.foldl_cons, hstep]
      have hself2 : ∀ c' ∈ rest,
          (col.updateCard { c with due := today + i * minGap }).getCard c'.id = some c' := by
        intro c' hc'
        have hne : c'.id ≠ ({ c with due := today + i * minGap } : SCard).id := by
          show c'.id ≠ c.id
          intro he
          exact hheadnot (he ▸ List.mem_map_of_mem SCard.id hc')
        rw [getCard_updateCard_ne hne]
        exact hself c' (List.mem_cons_of_mem c hc')
      obtain ⟨A, B, C, D⟩ := ih (col.updateCard { c with due := today + i * minGap })
        (i + 1) (cnt + 1) hself2 hndtail
      rw [hfold]
      refine ⟨?_, ?_, ?_, D⟩
      · rw [A, spreadWriteCount, if_neg hdue]
        omega
      · intro cid hcid
        have h1 : cid ∉ rest.map SCard.id := fun hx => hcid (by simp [hx])
        have h2 : cid ≠ c.id := fun hx => hcid (by simp [hx])
        rw [B cid h1]
        have h2x : cid ≠ ({ c with due := today + i * minGap } : SCard).id := h2
        exact getCard_updateCard_ne h2x
      · intro k hk
        cases k with
        | zero =>
          show (rest.foldl (spreadStep today minGap)
              (col.updateCard { c with due := today + i * minGap }, i + 1, cnt + 1)).1.getCard
              c.id = some { c with due := today + (i + ((0 : Nat) : Int)) * minGap }
          rw [B c.id hheadnot]
          have he : today + (i + ((0 : Nat) : Int)) * minGap = today + i * minGap := by
            push_cast
            rw [add_zero]
          rw [he]
          have hpres : col.getCard ({ c with due := today + i * minGap } : SCard).id =
              some c := hself c (List.mem_cons_self c rest)
          exact getCard_updateCard_self hpres
        | succ k =>
          have hk2 : k < rest.length := by simpa using hk
          have := C k hk2
          have he : today + ((i + 1) + (k : Int)) * minGap =
              today + (i + ((k + 1 : Nat) : Int)) * minGap := by
            push_cast
            ring
          show (rest.foldl (spreadStep today minGap)
              (col.updateCard { c with due := today + i * minGap }, i + 1, cnt + 1)).1.getCard
              (rest.get ⟨k, hk2⟩).id =
            some { rest.get ⟨k, hk2⟩ with due := today + (i + ((k + 1 : Nat) : Int)) * minGap }
          rw [this, he]

/-- Claim C6: the spreader collects the group's review cards due at or before
today, sorts them by (due, identifier) ascending, leaves the first untouched
(and it is an earliest-due one), assigns the card at 1-based position i the
due value today + i * minGap writing only where the value changes, touches
nothing else, and afterwards no two of those cards share a due value; with
three members all due on day 100 and today = 100 the dues become 100, 101,
102 in ascending-identifier order.  -/
theorem C6_spread (col : Col) (g : String) (minGap : Int) (hwf : col.wf)
    (hgap : 1 ≤ minGap) :
    (List.insertionSort dueIdLe (dueReviewCards col (get_sibling_tag g))).Perm
      (dueReviewCards col (get_sibling_tag g)) ∧
    (List.insertionSort dueIdLe (dueReviewCards col (get_sibling_tag g))).Sorted dueIdLe ∧
    ((spread_review_card_due_dates col g minGap).1.notes = col.notes) ∧
    (match List.insertionSort dueIdLe (dueReviewCards col (get_sibling_tag g)) with
     | [] => spread_review_card_due_dates col g minGap = (col, 0)
     | c0 :: rest =>
       (spread_review_card_due_dates col g minGap).1.getCard c0.id = some c0 ∧
       (∀ c ∈ dueReviewCards col (get_sibling_tag g), c0.due ≤ c.due) ∧
       ((spread_review_card_due_dates col g minGap).2 =
         spreadWriteCount col.today minGap 1 rest) ∧
       (∀ k, ∀ hk : k < rest.length,
         (spread_review_card_due_dates col g minGap).1.getCard (rest.get ⟨k, hk⟩).id =
           some { rest.get ⟨k, hk⟩ with due := col.today + (1 + (k : Int)) * minGap }) ∧
       (∀ cid, cid ∉ rest.map SCard.id →
         (spread_review_card_due_dates col g minGap).1.getCard cid = col.getCard cid) ∧
       (∀ c1 ∈ c0 :: rest, ∀ c2 ∈ c0 :: rest, c1.id ≠ c2.id →
         ∀ d1 d2,
           (spread_review_card_due_dates col g minGap).1.getCard c1.id = some d1 →
           (spread_review_card_due_dates col g minGap).1.getCard c2.id = some d2 →
           d1.due ≠ d2.due)) ∧
    ((spread_review_card_due_dates
        (⟨[⟨1, ["sibling::x"]⟩, ⟨2, ["sibling::x"]⟩, ⟨3, ["sibling::x"]⟩],
          [⟨1, 1, 2, 2, 100⟩, ⟨2, 2, 2, 2, 100⟩, ⟨3, 3, 2, 2, 100⟩], [], 100, 0⟩ : Col)
        "x" 1).1.getCard 1 = some ⟨1, 1, 2, 2, 100⟩ ∧
      (spread_review_card_due_dates
        (⟨[⟨1, ["sibling::x"]⟩, ⟨2, ["sibling::x"]⟩, ⟨3, ["sibling::x"]⟩],
          [⟨1, 1, 2, 2, 100⟩, ⟨2, 2, 2, 2, 100⟩, ⟨3, 3, 2, 2, 100⟩], [], 100, 0⟩ : Col)
        "x" 1).1.getCard 2 = some ⟨2, 2, 2, 2, 101⟩ ∧
      (spread_review_card_due_dates
        (⟨[⟨1, ["sibling::x"]⟩, ⟨2, ["sibling::x"]⟩, ⟨3, ["sibling::x"]⟩],
          [⟨1, 1, 2, 2, 100⟩, ⟨2, 2, 2, 2, 100⟩, ⟨3, 3, 2, 2, 100⟩], [], 100, 0⟩ : Col)
        "x" 1).1.getCard 3 = some ⟨3, 3, 2, 2, 102⟩) := by
  have hperm := List.perm_insertionSort dueIdLe (dueReviewCards col (get_sibling_tag g))
  have hsorted := List.sorted_insertionSort dueIdLe (dueReviewCards col (get_sibling_tag g))
  have hdRCnd : ((dueReviewCards col (get_sibling_tag g)).map SCard.id).Nodup :=
    dueReviewCards_ids_nodup col (get_sibling_tag g) hwf
  have hSnd : ((List.insertionSort dueIdLe (dueReviewCards col (get_sibling_tag g))).map
      SCard.id).Nodup := ((hperm.map SCard.id).nodup_iff).mpr hdRCnd
  have hmemcards : ∀ c ∈ dueReviewCards col (get_sibling_tag g),
      c ∈ col.cards ∧ c.due ≤ col.today := by
    intro c hc
    obtain ⟨n, _, _, hcc, _, _, hd⟩ := dueReviewCards_iff.mp hc
    exact ⟨hcc, hd⟩
  refine ⟨hperm, hsorted, ?_, ?_, by refine ⟨by decide, by decide, by decide⟩⟩
  · by_cases hlen : (dueReviewCards col (get_sibling_tag g)).length < 2
    · have hfun : spread_review_card_due_dates col g minGap = (col, 0) := by
        simp only [spread_review_card_due_dates]
        rw [if_pos hlen]
      rw [hfun]
    · cases hS : List.insertionSort dueIdLe (dueReviewCards col (get_sibling_tag g)) with
      | nil =>
        have := hperm.length_eq
        rw [hS] at this
        simp at this
        omega
      | cons c0 rest =>
        have hfun : spread_review_card_due_dates col g minGap =
            ((rest.foldl (spreadStep col.today minGap) (col, 1, 0)).1,
              (rest.foldl (spreadStep col.today minGap) (col, 1, 0)).2.2) := by
          simp only [spread_review_card_due_dates]
          rw [if_neg hlen, hS]
        rw [hS] at hperm
        have hself : ∀ c ∈ rest, col.getCard c.id = some c := by
          intro c hc
          have hcm : c ∈ dueReviewCards col (get_sibling_tag g) :=
            hperm.mem_iff.mp (List.mem_cons_of_mem c0 hc)
          exact getCard_of_mem_nodup hwf.1 (hmemcards c hcm).1
        have hndrest : (rest.map SCard.id).Nodup := by
          rw [hS, List.map_cons] at hSnd
          exact (List.nodup_cons.mp hSnd).2
        obtain ⟨A, B, C, D⟩ := spreadLoop_spec col.today minGap rest col 1 0 hself hndrest
        rw [hfun]
        exact D
  · by_cases hlen : (dueReviewCards col (get_sibling_tag g)).length < 2
    · have hfun : spread_review_card_due_dates col g minGap = (col, 0) := by
        simp only [spread_review_card_due_dates]
        rw [if_pos hlen]
      cases hS : List.insertionSort dueIdLe (dueReviewCards col (get_sibling_tag g)) with
      | nil => exact hfun
      | cons c0 rest =>
        rw [hS] at hperm hsorted
        have hrest : rest = [] := by
          have := hperm.length_eq
          simp only [List.length_cons] at this
          have : rest.length = 0 := by omega
          exact List.length_eq_zero.mp this
        subst hrest
        have hc0 : c0 ∈ dueReviewCards col (get_sibling_tag g) :=
          hperm.mem_iff.mp (List.mem_cons_self c0 [])
        refine ⟨?_, ?_, ?_, ?_, ?_, ?_⟩
        · rw [hfun]
          exact getCard_of_mem_nodup hwf.1 (hmemcards c0 hc0).1
        · intro c hc
          have : c ∈ [c0] := hperm.mem_iff.mpr hc
          rcases List.mem_singleton.mp this with rfl
          exact le_refl _
        · simp [hfun, spreadWriteCount]
        · intro k hk
          exact absurd hk (by simp)
        · intro cid _
          rw [hfun]
        · intro c1 h1 c2 h2 hne d1 d2 hd1 hd2
          rcases List.mem_singleton.mp h1 with rfl
          rcases List.mem_singleton.mp h2 with rfl
          exact absurd rfl hne
    · cases hS : List.insertionSort dueIdLe (dueReviewCards col (get_sibling_tag g)) with
      | nil =>
        have := hperm.length_eq
        rw [hS] at this
        simp at this
        omega
      | cons c0 rest =>
        rw [hS] at hperm hsorted
        have hfun : spread_review_card_due_dates col g minGap =
            ((rest.foldl (spreadStep col.today minGap) (col, 1, 0)).1,
              (rest.foldl (spreadStep col.today minGap) (col, 1, 0)).2.2) := by
          simp only [spread_review_card_due_dates]
          rw [if_neg hlen, hS]
        have hself : ∀ c ∈ rest, col.getCard c.id = some c := by
          intro c hc
          have hcm : c ∈ dueReviewCards col (get_sibling_tag g) :=
            hperm.mem_iff.mp (List.mem_cons_of_mem c0 hc)
          exact getCard_of_mem_nodup hwf.1 (hmemcards c hcm).1
        have hndrest : (rest.map SCard.id).Nodup := by
          rw [hS, List.map_cons] at hSnd
          exact (List.nodup_cons.mp hSnd).2
        have hheadnot : c0.id ∉ rest.map SCard.id := by
          rw [hS, List.map_cons] at hSnd
          exact (List.nodup_cons.mp hSnd).1
        obtain ⟨A, B, C, D⟩ := spreadLoop_spec col.today minGap rest col 1 0 hself hndrest
        have hc0 : c0 ∈ dueReviewCards col (get_sibling_tag g) :=
          hperm.mem_iff.mp (List.mem_cons_self c0 rest)
        have hfirst : (spread_review_card_due_dates col g minGap).1.getCard c0.id =
            some c0 := by
          rw [hfun]
          show (rest.foldl (spreadStep col.today minGap) (col, 1, 0)).1.getCard c0.id =
            some c0
          rw [B c0.id hheadnot]
          exact getCard_of_mem_nodup hwf.1 (hmemcards c0 hc0).1
        refine ⟨hfirst, ?_, ?_, ?_, ?_, ?_⟩
        · intro c hc
          have hcin : c ∈ c0 :: rest := hperm.mem_iff.mpr hc
          rcases List.mem_cons.mp hcin with rfl | hcr
          · exact le_refl _
          · have hle : dueIdLe c0 c := (List.sorted_cons.mp hsorted).1 c hcr
            rcases hle with h | ⟨h, _⟩
            · exact le_of_lt h
            · exact le_of_eq h
        · rw [hfun]
          show (rest.foldl (spreadStep col.today minGap) (col, 1, 0)).2.2 =
            spreadWriteCount col.today minGap 1 rest
          rw [A]
          omega
        · intro k hk
          rw [hfun]
          exact C k hk
        · intro cid hcid
          rw [hfun]
          exact B cid hcid
        · intro c1 h1 c2 h2 hne d1 d2 hd1 hd2
          have hdc : ∀ c ∈ c0 :: rest, ∀ d,
              (spread_review_card_due_dates col g minGap).1.getCard c.id = some d →
              (d = c0 ∧ c.id = c0.id) ∨
                ∃ k, ∃ hk : k < rest.length, (rest.get ⟨k, hk⟩).id = c.id ∧
                  d.due = col.today + (1 + (k : Int)) * minGap := by
            intro c hc d hd
            rcases List.mem_cons.mp hc with rfl | hcr
            · left
              rw [hfirst] at hd
              exact ⟨(Option.some_inj.mp hd).symm, rfl⟩
            · right
              obtain ⟨⟨k, hk⟩, hkeq⟩ := List.mem_iff_get.mp hcr
              have hC := C k hk
              rw [hkeq] at hC
              rw [hfun] at hd
              have hdx : (rest.foldl (spreadStep col.today minGap) (col, 1, 0)).1.getCard
                  c.id = some d := hd
              rw [hC] at hdx
              have heq := Option.some_inj.mp hdx
              refine ⟨k, hk, by rw [hkeq], ?_⟩
              rw [← heq]
          have harith : ∀ k : Nat, col.today < col.today + (1 + (k : Int)) * minGap := by
            intro k
            nlinarith [Int.ofNat_nonneg k]
          rcases hdc c1 h1 d1 hd1 with ⟨hd1c, hid1⟩ | ⟨k1, hk1, hkeq1, hdue1⟩ <;>
            rcases hdc c2 h2 d2 hd2 with ⟨hd2c, hid2⟩ | ⟨k2, hk2, hkeq2, hdue2⟩
          · exact absurd (hid1.trans hid2.symm) hne
          · intro hdd
            have h1le : d1.due ≤ col.today := by
              rw [hd1c]
              exact (hmemcards c0 hc0).2
            have h2gt : col.today < d2.due := by
              rw [hdue2]
              exact harith k2
            omega
          · intro hdd
            have h2le : d2.due ≤ col.today := by
              rw [hd2c]
              exact (hmemcards c0 hc0).2
            have h1gt : col.today < d1.due := by
              rw [hdue1]
              exact harith k1
            omega
          · intro hdd
            rw [hdue1, hdue2] at hdd
            have hAB : (1 + (k1 : Int)) * minGap = (1 + (k2 : Int)) * minGap := by
              linarith
            have hg0 : minGap ≠ 0 := by omega
            have hkk := mul_right_cancel₀ hg0 hAB
            have hke : k1 = k2 := by omega
            subst hke
            exact hne (hkeq1.symm.trans hkeq2)

/-- Witness for C6 at the concrete three-member example collection.  -/
theorem C6_witness :
    (⟨[⟨1, ["sibling::x"]⟩, ⟨2, ["sibling::x"]⟩, ⟨3, ["sibling::x"]⟩],
      [⟨1, 1, 2, 2, 100⟩, ⟨2, 2, 2, 2, 100⟩, ⟨3, 3, 2, 2, 100⟩], [], 100, 0⟩ : Col).wf ∧
    (1 : Int) ≤ 1 ∧
    ((spread_review_card_due_dates
      (⟨[⟨1, ["sibling::x"]⟩, ⟨2, ["sibling::x"]⟩, ⟨3, ["sibling::x"]⟩],
        [⟨1, 1, 2, 2, 100⟩, ⟨2, 2, 2, 2, 100⟩, ⟨3, 3, 2, 2, 100⟩], [], 100, 0⟩ : Col)
      "x" 1).1.notes =
      (⟨[⟨1, ["sibling::x"]⟩, ⟨2, ["sibling::x"]⟩, ⟨3, ["sibling::x"]⟩],
        [⟨1, 1, 2, 2, 100⟩, ⟨2, 2, 2, 2, 100⟩, ⟨3, 3, 2, 2, 100⟩], [], 100, 0⟩ : Col).notes) :=
  ⟨by decide, by decide,
    (C6_spread
      (⟨[⟨1, ["sibling::x"]⟩, ⟨2, ["sibling::x"]⟩, ⟨3, ["sibling::x"]⟩],
        [⟨1, 1, 2, 2, 100⟩, ⟨2, 2, 2, 2, 100⟩, ⟨3, 3, 2, 2, 100⟩], [], 100, 0⟩ : Col)
      "x" 1 (by decide) (by decide)).2.2.1⟩

/-!  The bury coordinator (claim C3).  -/

theorem insertAbsent_mem {l : List Nat} {x y : Nat} :
    y ∈ insertAbsent l x ↔ y ∈ l ∨ y = x := by
  rw [insertAbsent]
  split
  · rename_i h
    constructor
    · exact Or.inl
    · rintro (h2 | rfl)
      · exact h2
      · exact h
  · simp [List.mem_append]

theorem insertAbsent_nodup {l : List Nat} {x : Nat} (h : l.Nodup) :
    (insertAbsent l x).Nodup := by
  rw [insertAbsent]
  split
  · exact h
  · rename_i hx
    rw [List.nodup_append]
    refine ⟨h, by simp, ?_⟩
    intro a ha hax
    rw [List.mem_singleton] at hax
    subst hax
    exact hx ha

theorem buryFromNoteCards_mem (today : Int) (answered : SCard) (cards : List SCard)
    (y : Nat) : ∀ acc : List Nat,
    (y ∈ buryFromNoteCards today answered cards acc ↔
      y ∈ acc ∨ ∃ c ∈ cards, c.id = y ∧ c.id ≠ answered.id ∧ 0 ≤ c.queue ∧
        shouldBury today c = true) := by
  induction cards with
  | nil =>
    intro acc
    simp [buryFromNoteCards]
  | cons c cs ih =>
    intro acc
    have hstep : buryFromNoteCards today answered (c :: cs) acc =
        buryFromNoteCards today answered cs
          (if c.id = answered.id then acc
           else if 0 ≤ c.queue ∧ shouldBury today c = true then insertAbsent acc c.id
           else acc) := by
      rw [buryFromNoteCards, buryFromNoteCards, List.foldl_cons]
    rw [hstep, ih]
    by_cases hca : c.id = answered.id
    · rw [if_pos hca]
      constructor
      · rintro (h | ⟨c', hc', rest⟩)
        · exact Or.inl h
        · exact Or.inr ⟨c', List.mem_cons_of_mem c hc', rest⟩
      · rintro (h | ⟨c', hc', hcy, hcane, hq, hb⟩)
        · exact Or.inl h
        · rcases List.mem_cons.mp hc' with rfl | hc2
          · exact absurd hca hcane
          · exact Or.inr ⟨c', hc2, hcy, hcane, hq, hb⟩
    · rw [if_neg hca]
      by_cases helig : 0 ≤ c.queue ∧ shouldBury today c = true
      · rw [if_pos helig, insertAbsent_mem]
        constructor
        · rintro ((h | rfl) | ⟨c', hc', rest⟩)
          · exact Or.inl h
          · exact Or.inr ⟨c, List.mem_cons_self c cs, rfl, hca, helig.1, helig.2⟩
          · exact Or.inr ⟨c', List.mem_cons_of_mem c hc', rest⟩
        · rintro (h | ⟨c', hc', hcy, hcane, hq, hb⟩)
          · exact Or.inl (Or.inl h)
          · rcases List.mem_cons.mp hc' with rfl | hc2
            · exact Or.inl (Or.inr hcy.symm)
            · exact Or.inr ⟨c', hc2, hcy, hcane, hq, hb⟩
      · rw [if_neg helig]
        constructor
        · rintro (h | ⟨c', hc', rest⟩)
          · exact Or.inl h
          · exact Or.inr ⟨c', List.mem_cons_of_mem c hc', rest⟩
        · rintro (h | ⟨c', hc', hcy, hcane, hq, hb⟩)
          · exact Or.inl h
          · rcases List.mem_cons.mp hc' with rfl | hc2
            · exact absurd ⟨hq, hb⟩ helig
            · exact Or.inr ⟨c', hc2, hcy, hcane, hq, hb⟩

theorem buryFromNoteCards_nodup (today : Int) (answered : SCard) (cards : List SCard) :
    ∀ acc : List Nat, acc.Nodup → (buryFromNoteCards today answered cards acc).Nodup := by
  induction cards with
  | nil =>
    intro acc h
    exact h
  | cons c cs ih =>
    intro acc h
    have hstep : buryFromNoteCards today answered (c :: cs) acc =
        buryFromNoteCards today answered cs
          (if c.id = answered.id then acc
           else if 0 ≤ c.queue ∧ shouldBury today c = true then insertAbsent acc c.id
           else acc) := by
      rw [buryFromNoteCards, buryFromNoteCards, List.foldl_cons]
    rw [hstep]
    apply ih
    split
    · exact h
    · split
      · exact insertAbsent_nodup h
      · exact h

theorem buryTagFold_mem (col : Col) (answered : SCard) (y : Nat) (ns : List SNote) :
    ∀ acc : List Nat,
    (y ∈ ns.foldl (fun a n =>
        if n.id = answered.nid then a
        else buryFromNoteCards col.today answered (col.noteCards n.id) a) acc ↔
      y ∈ acc ∨ ∃ n ∈ ns, n.id ≠ answered.nid ∧ ∃ c ∈ col.cards, c.nid = n.id ∧
        c.id = y ∧ c.id ≠ answered.id ∧ 0 ≤ c.queue ∧ shouldBury col.today c = true) := by
  induction ns with
  | nil =>
    intro acc
    simp
  | cons n ns ih =>
    intro acc
    rw [List.foldl_cons]
    by_cases hna : n.id = answered.nid
    · rw [if_pos hna, ih]
      constructor
      · rintro (h | ⟨n', hn', rest⟩)
        · exact Or.inl h
        · exact Or.inr ⟨n', List.mem_cons_of_mem n hn', rest⟩
      · rintro (h | ⟨n', hn', hne, rest⟩)
        · exact Or.inl h
        · rcases List.mem_cons.mp hn' with rfl | hn2
          · exact absurd hna hne
          · exact Or.inr ⟨n', hn2, hne, rest⟩
    · rw [if_neg hna, ih]
      constructor
      · rintro (h | ⟨n', hn', rest⟩)
        · rcases (buryFromNoteCards_mem col.today answered (col.noteCards n.id) y acc).mp h
            with h2 | ⟨c, hc, hcy, hcane, hq, hb⟩
          · exact Or.inl h2
          · have hcc := mem_noteCards.mp hc
            exact Or.inr ⟨n, List.mem_cons_self n ns, hna, c, hcc.1, hcc.2, hcy, hcane,
              hq, hb⟩
        · exact Or.inr ⟨n', List.mem_cons_of_mem n hn', rest⟩
      · rintro (h | ⟨n', hn', hne, c, hc, hcn, hcy, hcane, hq, hb⟩)
        · exact Or.inl ((buryFromNoteCards_mem col.today answered
            (col.noteCards n.id) y acc).mpr (Or.inl h))
        · rcases List.mem_cons.mp hn' with rfl | hn2
          · exact Or.inl ((buryFromNoteCards_mem col.today answered
              (col.noteCards n'.id) y acc).mpr
              (Or.inr ⟨c, mem_noteCards.mpr ⟨hc, hcn⟩, hcy, hcane, hq, hb⟩))
          · exact Or.inr ⟨n', hn2, hne, c, hc, hcn, hcy, hcane, hq, hb⟩

theorem buryFromTag_mem (col : Col) (answered : SCard) (tag : String) (y : Nat)
    (acc : List Nat) :
    y ∈ buryFromTag col answered tag acc ↔
      y ∈ acc ∨ ∃ n ∈ col.notes, tag ∈ n.tags ∧ n.id ≠ answered.nid ∧
        ∃ c ∈ col.cards, c.nid = n.id ∧ c.id = y ∧ c.id ≠ answered.id ∧
          0 ≤ c.queue ∧ shouldBury col.today c = true := by
  rw [buryFromTag, buryTagFold_mem]
  constructor
  · rintro (h | ⟨n, hn, hne, rest⟩)
    · exact Or.inl h
    · have hn2 := List.mem_filter.mp hn
      exact Or.inr ⟨n, hn2.1, by simpa using hn2.2, hne, rest⟩
  · rintro (h | ⟨n, hn, ht, hne, rest⟩)
    · exact Or.inl h
    · exact Or.inr ⟨n, List.mem_filter.mpr ⟨hn, by simpa using ht⟩, hne, rest⟩

theorem buryTagFold_nodup (col : Col) (answered : SCard) (ns : List SNote) :
    ∀ acc : List Nat, acc.Nodup →
    (ns.foldl (fun a n =>
        if n.id = answered.nid then a
        else buryFromNoteCards col.today answered (col.noteCards n.id) a) acc).Nodup := by
  induction ns with
  | nil =>
    intro acc h
    exact h
  | cons n ns ih =>
    intro acc h
    rw [List.foldl_cons]
    apply ih
    split
    · exact h
    · exact buryFromNoteCards_nodup col.today answered (col.noteCards n.id) acc h

theorem buryListFold_mem (col : Col) (answered : SCard) (y : Nat) (tags : List String) :
    ∀ acc : List Nat,
    (y ∈ tags.foldl (fun a t =>
        match extract_group_name t with
        | some g => if g = "" then a else buryFromTag col answered t a
        | none => a) acc ↔
      y ∈ acc ∨ ∃ t ∈ tags, (∃ gname, extract_group_name t = some gname ∧ gname ≠ "") ∧
        ∃ n ∈ col.notes, t ∈ n.tags ∧ n.id ≠ answered.nid ∧
          ∃ c ∈ col.cards, c.nid = n.id ∧ c.id = y ∧ c.id ≠ answered.id ∧
            0 ≤ c.queue ∧ shouldBury col.today c = true) := by
  induction tags with
  | nil =>
    intro acc
    simp
  | cons t ts ih =>
    intro acc
    rw [List.foldl_cons]
    cases hg : extract_group_name t with
    | none =>
      rw [ih]
      constructor
      · rintro (h | ⟨t', ht', rest⟩)
        · exact Or.inl h
        · exact Or.inr ⟨t', List.mem_cons_of_mem t ht', rest⟩
      · rintro (h | ⟨t', ht', ⟨gname, hgn, hgne⟩, rest⟩)
        · exact Or.inl h
        · rcases List.mem_cons.mp ht' with rfl | ht2
          · rw [hg] at hgn
            cases hgn
          · exact Or.inr ⟨t', ht2, ⟨gname, hgn, hgne⟩, rest⟩
    | some gname =>
      have hred : (match some gname with
          | some g => if g = "" then acc else buryFromTag col answered t acc
          | none => acc) = (if gname = "" then acc else buryFromTag col answered t acc) := rfl
      rw [hred]
      by_cases hge : gname = ""
      · rw [if_pos hge, ih]
        constructor
        · rintro (h | ⟨t', ht', rest⟩)
          · exact Or.inl h
          · exact Or.inr ⟨t', List.mem_cons_of_mem t ht', rest⟩
        · rintro (h | ⟨t', ht', ⟨gname', hgn, hgne⟩, rest⟩)
          · exact Or.inl h
          · rcases List.mem_cons.mp ht' with rfl | ht2
            · rw [hg] at hgn
              exact absurd (hge ▸ Option.some_inj.mp hgn.symm) hgne
            · exact Or.inr ⟨t', ht2, ⟨gname', hgn, hgne⟩, rest⟩
      · rw [if_neg hge, ih]
        constructor
        · rintro (h | ⟨t', ht', rest⟩)
          · rcases (buryFromTag_mem col answered t y acc).mp h with h2 | ⟨n, hn, rest2⟩
            · exact Or.inl h2
            · exact Or.inr ⟨t, List.mem_cons_self t ts, ⟨gname, hg, hge⟩, n, hn, rest2⟩
          · exact Or.inr ⟨t', List.mem_cons_of_mem t ht', rest⟩
        · rintro (h | ⟨t', ht', hex, rest⟩)
          · exact Or.inl ((buryFromTag_mem col answered t y acc).mpr (Or.inl h))
          · rcases List.mem_cons.mp ht' with rfl | ht2
            · exact Or.inl ((buryFromTag_mem col answered t' y acc).mpr (Or.inr rest))
            · exact Or.inr ⟨t', ht2, hex, rest⟩

theorem buryListOf_mem (col : Col) (answered : SCard) (sibTags : List String) (y : Nat) :
    y ∈ buryListOf col answered sibTags ↔
      ∃ t ∈ sibTags, (∃ gname, extract_group_name t = some gname ∧ gname ≠ "") ∧
        ∃ n ∈ col.notes, t ∈ n.tags ∧ n.id ≠ answered.nid ∧
          ∃ c ∈ col.cards, c.nid = n.id ∧ c.id = y ∧ c.id ≠ answered.id ∧
            0 ≤ c.queue ∧ shouldBury col.today c = true := by
  rw [buryListOf, buryListFold_mem]
  simp

theorem buryListOf_nodup (col : Col) (answered : SCard) (sibTags : List String) :
    (buryListOf col answered sibTags).Nodup := by
  rw [buryListOf]
  have haux : ∀ (tags : List String) (acc : List Nat), acc.Nodup →
      (tags.foldl (fun a t =>
        match extract_group_name t with
        | some g => if g = "" then a else buryFromTag col answered t a
        | none => a) acc).Nodup := by
    intro tags
    induction tags with
    | nil =>
      intro acc h
      exact h
    | cons t ts ih =>
      intro acc h
      rw [List.foldl_cons]
      apply ih
      cases hg : extract_group_name t with
      | none => exact h
      | some gname =>
        have hred : (match some gname with
            | some g => if g = "" then acc else buryFromTag col answered t acc
            | none => acc) = (if gname = "" then acc else buryFromTag col answered t acc) :=
          rfl
        rw [hred]
        split
        · exact h
        · exact buryTagFold_nodup col answered _ acc h
  exact haux _ [] (by simp)

theorem extract_some_isSib {t g : String} (h : extract_group_name t = some g) :
    strStartsWith sibTagPref t = true := by
  by_cases hs : strStartsWith sibTagPref t = true
  · exact hs
  · rw [extract_group_name, if_neg hs] at h
    cases h

/-- Claim C3: on an answer event the bury coordinator computes a
duplicate-free command argument containing exactly the sibling cards — cards
of other notes sharing a (nonempty-named) sibling tag with the answered
card's note — that are active (queue at least 0) and bury-eligible by phase
(new and learning unconditionally, review and day-learning only when due at
or before today); one bury command is issued over that union.  -/
theorem C3_bury (col : Col) (answered : SCard) (note : SNote)
    (hnote : col.getNote answered.nid = some note) :
    (buryListOf col answered (get_sibling_tags_for_note note)).Nodup ∧
    (∀ cid, cid ∈ buryListOf col answered (get_sibling_tags_for_note note) ↔
      eligibleForBury col answered note cid) ∧
    bury_custom_siblings col answered =
      (if buryListOf col answered (get_sibling_tags_for_note note) = [] then (col, 0)
       else (col.buryCards (buryListOf col answered (get_sibling_tags_for_note note)),
         (buryListOf col answered (get_sibling_tags_for_note note)).length)) := by
  refine ⟨buryListOf_nodup col answered _, ?_, ?_⟩
  · intro cid
    rw [buryListOf_mem]
    constructor
    · rintro ⟨t, htmem, hex, n, hn, htn, hnne, c, hc, hcn, hcy, hcane, hq, hb⟩
      refine ⟨c, hc, hcy, ?_, hcane, ⟨t, (List.mem_filter.mp htmem).1, hex, n, hn,
        hcn.symm, htn⟩, hq, hb⟩
      rw [hcn]
      exact hnne
    · rintro ⟨c, hc, hcy, hcnne, hcane, ⟨t, htmem, hex, n, hn, hnid_eq, htn⟩, hq, hb⟩
      obtain ⟨g, hg, hge⟩ := hex
      refine ⟨t, List.mem_filter.mpr ⟨htmem, by simpa using extract_some_isSib hg⟩,
        ⟨g, hg, hge⟩, n, hn, htn, ?_, c, hc, hnid_eq.symm, hcy, hcane, hq, hb⟩
      rw [hnid_eq]
      exact hcnne
  · have hx : bury_custom_siblings col answered =
        (if get_sibling_tags_for_note note = [] then (col, 0)
         else
           if buryListOf col answered (get_sibling_tags_for_note note) = [] then (col, 0)
           else (col.buryCards (buryListOf col answered (get_sibling_tags_for_note note)),
             (buryListOf col answered (get_sibling_tags_for_note note)).length)) := by
      rw [bury_custom_siblings, hnote]
    rw [hx]
    by_cases hst : get_sibling_tags_for_note note = []
    · rw [if_pos hst]
      have hempty : buryListOf col answered (get_sibling_tags_for_note note) = [] := by
        rw [hst]
        rfl
      rw [if_pos hempty]
    · rw [if_neg hst]

/-- Witness for C3: one shared group, one eligible new sibling.  -/
theorem C3_witness :
    (⟨[⟨1, ["sibling::g", "sibling::h"]⟩, ⟨2, ["sibling::g", "sibling::h"]⟩],
      [⟨1, 1, 2, 2, 5⟩, ⟨2, 2, 0, 0, 0⟩, ⟨3, 2, 2, 2, 50⟩, ⟨4, 2, -1, 2, 3⟩],
      [], 10, 0⟩ : Col).getNote 1 = some ⟨1, ["sibling::g", "sibling::h"]⟩ ∧
    (buryListOf
      (⟨[⟨1, ["sibling::g", "sibling::h"]⟩, ⟨2, ["sibling::g", "sibling::h"]⟩],
        [⟨1, 1, 2, 2, 5⟩, ⟨2, 2, 0, 0, 0⟩, ⟨3, 2, 2, 2, 50⟩, ⟨4, 2, -1, 2, 3⟩],
        [], 10, 0⟩ : Col) ⟨1, 1, 2, 2, 5⟩
      (get_sibling_tags_for_note ⟨1, ["sibling::g", "sibling::h"]⟩)).Nodup :=
  ⟨by decide,
    (C3_bury
      (⟨[⟨1, ["sibling::g", "sibling::h"]⟩, ⟨2, ["sibling::g", "sibling::h"]⟩],
        [⟨1, 1, 2, 2, 5⟩, ⟨2, 2, 0, 0, 0⟩, ⟨3, 2, 2, 2, 50⟩, ⟨4, 2, -1, 2, 3⟩],
        [], 10, 0⟩ : Col) ⟨1, 1, 2, 2, 5⟩ ⟨1, ["sibling::g", "sibling::h"]⟩
      (by decide)).1⟩

/-!  The membership marker (claims C7 and C8).  -/

theorem sibTag_ne_marker (g h : String) : get_sibling_tag g ≠ susTagPref ++ h := by
  intro he
  have hd := congrArg String.data he
  rw [get_sibling_tag, String.data_append, String.data_append] at hd
  have h9 := congrArg (List.take 9) hd
  rw [List.take_append_of_le_length (by decide),
    List.take_append_of_le_length (by decide)] at h9
  exact absurd h9 (by decide)

theorem addTagFold_spec (tag : String) (nids : List Nat) :
    ∀ (col : Col) (cnt : Nat),
      (nids.foldl (addTagStep tag) (col, cnt)).1.cards = col.cards ∧
      (nids.foldl (addTagStep tag) (col, cnt)).1.notes.map SNote.id =
        col.notes.map SNote.id ∧
      cnt ≤ (nids.foldl (addTagStep tag) (col, cnt)).2 ∧
      (∀ nid n, col.getNote nid = some n →
        ∃ n', (nids.foldl (addTagStep tag) (col, cnt)).1.getNote nid = some n' ∧
          (n' = n ∨ (tag ∉ n.tags ∧ n'.tags = n.tags ++ [tag] ∧ nid ∈ nids))) ∧
      (∀ nid, col.getNote nid = none →
        (nids.foldl (addTagStep tag) (col, cnt)).1.getNote nid = none) ∧
      (∀ nid ∈ nids, ∀ n, col.getNote nid = some n →
        ∃ n', (nids.foldl (addTagStep tag) (col, cnt)).1.getNote nid = some n' ∧
          tag ∈ n'.tags) ∧
      ((∃ nid ∈ nids, ∃ n, col.getNote nid = some n ∧ tag ∉ n.tags) →
        cnt < (nids.foldl (addTagStep tag) (col, cnt)).2) ∧
      ((nids.foldl (addTagStep tag) (col, cnt)).2 = cnt →
        (nids.foldl (addTagStep tag) (col, cnt)).1 = col) ∧
      ((∀ nid ∈ nids, ∀ n, col.getNote nid = some n → tag ∈ n.tags) →
        nids.foldl (addTagStep tag) (col, cnt) = (col, cnt)) := by
  induction nids with
  | nil =>
    intro col cnt
    exact ⟨rfl, rfl, Nat.le_refl cnt, fun nid n h => ⟨n, h, Or.inl rfl⟩,
      fun nid h => h, by simp, by simp, fun _ => rfl, fun _ => rfl⟩
  | cons nid0 nids ih =>
    intro col cnt
    cases hg : col.getNote nid0 with
    | none =>
      have hstep : addTagStep tag (col, cnt) nid0 = (col, cnt) := by
        rw [addTagStep]
        rw [hg]
      have hfold : (nid0 :: nids).foldl (addTagStep tag) (col, cnt) =
          nids.foldl (addTagStep tag) (col, cnt) := by
        rw [List.foldl_cons, hstep]
      obtain ⟨A, H, M, B, C, D, E, G, I⟩ := ih col cnt
      rw [hfold]
      refine ⟨A, H, M, ?_, C, ?_, ?_, G, ?_⟩
      · intro nid n h
        obtain ⟨n', h1, h2⟩ := B nid n h
        exact ⟨n', h1, h2.imp id (fun h3 => ⟨h3.1, h3.2.1, List.mem_cons_of_mem _ h3.2.2⟩)⟩
      · intro nid hmem n h
        rcases List.mem_cons.mp hmem with rfl | hmem2
        · rw [hg] at h
          cases h
        · exact D nid hmem2 n h
      · rintro ⟨nid, hmem, n, h, ht⟩
        rcases List.mem_cons.mp hmem with rfl | hmem2
        · rw [hg] at h
          cases h
        · exact E ⟨nid, hmem2, n, h, ht⟩
      · intro hall
        exact I (fun nid hm n h => hall nid (List.mem_cons_of_mem _ hm) n h)
    | some n =>
      by_cases ht : tag ∈ n.tags
      · have hstep : addTagStep tag (col, cnt) nid0 = (col, cnt) := by
          rw [addTagStep]
          rw [hg]
          show (if tag ∈ n.tags then ((col, cnt) : Col × Nat)
            else (col.updateNote { n with tags := n.tags ++ [tag] }, cnt + 1)) = (col, cnt)
          rw [if_pos ht]
        have hfold : (nid0 :: nids).foldl (addTagStep tag) (col, cnt) =
            nids.foldl (addTagStep tag) (col, cnt) := by
          rw [List.foldl_cons, hstep]
        obtain ⟨A, H, M, B, C, D, E, G, I⟩ := ih col cnt
        rw [hfold]
        refine ⟨A, H, M, ?_, C, ?_, ?_, G, ?_⟩
        · intro nid n1 h
          obtain ⟨n', h1, h2⟩ := B nid n1 h
          exact ⟨n', h1, h2.imp id (fun h3 => ⟨h3.1, h3.2.1, List.mem_cons_of_mem _ h3.2.2⟩)⟩
        · intro nid hmem n1 h
          by_cases hnn : nid = nid0
          · subst hnn
            have heq : n1 = n := by
              rw [hg] at h
              exact (Option.some.inj h).symm
            subst heq
            obtain ⟨n', h1, h2⟩ := B nid n1 h
            refine ⟨n', h1, ?_⟩
            rcases h2 with rfl | ⟨_, h4, _⟩
            · exact ht
            · rw [h4]
              exact List.mem_append.mpr (Or.inr (List.mem_singleton.mpr rfl))
          · rcases List.mem_cons.mp hmem with hx | hmem2
            · exact absurd hx hnn
            · exact D nid hmem2 n1 h
        · rintro ⟨nid, hmem, n1, h, ht1⟩
          by_cases hnn : nid = nid0
          · subst hnn
            have heq : n1 = n := by
              rw [hg] at h
              exact (Option.some.inj h).symm
            subst heq
            exact absurd ht ht1
          · rcases List.mem_cons.mp hmem with hx | hmem2
            · exact absurd hx hnn
            · exact E ⟨nid, hmem2, n1, h, ht1⟩
        · intro hall
          exact I (fun nid hm n1 h => hall nid (List.mem_cons_of_mem _ hm) n1 h)
      · have hnid : n.id = nid0 := (getNote_spec hg).2
        have hstep : addTagStep tag (col, cnt) nid0 =
            (col.updateNote { n with tags := n.tags ++ [tag] }, cnt + 1) := by
          rw [addTagStep]
          rw [hg]
          show (if tag ∈ n.tags then ((col, cnt) : Col × Nat)
            else (col.updateNote { n with tags := n.tags ++ [tag] }, cnt + 1)) =
            (col.updateNote { n with tags := n.tags ++ [tag] }, cnt + 1)
          rw [if_neg ht]
        have hfold : (nid0 :: nids).foldl (addTagStep tag) (col, cnt) =
            nids.foldl (addTagStep tag)
              (col.updateNote { n with tags := n.tags ++ [tag] }, cnt + 1) := by
          rw [List.foldl_cons, hstep]
        obtain ⟨A, H, M, B, C, D, E, G, I⟩ :=
          ih (col.updateNote { n with tags := n.tags ++ [tag] }) (cnt + 1)
        rw [hfold]
        have hgself : (col.updateNote { n with tags := n.tags ++ [tag] }).getNote nid0 =
            some { n with tags := n.tags ++ [tag] } := by
          have hb : col.getNote ({ n with tags := n.tags ++ [tag] } : SNote).id = some n := by
            show col.getNote n.id = some n
            rw [hnid]
            exact hg
          have h2 := getNote_updateNote_self hb
          rw [← hnid]
          exact h2
        have hgne : ∀ nid, nid ≠ nid0 →
            (col.updateNote { n with tags := n.tags ++ [tag] }).getNote nid =
              col.getNote nid := by
          intro nid hne
          have hne2 : nid ≠ ({ n with tags := n.tags ++ [tag] } : SNote).id := by
            show nid ≠ n.id
            rw [hnid]
            exact hne
          exact getNote_updateNote_ne hne2
        have htagmem : tag ∈ ({ n with tags := n.tags ++ [tag] } : SNote).tags :=
          List.mem_append.mpr (Or.inr (List.mem_singleton.mpr rfl))
        refine ⟨?_, ?_, ?_, ?_, ?_, ?_, ?_, ?_, ?_⟩
        · exact A.trans (updateNote_cards col _)
        · exact H.trans (updateNote_noteIds col _)
        · exact Nat.le_of_succ_le M
        · intro nid n1 h1
          by_cases hnn : nid = nid0
          · subst hnn
            have heq : n1 = n := by
              rw [hg] at h1
              exact (Option.some.inj h1).symm
            subst heq
            obtain ⟨n', h3, h4⟩ := B nid _ hgself
            refine ⟨n', h3, Or.inr ⟨ht, ?_, List.mem_cons_self nid nids⟩⟩
            rcases h4 with rfl | ⟨h5, _⟩
            · rfl
            · exact absurd htagmem h5
          · obtain ⟨n', h3, h4⟩ := B nid n1 (by rw [hgne nid hnn]; exact h1)
            exact ⟨n', h3, h4.imp id (fun h5 => ⟨h5.1, h5.2.1, List.mem_cons_of_mem _ h5.2.2⟩)⟩
        · intro nid h1
          have hnn : nid ≠ nid0 := by
            intro he
            rw [he, hg] at h1
            cases h1
          exact C nid (by rw [hgne nid hnn]; exact h1)
        · intro nid hmem n1 h1
          by_cases hnn : nid = nid0
          · subst hnn
            obtain ⟨n', h3, h4⟩ := B nid _ hgself
            refine ⟨n', h3, ?_⟩
            rcases h4 with rfl | ⟨_, h5, _⟩
            · exact htagmem
            · rw [h5]
              exact List.mem_append.mpr (Or.inr (List.mem_singleton.mpr rfl))
          · rcases List.mem_cons.mp hmem with hx | hmem2
            · exact absurd hx hnn
            · exact D nid hmem2 n1 (by rw [hgne nid hnn]; exact h1)
        · intro _
          exact Nat.lt_of_lt_of_le (Nat.lt_succ_self cnt) M
        · intro hcnt
          exact absurd M (by omega)
        · intro hall
          exact absurd (hall nid0 (List.mem_cons_self nid0 nids) n hg) ht

theorem suspendStep_ids (g : String) (acc : Col × Nat) (c : SCard) :
    (suspendStep g acc c).1.cards.map SCard.id = acc.1.cards.map SCard.id ∧
    (suspendStep g acc c).1.notes.map SNote.id = acc.1.notes.map SNote.id := by
  cases hg : (acc.1.updateCard { c with queue := -1 }).getNote c.nid with
  | none =>
    have hstep : suspendStep g acc c = (acc.1.updateCard { c with queue := -1 }, acc.2) := by
      rw [suspendStep]
      rw [hg]
    rw [hstep]
    exact ⟨updateCard_cardIds acc.1 _,
      congrArg (List.map SNote.id) (updateCard_notes acc.1 _)⟩
  | some n =>
    have hstep : suspendStep g acc c =
        (if (susTagPref ++ g) ∈ n.tags then acc.1.updateCard { c with queue := -1 }
         else (acc.1.updateCard { c with queue := -1 }).updateNote
           ⟨n.id, n.tags ++ [susTagPref ++ g]⟩, acc.2 + 1) := by
      rw [suspendStep]
      rw [hg]
    rw [hstep]
    by_cases ht : (susTagPref ++ g) ∈ n.tags
    · rw [if_pos ht]
      exact ⟨updateCard_cardIds acc.1 _,
        congrArg (List.map SNote.id) (updateCard_notes acc.1 _)⟩
    · rw [if_neg ht]
      constructor
      · show ((acc.1.updateCard { c with queue := -1 }).updateNote
            ⟨n.id, n.tags ++ [susTagPref ++ g]⟩).cards.map SCard.id =
          acc.1.cards.map SCard.id
        rw [updateNote_cards]
        exact updateCard_cardIds acc.1 _
      · show ((acc.1.updateCard { c with queue := -1 }).updateNote
            ⟨n.id, n.tags ++ [susTagPref ++ g]⟩).notes.map SNote.id =
          acc.1.notes.map SNote.id
        rw [updateNote_noteIds, updateCard_notes]

theorem foldl_suspendStep_ids (g : String) (rest : List SCard) :
    ∀ (acc : Col × Nat),
      (rest.foldl (suspendStep g) acc).1.cards.map SCard.id =
        acc.1.cards.map SCard.id ∧
      (rest.foldl (suspendStep g) acc).1.notes.map SNote.id =
        acc.1.notes.map SNote.id := by
  induction rest with
  | nil => intro acc; exact ⟨rfl, rfl⟩
  | cons c rest ih =>
    intro acc
    rw [List.foldl_cons]
    obtain ⟨h1, h2⟩ := ih (suspendStep g acc c)
    obtain ⟨h3, h4⟩ := suspendStep_ids g acc c
    exact ⟨h1.trans h3, h2.trans h4⟩

theorem spreadStep_ids (today minGap : Int) (acc : Col × Int × Nat) (c : SCard) :
    (spreadStep today minGap acc c).1.cards.map SCard.id = acc.1.cards.map SCard.id ∧
    (spreadStep today minGap acc c).1.notes = acc.1.notes := by
  rw [spreadStep]
  by_cases hd : c.due = today + acc.2.1 * minGap
  · rw [if_pos hd]
    exact ⟨rfl, rfl⟩
  · rw [if_neg hd]
    exact ⟨updateCard_cardIds acc.1 _, updateCard_notes acc.1 _⟩

theorem foldl_spreadStep_ids (today minGap : Int) (rest : List SCard) :
    ∀ (acc : Col × Int × Nat),
      (rest.foldl (spreadStep today minGap) acc).1.cards.map SCard.id =
        acc.1.cards.map SCard.id ∧
      (rest.foldl (spreadStep today minGap) acc).1.notes = acc.1.notes := by
  induction rest with
  | nil => intro acc; exact ⟨rfl, rfl⟩
  | cons c rest ih =>
    intro acc
    rw [List.foldl_cons]
    obtain ⟨h1, h2⟩ := ih (spreadStep today minGap acc c)
    obtain ⟨h3, h4⟩ := spreadStep_ids today minGap acc c
    exact ⟨h1.trans h3, h2.trans h4⟩

theorem suspend_ids (col : Col) (g : String) (cardIds : List Nat) :
    (suspend_new_card_siblings col g cardIds).1.cards.map SCard.id =
      col.cards.map SCard.id ∧
    (suspend_new_card_siblings col g cardIds).1.notes.map SNote.id =
      col.notes.map SNote.id := by
  rw [suspend_new_card_siblings]
  by_cases hlen : (newCandidates col cardIds).length < 2
  · rw [if_pos hlen]
    exact ⟨rfl, rfl⟩
  · rw [if_neg hlen]
    cases hS : List.insertionSort cardIdLe (newCandidates col cardIds) with
    | nil => exact ⟨rfl, rfl⟩
    | cons c0 rest => exact foldl_suspendStep_ids g rest (col, 0)

theorem spread_ids (col : Col) (g : String) (minGap : Int) :
    (spread_review_card_due_dates col g minGap).1.cards.map SCard.id =
      col.cards.map SCard.id ∧
    (spread_review_card_due_dates col g minGap).1.notes = col.notes := by
  rw [spread_review_card_due_dates]
  by_cases hlen : (dueReviewCards col (get_sibling_tag g)).length < 2
  · rw [if_pos hlen]
    exact ⟨rfl, rfl⟩
  · rw [if_neg hlen]
    cases hS : List.insertionSort dueIdLe (dueReviewCards col (get_sibling_tag g)) with
    | nil => exact ⟨rfl, rfl⟩
    | cons c0 rest => exact foldl_spreadStep_ids col.today minGap rest (col, 1, 0)

theorem wf_skel_transfer (s t : Col)
    (hc : t.cards.map SCard.id = s.cards.map SCard.id)
    (hn : t.notes.map SNote.id = s.notes.map SNote.id)
    (hskel : ∀ cid, (t.getCard cid).map (fun c => (c.id, c.nid)) =
      (s.getCard cid).map (fun c => (c.id, c.nid)))
    (hwf : s.wf) : t.wf := by
  have h1 : (t.cards.map SCard.id).Nodup := hc ▸ hwf.1
  refine ⟨h1, hn ▸ hwf.2.1, ?_⟩
  intro c hcm
  have hget : t.getCard c.id = some c := getCard_of_mem_nodup h1 hcm
  have hx := hskel c.id
  rw [hget] at hx
  cases hs : s.getCard c.id with
  | none =>
    rw [hs] at hx
    exact absurd hx (by simp)
  | some c0 =>
    rw [hs] at hx
    have hnid : c.nid = c0.nid := by
      have := Option.some.inj hx
      exact (Prod.mk.injEq _ _ _ _ ▸ this).2
    have hc0m : c0 ∈ s.cards := (getCard_spec hs).1
    obtain ⟨n, hnm, hnidn⟩ := hwf.2.2 c0 hc0m
    have hmem : c.nid ∈ t.notes.map SNote.id := by
      rw [hn, hnid, ← hnidn]
      exact List.mem_map_of_mem SNote.id hnm
    obtain ⟨n', hn', hid⟩ := List.mem_map.mp hmem
    exact ⟨n', hn', hid⟩

theorem suspend_skel (col : Col) (g : String) (cardIds : List Nat)
    (hwf : col.wf) (hnd : cardIds.Nodup) :
    (∀ cid, ((suspend_new_card_siblings col g cardIds).1.getCard cid).map
        (fun c => (c.id, c.nid)) = (col.getCard cid).map (fun c => (c.id, c.nid))) ∧
    (∀ nid n, col.getNote nid = some n →
      ∃ n', (suspend_new_card_siblings col g cardIds).1.getNote nid = some n' ∧
        (n' = n ∨ n'.tags = n.tags ++ [susTagPref ++ g])) ∧
    (∀ nid, col.getNote nid = none →
      (suspend_new_card_siblings col g cardIds).1.getNote nid = none) := by
  have hperm := List.perm_insertionSort cardIdLe (newCandidates col cardIds)
  have hNCnd : ((newCandidates col cardIds).map SCard.id).Nodup :=
    (newCandidates_ids_sublist col cardIds).nodup hnd
  have hSnd : ((List.insertionSort cardIdLe (newCandidates col cardIds)).map
      SCard.id).Nodup := ((hperm.map SCard.id).nodup_iff).mpr hNCnd
  by_cases hlen : (newCandidates col cardIds).length < 2
  · have hfun : suspend_new_card_siblings col g cardIds = (col, 0) := by
      simp only [suspend_new_card_siblings]
      rw [if_pos hlen]
    rw [hfun]
    exact ⟨fun cid => rfl, fun nid n h => ⟨n, h, Or.inl rfl⟩, fun nid h => h⟩
  · cases hS : List.insertionSort cardIdLe (newCandidates col cardIds) with
    | nil =>
      have := hperm.length_eq
      rw [hS] at this
      simp at this
      omega
    | cons c0 rest =>
      rw [hS] at hperm
      have hfun : suspend_new_card_siblings col g cardIds =
          rest.foldl (suspendStep g) (col, 0) := by
        simp only [suspend_new_card_siblings]
        rw [if_neg hlen, hS]
      rw [hfun]
      have hmemNC : ∀ c ∈ rest, c ∈ newCandidates col cardIds := by
        intro c hc
        rw [← hperm.mem_iff]
        exact List.mem_cons_of_mem c0 hc
      have hcard : ∀ c ∈ rest, (col.getCard c.id).isSome = true := by
        intro c hc
        rw [(newCandidates_getCard (hmemNC c hc)).1]
        rfl
      have hnote : ∀ c ∈ rest, (col.getNote c.nid).isSome = true := by
        intro c hc
        have hmem : c ∈ col.cards := (getCard_spec (newCandidates_getCard (hmemNC c hc)).1).1
        obtain ⟨n, hn, hnidn⟩ := hwf.2.2 c hmem
        rw [Col.getNote, List.find?_isSome]
        exact ⟨n, hn, by simp [hnidn]⟩
      have hndrest : (rest.map SCard.id).Nodup := by
        rw [hS, List.map_cons] at hSnd
        exact (List.nodup_cons.mp hSnd).2
      obtain ⟨A, B, C, D, D0, E⟩ := suspendLoop_spec g rest col 0 hcard hnote hndrest
      refine ⟨?_, ?_, D0⟩
      · intro cid
        by_cases hin : cid ∈ rest.map SCard.id
        · obtain ⟨c, hc, hcid⟩ := List.mem_map.mp hin
          subst hcid
          rw [C c hc, (newCandidates_getCard (hmemNC c hc)).1]
          rfl
        · rw [B cid hin]
      · intro nid n h
        obtain ⟨n', h1, h2⟩ := D nid n h
        exact ⟨n', h1, h2.imp id And.right⟩

theorem spread_skel (col : Col) (g : String) (minGap : Int) (hwf : col.wf) :
    ∀ cid, ((spread_review_card_due_dates col g minGap).1.getCard cid).map
      (fun c => (c.id, c.nid)) = (col.getCard cid).map (fun c => (c.id, c.nid)) := by
  have hperm := List.perm_insertionSort dueIdLe (dueReviewCards col (get_sibling_tag g))
  have hDnd : ((dueReviewCards col (get_sibling_tag g)).map SCard.id).Nodup :=
    dueReviewCards_ids_nodup col (get_sibling_tag g) hwf
  have hSnd : ((List.insertionSort dueIdLe (dueReviewCards col (get_sibling_tag g))).map
      SCard.id).Nodup := ((hperm.map SCard.id).nodup_iff).mpr hDnd
  by_cases hlen : (dueReviewCards col (get_sibling_tag g)).length < 2
  · have hfun : spread_review_card_due_dates col g minGap = (col, 0) := by
      simp only [spread_review_card_due_dates]
      rw [if_pos hlen]
    rw [hfun]
    exact fun cid => rfl
  · cases hS : List.insertionSort dueIdLe (dueReviewCards col (get_sibling_tag g)) with
    | nil =>
      have := hperm.length_eq
      rw [hS] at this
      simp at this
      omega
    | cons c0 rest =>
      rw [hS] at hperm
      have hfun : (spread_review_card_due_dates col g minGap).1 =
          (rest.foldl (spreadStep col.today minGap) (col, 1, 0)).1 := by
        simp only [spread_review_card_due_dates]
        rw [if_neg hlen, hS]
      rw [hfun]
      have hself : ∀ c ∈ rest, col.getCard c.id = some c := by
        intro c hc
        have hmemD : c ∈ dueReviewCards col (get_sibling_tag g) := by
          rw [← hperm.mem_iff]
          exact List.mem_cons_of_mem c0 hc
        obtain ⟨n, hn, hmemtag, hmemc, hrest⟩ := dueReviewCards_iff.mp hmemD
        exact getCard_of_mem_nodup hwf.1 hmemc
      have hndrest : (rest.map SCard.id).Nodup := by
        rw [hS, List.map_cons] at hSnd
        exact (List.nodup_cons.mp hSnd).2
      obtain ⟨A, B, C, D⟩ := spreadLoop_spec col.today minGap rest col 1 0 hself hndrest
      intro cid
      by_cases hin : cid ∈ rest.map SCard.id
      · obtain ⟨c, hc, hcid⟩ := List.mem_map.mp hin
        subst hcid
        obtain ⟨⟨k, hk⟩, hget⟩ := List.mem_iff_get.mp hc
        have hC := C k hk
        rw [hget] at hC
        rw [hC, hself c hc]
        rfl
      · rw [B cid hin]

theorem applySep_spec (s : Col) (g : String) (cardIds : List Nat)
    (hwf : s.wf) (hnd : cardIds.Nodup) :
    (∀ cid, ((apply_sibling_separation s g cardIds).getCard cid).map
        (fun c => (c.id, c.nid)) = (s.getCard cid).map (fun c => (c.id, c.nid))) ∧
    (∀ nid n, s.getNote nid = some n →
      ∃ n', (apply_sibling_separation s g cardIds).getNote nid = some n' ∧
        (n' = n ∨ n'.tags = n.tags ++ [susTagPref ++ g])) ∧
    (∀ nid, s.getNote nid = none →
      (apply_sibling_separation s g cardIds).getNote nid = none) ∧
    (apply_sibling_separation s g cardIds).cards.map SCard.id =
      s.cards.map SCard.id ∧
    (apply_sibling_separation s g cardIds).notes.map SNote.id =
      s.notes.map SNote.id := by
  obtain ⟨hsk1, hn1, hz1⟩ := suspend_skel s g cardIds hwf hnd
  obtain ⟨hci1, hni1⟩ := suspend_ids s g cardIds
  have hwf1 : (suspend_new_card_siblings s g cardIds).1.wf :=
    wf_skel_transfer s (suspend_new_card_siblings s g cardIds).1 hci1 hni1 hsk1 hwf
  have hsk2 := spread_skel (suspend_new_card_siblings s g cardIds).1 g 1 hwf1
  obtain ⟨hci2, hnt2⟩ := spread_ids (suspend_new_card_siblings s g cardIds).1 g 1
  have happ : apply_sibling_separation s g cardIds =
      (spread_review_card_due_dates (suspend_new_card_siblings s g cardIds).1 g 1).1 := rfl
  have hnote2 : ∀ nid,
      (spread_review_card_due_dates (suspend_new_card_siblings s g cardIds).1 g 1).1.getNote
        nid = (suspend_new_card_siblings s g cardIds).1.getNote nid := by
    intro nid
    rw [Col.getNote, Col.getNote, hnt2]
  refine ⟨?_, ?_, ?_, ?_, ?_⟩
  · intro cid
    rw [happ]
    exact (hsk2 cid).trans (hsk1 cid)
  · intro nid n h
    obtain ⟨n', h1, h2⟩ := hn1 nid n h
    refine ⟨n', ?_, h2⟩
    rw [happ, hnote2 nid]
    exact h1
  · intro nid h
    rw [happ, hnote2 nid]
    exact hz1 nid h
  · rw [happ]
    exact hci2.trans hci1
  · rw [happ]
    exact (congrArg (List.map SNote.id) hnt2).trans hni1

theorem dedupNids_congr (s t : Col) (cardIds : List Nat)
    (h : ∀ cid, (t.getCard cid).map (fun c => (c.id, c.nid)) =
      (s.getCard cid).map (fun c => (c.id, c.nid))) :
    dedupNids t cardIds = dedupNids s cardIds := by
  rw [dedupNids, dedupNids]
  apply List.foldl_ext
  intro acc cid _
  show (match t.getCard cid with
    | some c => if c.nid ∈ acc then acc else acc ++ [c.nid]
    | none => acc) =
    (match s.getCard cid with
    | some c => if c.nid ∈ acc then acc else acc ++ [c.nid]
    | none => acc)
  have hc := h cid
  cases ht : t.getCard cid with
  | none =>
    cases hs : s.getCard cid with
    | none => rfl
    | some c =>
      rw [ht, hs] at hc
      exact absurd hc (by simp)
  | some c =>
    cases hs : s.getCard cid with
    | none =>
      rw [ht, hs] at hc
      exact absurd hc (by simp)
    | some c' =>
      rw [ht, hs] at hc
      have hnid : c.nid = c'.nid := by
        have := Option.some.inj hc
        exact (Prod.mk.injEq _ _ _ _ ▸ this).2
      show (if c.nid ∈ acc then acc else acc ++ [c.nid]) =
        (if c'.nid ∈ acc then acc else acc ++ [c'.nid])
      rw [hnid]

theorem mark_eq (col : Col) (cardIds : List Nat) (nm g gen : String) (ch : DlgChoice)
    (h2 : ¬ cardIds.length < 2) (hn : ¬ (dedupNids col cardIds).length < 2)
    (hsan : sanitize_group_name nm = some g) :
    mark_cards_as_siblings col cardIds (some nm) gen ch =
      (if 0 < (addTagLoop (get_sibling_tag g) (dedupNids col cardIds) col).2 then
        ⟨true, (addTagLoop (get_sibling_tag g) (dedupNids col cardIds) col).2,
          apply_sibling_separation
            (addTagLoop (get_sibling_tag g) (dedupNids col cardIds) col).1 g cardIds⟩
      else ⟨true, (addTagLoop (get_sibling_tag g) (dedupNids col cardIds) col).2,
        (addTagLoop (get_sibling_tag g) (dedupNids col cardIds) col).1⟩) := by
  rw [mark_cards_as_siblings]
  rw [if_neg h2]
  rw [if_neg hn]
  have hcond : ¬(collectExisting col (dedupNids col cardIds) ≠ [] ∧
      (some nm : Option String) = none) := fun hx => Option.noConfusion hx.2
  simp only [if_neg hcond, hsan, Option.getD_some]

/-- C7: marking the same selection twice with the same raw name is
idempotent.  For a well-formed collection, a duplicate-free selection of at
least two cards spanning at least two notes, a raw name that sanitizes
successfully, and at least one involved note still lacking the group label:
the first call succeeds and modifies at least one note, the second call
succeeds, modifies zero notes and returns the first call's collection
unchanged, and no note ends up with more than one copy of the group label
(a note already carrying it is not rewritten).  -/
theorem C7_mark_idempotent (col : Col) (cardIds : List Nat) (nm g gen gen2 : String)
    (ch ch2 : DlgChoice) (hwf : col.wf) (hnd : cardIds.Nodup)
    (h2 : ¬ cardIds.length < 2) (hn2 : ¬ (dedupNids col cardIds).length < 2)
    (hsan : sanitize_group_name nm = some g)
    (hmiss : ∃ nid ∈ dedupNids col cardIds, ∃ n,
      col.getNote nid = some n ∧ get_sibling_tag g ∉ n.tags) :
    (mark_cards_as_siblings col cardIds (some nm) gen ch).ok = true ∧
    1 ≤ (mark_cards_as_siblings col cardIds (some nm) gen ch).modified ∧
    mark_cards_as_siblings (mark_cards_as_siblings col cardIds (some nm) gen ch).col
        cardIds (some nm) gen2 ch2 =
      ⟨true, 0, (mark_cards_as_siblings col cardIds (some nm) gen ch).col⟩ ∧
    (∀ nid n n', col.getNote nid = some n →
      (mark_cards_as_siblings col cardIds (some nm) gen ch).col.getNote nid = some n' →
      List.count (get_sibling_tag g) n'.tags ≤
        List.count (get_sibling_tag g) n.tags + 1 ∧
      (get_sibling_tag g ∈ n.tags →
        List.count (get_sibling_tag g) n'.tags =
          List.count (get_sibling_tag g) n.tags)) := by
  obtain ⟨A, H, M, B, C, D, E, G, I⟩ :=
    addTagFold_spec (get_sibling_tag g) (dedupNids col cardIds) col 0
  have hresfold :
      addTagLoop (get_sibling_tag g) (dedupNids col cardIds) col =
        (dedupNids col cardIds).foldl (addTagStep (get_sibling_tag g)) (col, 0) := rfl
  have hpos : 0 < (addTagLoop (get_sibling_tag g) (dedupNids col cardIds) col).2 := by
    rw [hresfold]
    exact E hmiss
  have hm1 := mark_eq col cardIds nm g gen ch h2 hn2 hsan
  rw [if_pos hpos] at hm1
  have hcards1 : ∀ cid,
      (addTagLoop (get_sibling_tag g) (dedupNids col cardIds) col).1.getCard cid =
        col.getCard cid := by
    intro cid
    rw [Col.getCard, Col.getCard, hresfold, A]
  have hskel1 : ∀ cid,
      ((addTagLoop (get_sibling_tag g) (dedupNids col cardIds) col).1.getCard cid).map
        (fun c => (c.id, c.nid)) = (col.getCard cid).map (fun c => (c.id, c.nid)) := by
    intro cid
    rw [hcards1 cid]
  have hwf1 : (addTagLoop (get_sibling_tag g) (dedupNids col cardIds) col).1.wf :=
    wf_skel_transfer col (addTagLoop (get_sibling_tag g) (dedupNids col cardIds) col).1
      (by rw [hresfold, A]) (by rw [hresfold]; exact H) hskel1 hwf
  obtain ⟨hsk2, hns2, hnz2, hci2, hni2⟩ :=
    applySep_spec (addTagLoop (get_sibling_tag g) (dedupNids col cardIds) col).1 g
      cardIds hwf1 hnd
  set fin := apply_sibling_separation
    (addTagLoop (get_sibling_tag g) (dedupNids col cardIds) col).1 g cardIds with hfin
  have hskel : ∀ cid, (fin.getCard cid).map (fun c => (c.id, c.nid)) =
      (col.getCard cid).map (fun c => (c.id, c.nid)) :=
    fun cid => (hsk2 cid).trans (hskel1 cid)
  have hdedup : dedupNids fin cardIds = dedupNids col cardIds :=
    dedupNids_congr col fin cardIds hskel
  have hn2' : ¬ (dedupNids fin cardIds).length < 2 := by
    rw [hdedup]
    exact hn2
  have hall : ∀ nid ∈ dedupNids fin cardIds, ∀ n, fin.getNote nid = some n →
      get_sibling_tag g ∈ n.tags := by
    intro nid hmem n h
    rw [hdedup] at hmem
    cases hcol : col.getNote nid with
    | none =>
      have hz : fin.getNote nid = none := hnz2 nid (C nid hcol)
      rw [hz] at h
      cases h
    | some n0 =>
      obtain ⟨n1, h1, ht1⟩ := D nid hmem n0 hcol
      obtain ⟨n2, h2x, ht2⟩ := hns2 nid n1 h1
      have heq : n = n2 := by
        rw [h] at h2x
        exact Option.some.inj h2x
      subst heq
      rcases ht2 with rfl | happ
      · exact ht1
      · rw [happ]
        exact List.mem_append.mpr (Or.inl ht1)
  obtain ⟨A2, H2, M2, B2, C2, D2, E2, G2, I2⟩ :=
    addTagFold_spec (get_sibling_tag g) (dedupNids fin cardIds) fin 0
  have hloop2 : addTagLoop (get_sibling_tag g) (dedupNids fin cardIds) fin =
      (fin, 0) := I2 hall
  have hm2 := mark_eq fin cardIds nm g gen2 ch2 h2 hn2' hsan
  simp only [hloop2] at hm2
  rw [if_neg (lt_irrefl 0)] at hm2
  refine ⟨?_, ?_, ?_, ?_⟩
  · rw [hm1]
  · rw [hm1]
    exact hpos
  · rw [hm1]
    exact hm2
  · intro nid n n' hcol hfin'
    rw [hm1] at hfin'
    have hfin2 : fin.getNote nid = some n' := hfin'
    obtain ⟨n1, h1, ht1⟩ := B nid n hcol
    obtain ⟨n2, h2x, ht2⟩ := hns2 nid n1 h1
    have heq : n' = n2 := by
      rw [hfin2] at h2x
      exact Option.some.inj h2x
    subst heq
    have hcnt2 : List.count (get_sibling_tag g) n'.tags =
        List.count (get_sibling_tag g) n1.tags := by
      rcases ht2 with rfl | happ
      · rfl
      · rw [happ, List.count_append]
        have hz : List.count (get_sibling_tag g) [susTagPref ++ g] = 0 := by
          rw [List.count_eq_zero]
          intro hmem
          exact sibTag_ne_marker g g (List.mem_singleton.mp hmem)
        rw [hz]
        omega
    have hcnt1 : List.count (get_sibling_tag g) n1.tags =
        List.count (get_sibling_tag g) n.tags ∨
        (get_sibling_tag g ∉ n.tags ∧ List.count (get_sibling_tag g) n1.tags =
          List.count (get_sibling_tag g) n.tags + 1) := by
      rcases ht1 with rfl | ⟨hm, htags, _⟩
      · exact Or.inl rfl
      · refine Or.inr ⟨hm, ?_⟩
        rw [htags, List.count_append]
        simp
    constructor
    · rcases hcnt1 with he | ⟨_, he⟩ <;> (rw [hcnt2, he]; try omega)
    · intro hin
      rcases hcnt1 with he | ⟨hm, _⟩
      · rw [hcnt2, he]
      · exact absurd hin hm

/-- Witness for C7: two untagged notes with one new card each; marking with
raw name "g" twice succeeds, and the success of the first call follows from
the theorem at this input.  -/
theorem C7_witness :
    (⟨[⟨1, []⟩, ⟨2, []⟩], [⟨1, 1, 0, 0, 0⟩, ⟨2, 2, 0, 0, 0⟩], [], 0, 0⟩ : Col).wf ∧
    ([1, 2] : List Nat).Nodup ∧
    sanitize_group_name "g" = some "g" ∧
    (∃ nid ∈ dedupNids
        (⟨[⟨1, []⟩, ⟨2, []⟩], [⟨1, 1, 0, 0, 0⟩, ⟨2, 2, 0, 0, 0⟩], [], 0, 0⟩ : Col)
        [1, 2], ∃ n,
      (⟨[⟨1, []⟩, ⟨2, []⟩], [⟨1, 1, 0, 0, 0⟩, ⟨2, 2, 0, 0, 0⟩], [], 0, 0⟩ : Col).getNote
          nid = some n ∧ get_sibling_tag "g" ∉ n.tags) ∧
    (mark_cards_as_siblings
      (⟨[⟨1, []⟩, ⟨2, []⟩], [⟨1, 1, 0, 0, 0⟩, ⟨2, 2, 0, 0, 0⟩], [], 0, 0⟩ : Col)
      [1, 2] (some "g") "x" DlgChoice.createNew).ok = true :=
  ⟨by decide, by decide, by decide, ⟨1, by decide, ⟨1, []⟩, by decide, by decide⟩,
    (C7_mark_idempotent
      (⟨[⟨1, []⟩, ⟨2, []⟩], [⟨1, 1, 0, 0, 0⟩, ⟨2, 2, 0, 0, 0⟩], [], 0, 0⟩ : Col)
      [1, 2] "g" "g" "x" "y" DlgChoice.createNew DlgChoice.createNew
      (by decide) (by decide) (by decide) (by decide) (by decide)
      ⟨1, by decide, ⟨1, []⟩, by decide, by decide⟩).1⟩

/-- Counterexample for C8: the source returns a success Boolean, not the
count of modified records.  A fresh run that modifies two notes and a rerun
that modifies none return the very same value, so the return cannot be the
modified count.  -/
theorem C8_counterexample :
    (mark_cards_as_siblings
      (⟨[⟨1, []⟩, ⟨2, []⟩], [⟨1, 1, 0, 0, 0⟩, ⟨2, 2, 0, 0, 0⟩], [], 0, 0⟩ : Col)
      [1, 2] (some "g") "x" DlgChoice.createNew).modified = 2 ∧
    (mark_cards_as_siblings
      (⟨[⟨1, ["sibling::g"]⟩, ⟨2, ["sibling::g"]⟩],
        [⟨1, 1, 0, 0, 0⟩, ⟨2, 2, 0, 0, 0⟩], [], 0, 0⟩ : Col)
      [1, 2] (some "g") "x" DlgChoice.createNew).modified = 0 ∧
    (mark_cards_as_siblings
      (⟨[⟨1, []⟩, ⟨2, []⟩], [⟨1, 1, 0, 0, 0⟩, ⟨2, 2, 0, 0, 0⟩], [], 0, 0⟩ : Col)
      [1, 2] (some "g") "x" DlgChoice.createNew).ok =
    (mark_cards_as_siblings
      (⟨[⟨1, ["sibling::g"]⟩, ⟨2, ["sibling::g"]⟩],
        [⟨1, 1, 0, 0, 0⟩, ⟨2, 2, 0, 0, 0⟩], [], 0, 0⟩ : Col)
      [1, 2] (some "g") "x" DlgChoice.createNew).ok := by decide

/-- C8 (amended): `mark_cards_as_siblings` returns a success Boolean, true
exactly when the selection spans at least two cards and two notes and the
name dialog was not cancelled; the modified count is internal only, and a
successful run that modified zero records leaves the collection unchanged
(the operation was already satisfied).  -/
theorem C8_mark_ret (col : Col) (cardIds : List Nat) (gn : Option String)
    (gen : String) (ch : DlgChoice) :
    ((mark_cards_as_siblings col cardIds gn gen ch).ok = true ↔
      (¬ cardIds.length < 2 ∧ ¬ (dedupNids col cardIds).length < 2 ∧
        ¬(collectExisting col (dedupNids col cardIds) ≠ [] ∧ gn = none ∧
          ch = DlgChoice.cancelOp))) ∧
    ((mark_cards_as_siblings col cardIds gn gen ch).ok = true →
      (mark_cards_as_siblings col cardIds gn gen ch).modified = 0 →
      (mark_cards_as_siblings col cardIds gn gen ch).col = col) := by
  by_cases h2 : cardIds.length < 2
  · have hfun : mark_cards_as_siblings col cardIds gn gen ch = ⟨false, 0, col⟩ := by
      rw [mark_cards_as_siblings.eq_def]
      rw [if_pos h2]
    rw [hfun]
    constructor
    · exact iff_of_false (by simp) (fun hx => hx.1 h2)
    · intro h
      exact absurd h (by simp)
  · by_cases hn : (dedupNids col cardIds).length < 2
    · have hfun : mark_cards_as_siblings col cardIds gn gen ch = ⟨false, 0, col⟩ := by
        rw [mark_cards_as_siblings.eq_def]
        rw [if_neg h2, if_pos hn]
      rw [hfun]
      constructor
      · exact iff_of_false (by simp) (fun hx => hx.2.1 hn)
      · intro h
        exact absurd h (by simp)
    · by_cases hcan : collectExisting col (dedupNids col cardIds) ≠ [] ∧ gn = none ∧
          ch = DlgChoice.cancelOp
      · obtain ⟨hex, hgn, hch⟩ := hcan
        subst hgn
        subst hch
        have hfun : mark_cards_as_siblings col cardIds none gen DlgChoice.cancelOp =
            ⟨false, 0, col⟩ := by
          rw [mark_cards_as_siblings.eq_def]
          rw [if_neg h2, if_neg hn]
          simp [hex]
        rw [hfun]
        constructor
        · exact iff_of_false (by simp) (fun hx => hx.2.2 ⟨hex, rfl, rfl⟩)
        · intro h
          exact absurd h (by simp)
      · obtain ⟨fn, hfn⟩ : ∃ fn, mark_cards_as_siblings col cardIds gn gen ch =
            (if 0 < (addTagLoop (get_sibling_tag fn) (dedupNids col cardIds) col).2 then
              (⟨true, (addTagLoop (get_sibling_tag fn) (dedupNids col cardIds) col).2,
                apply_sibling_separation
                  (addTagLoop (get_sibling_tag fn) (dedupNids col cardIds) col).1 fn
                  cardIds⟩ : MarkRes)
            else ⟨true, (addTagLoop (get_sibling_tag fn) (dedupNids col cardIds) col).2,
              (addTagLoop (get_sibling_tag fn) (dedupNids col cardIds) col).1⟩) := by
          cases gn with
          | some nm =>
            refine ⟨(sanitize_group_name nm).getD gen, ?_⟩
            rw [mark_cards_as_siblings.eq_def]
            rw [if_neg h2, if_neg hn]
            have hcond : ¬(collectExisting col (dedupNids col cardIds) ≠ [] ∧
                (some nm : Option String) = none) := fun hx => Option.noConfusion hx.2
            simp only [if_neg hcond]
          | none =>
            cases hex : collectExisting col (dedupNids col cardIds) with
            | nil =>
              refine ⟨gen, ?_⟩
              rw [mark_cards_as_siblings.eq_def]
              rw [if_neg h2, if_neg hn]
              have hcond : ¬(collectExisting col (dedupNids col cardIds) ≠ [] ∧
                  (none : Option String) = none) := fun hx => hx.1 hex
              simp only [if_neg hcond]
              rw [if_neg (fun hx : collectExisting col (dedupNids col cardIds) ≠ [] ∧
                True => hx.1 hex)]
            | cons a t =>
              have hne : collectExisting col (dedupNids col cardIds) ≠ [] := by
                rw [hex]
                simp
              cases ch with
              | cancelOp => exact absurd ⟨hne, rfl, rfl⟩ hcan
              | useFirst =>
                refine ⟨a, ?_⟩
                rw [mark_cards_as_siblings.eq_def]
                rw [if_neg h2, if_neg hn]
                have hcond : (collectExisting col (dedupNids col cardIds) ≠ [] ∧
                    (none : Option String) = none) := ⟨hne, rfl⟩
                simp only [if_pos hcond, hex, List.head?_cons]
                rw [if_pos (⟨by simp, trivial⟩ : ((a :: t : List String) ≠ [] ∧ True))]
              | createNew =>
                refine ⟨gen, ?_⟩
                rw [mark_cards_as_siblings.eq_def]
                rw [if_neg h2, if_neg hn]
                have hcond : (collectExisting col (dedupNids col cardIds) ≠ [] ∧
                    (none : Option String) = none) := ⟨hne, rfl⟩
                simp only [if_pos hcond]
                rw [if_pos (⟨hne, trivial⟩ :
                  (collectExisting col (dedupNids col cardIds) ≠ [] ∧ True))]
        rw [hfn]
        by_cases hpos : 0 < (addTagLoop (get_sibling_tag fn) (dedupNids col cardIds) col).2
        · rw [if_pos hpos]
          constructor
          · exact iff_of_true rfl ⟨h2, hn, hcan⟩
          · intro _ hmod
            have h0 : (addTagLoop (get_sibling_tag fn) (dedupNids col cardIds) col).2 = 0 :=
              hmod
            exact absurd hpos (by omega)
        · rw [if_neg hpos]
          constructor
          · exact iff_of_true rfl ⟨h2, hn, hcan⟩
          · intro _ hmod
            have h0 : (addTagLoop (get_sibling_tag fn) (dedupNids col cardIds) col).2 = 0 :=
              hmod
            show (addTagLoop (get_sibling_tag fn) (dedupNids col cardIds) col).1 = col
            exact (addTagFold_spec (get_sibling_tag fn)
              (dedupNids col cardIds) col 0).2.2.2.2.2.2.2.1 h0

/-- Witness for C8: on an already fully labelled pair of notes the call
succeeds with zero modifications and, by the theorem, returns the collection
unchanged.  -/
theorem C8_witness :
    (mark_cards_as_siblings
      (⟨[⟨1, ["sibling::g"]⟩, ⟨2, ["sibling::g"]⟩],
        [⟨1, 1, 0, 0, 0⟩, ⟨2, 2, 0, 0, 0⟩], [], 0, 0⟩ : Col)
      [1, 2] (some "g") "x" DlgChoice.useFirst).col =
    (⟨[⟨1, ["sibling::g"]⟩, ⟨2, ["sibling::g"]⟩],
      [⟨1, 1, 0, 0, 0⟩, ⟨2, 2, 0, 0, 0⟩], [], 0, 0⟩ : Col) :=
  (C8_mark_ret
    (⟨[⟨1, ["sibling::g"]⟩, ⟨2, ["sibling::g"]⟩],
      [⟨1, 1, 0, 0, 0⟩, ⟨2, 2, 0, 0, 0⟩], [], 0, 0⟩ : Col)
    [1, 2] (some "g") "x" DlgChoice.useFirst).2 (by decide) (by decide)

/-!  The membership remover and the scan frame (claim C10).  -/

theorem foldl_removeFirstTag_cons (x : String) (ts : List String) :
    ∀ l : List String, (∀ t ∈ ts, x ≠ t) →
      ts.foldl removeFirstTag (x :: l) = x :: ts.foldl removeFirstTag l := by
  induction ts with
  | nil =>
    intro l _
    rfl
  | cons t ts ih =>
    intro l hne
    rw [List.foldl_cons, List.foldl_cons]
    have hstep : removeFirstTag (x :: l) t = x :: removeFirstTag l t := by
      rw [removeFirstTag]
      rw [if_neg (hne t (List.mem_cons_self t ts))]
    rw [hstep]
    exact ih (removeFirstTag l t) (fun t' ht' => hne t' (List.mem_cons_of_mem t ht'))

theorem foldl_removeFirstTag_filter (p : String → Bool) :
    ∀ l : List String, (l.filter p).foldl removeFirstTag l =
      l.filter (fun x => !(p x)) := by
  intro l
  induction l with
  | nil => rfl
  | cons x l ih =>
    by_cases hp : p x = true
    · rw [List.filter_cons_of_pos hp]
      rw [List.foldl_cons]
      have hstep : removeFirstTag (x :: l) x = l := by
        rw [removeFirstTag]
        rw [if_pos rfl]
      rw [hstep, ih]
      rw [List.filter_cons_of_neg (by simp [hp])]
    · rw [List.filter_cons_of_neg hp]
      have hne : ∀ t ∈ l.filter p, x ≠ t := by
        intro t ht hxt
        have hpt := List.of_mem_filter ht
        rw [← hxt] at hpt
        exact hp hpt
      rw [foldl_removeFirstTag_cons x (l.filter p) l hne, ih]
      rw [List.filter_cons_of_pos (by simp [hp])]

theorem marker_not_sib (t : String) (h : isMarkerTag t = true) :
    strStartsWith sibTagPref t = false := by
  rw [isMarkerTag, strStartsWith] at h
  rw [strStartsWith]
  by_contra hx
  have hx2 : sibTagPref.data.isPrefixOf t.data = true := by
    cases hb : sibTagPref.data.isPrefixOf t.data
    · exact absurd hb hx
    · rfl
  have h1 : sibTagPref.data <+: t.data := List.isPrefixOf_iff_prefix.mp hx2
  have h2 : susTagPref.data <+: t.data := List.isPrefixOf_iff_prefix.mp h
  have e1 : sibTagPref.data = List.take 9 t.data := by
    have he := List.prefix_iff_eq_take.mp h1
    rw [show sibTagPref.data.length = 9 from by decide] at he
    exact he
  have e2 : susTagPref.data = List.take 19 t.data := by
    have he := List.prefix_iff_eq_take.mp h2
    rw [show susTagPref.data.length = 19 from by decide] at he
    exact he
  have e3 : List.take 9 susTagPref.data = sibTagPref.data := by
    rw [e2, List.take_take]
    rw [show (9 ⊓ 19 : Nat) = 9 from by decide]
    exact e1.symm
  exact absurd e3 (by decide)

theorem sibTags_of_filtered (tags : List String) :
    (tags.filter (fun t => !(strStartsWith sibTagPref t))).filter
      (fun t => strStartsWith sibTagPref t) = [] := by
  rw [List.filter_filter]
  rw [List.filter_eq_nil_iff]
  intro a _
  simp

theorem markers_of_filtered (tags : List String) :
    (tags.filter (fun t => !(strStartsWith sibTagPref t))).filter isMarkerTag =
      tags.filter isMarkerTag := by
  rw [List.filter_filter]
  apply List.filter_congr
  intro t _
  cases hm : isMarkerTag t
  · simp
  · simp [marker_not_sib t hm]

theorem filter_bool_idem (q : String → Bool) (l : List String) :
    (l.filter q).filter q = l.filter q := by
  rw [List.filter_filter]
  apply List.filter_congr
  intro x _
  exact Bool.and_self (q x)

theorem unmarkFold_spec (nids : List Nat) :
    ∀ (col : Col) (cnt : Nat),
      (nids.foldl unmarkStep (col, cnt)).1.cards = col.cards ∧
      (nids.foldl unmarkStep (col, cnt)).1.notes.map SNote.id =
        col.notes.map SNote.id ∧
      (∀ nid n, col.getNote nid = some n →
        ∃ n', (nids.foldl unmarkStep (col, cnt)).1.getNote nid = some n' ∧
          (n' = n ∨ n'.tags = n.tags.filter
            (fun t => !(strStartsWith sibTagPref t)))) ∧
      (∀ nid, col.getNote nid = none →
        (nids.foldl unmarkStep (col, cnt)).1.getNote nid = none) ∧
      (∀ nid ∈ nids, ∀ n, col.getNote nid = some n →
        ∃ n', (nids.foldl unmarkStep (col, cnt)).1.getNote nid = some n' ∧
          get_sibling_tags_for_note n' = []) := by
  induction nids with
  | nil =>
    intro col cnt
    exact ⟨rfl, rfl, fun nid n h => ⟨n, h, Or.inl rfl⟩, fun nid h => h, by simp⟩
  | cons nid0 nids ih =>
    intro col cnt
    cases hg : col.getNote nid0 with
    | none =>
      have hstep : unmarkStep (col, cnt) nid0 = (col, cnt) := by
        rw [unmarkStep]
        rw [hg]
      have hfold : (nid0 :: nids).foldl unmarkStep (col, cnt) =
          nids.foldl unmarkStep (col, cnt) := by
        rw [List.foldl_cons, hstep]
      obtain ⟨A, H, B, C, D⟩ := ih col cnt
      rw [hfold]
      refine ⟨A, H, B, C, ?_⟩
      · intro nid hmem n h
        rcases List.mem_cons.mp hmem with rfl | hmem2
        · rw [hg] at h
          cases h
        · exact D nid hmem2 n h
    | some n =>
      by_cases hts : get_sibling_tags_for_note n = []
      · have hstep : unmarkStep (col, cnt) nid0 = (col, cnt) := by
          rw [unmarkStep]
          rw [hg]
          show (if get_sibling_tags_for_note n = [] then ((col, cnt) : Col × Nat)
            else (col.updateNote
              { n with tags := (get_sibling_tags_for_note n).foldl removeFirstTag n.tags },
              cnt + 1)) = (col, cnt)
          rw [if_pos hts]
        have hfold : (nid0 :: nids).foldl unmarkStep (col, cnt) =
            nids.foldl unmarkStep (col, cnt) := by
          rw [List.foldl_cons, hstep]
        obtain ⟨A, H, B, C, D⟩ := ih col cnt
        rw [hfold]
        refine ⟨A, H, B, C, ?_⟩
        · intro nid hmem n1 h
          by_cases hnn : nid = nid0
          · subst hnn
            have heq : n1 = n := by
              rw [hg] at h
              exact (Option.some.inj h).symm
            subst heq
            obtain ⟨n', h1, h2⟩ := B nid n1 h
            refine ⟨n', h1, ?_⟩
            rcases h2 with rfl | hft
            · exact hts
            · rw [get_sibling_tags_for_note, hft]
              exact sibTags_of_filtered n1.tags
          · rcases List.mem_cons.mp hmem with hx | hmem2
            · exact absurd hx hnn
            · exact D nid hmem2 n1 h
      · have hnid : n.id = nid0 := (getNote_spec hg).2
        have hstep : unmarkStep (col, cnt) nid0 =
            (col.updateNote
              { n with tags := n.tags.filter (fun t => !(strStartsWith sibTagPref t)) },
              cnt + 1) := by
          rw [unmarkStep]
          rw [hg]
          show (if get_sibling_tags_for_note n = [] then ((col, cnt) : Col × Nat)
            else (col.updateNote
              { n with tags := (get_sibling_tags_for_note n).foldl removeFirstTag n.tags },
              cnt + 1)) =
            (col.updateNote
              { n with tags := n.tags.filter (fun t => !(strStartsWith sibTagPref t)) },
              cnt + 1)
          rw [if_neg hts]
          rw [show (get_sibling_tags_for_note n).foldl removeFirstTag n.tags =
              n.tags.filter (fun t => !(strStartsWith sibTagPref t)) from
            foldl_removeFirstTag_filter (fun t => strStartsWith sibTagPref t) n.tags]
        have hfold : (nid0 :: nids).foldl unmarkStep (col, cnt) =
            nids.foldl unmarkStep
              (col.updateNote
                { n with tags := n.tags.filter (fun t => !(strStartsWith sibTagPref t)) },
                cnt + 1) := by
          rw [List.foldl_cons, hstep]
        obtain ⟨A, H, B, C, D⟩ :=
          ih (col.updateNote
            { n with tags := n.tags.filter (fun t => !(strStartsWith sibTagPref t)) })
            (cnt + 1)
        rw [hfold]
        have hgself : (col.updateNote
            { n with tags := n.tags.filter (fun t => !(strStartsWith sibTagPref t)) }).getNote
              nid0 =
            some { n with tags := n.tags.filter (fun t => !(strStartsWith sibTagPref t)) } := by
          have hb : col.getNote ({ n with
              tags := n.tags.filter (fun t => !(strStartsWith sibTagPref t)) } : SNote).id =
              some n := by
            show col.getNote n.id = some n
            rw [hnid]
            exact hg
          have h2 := getNote_updateNote_self hb
          rw [← hnid]
          exact h2
        have hgne : ∀ nid, nid ≠ nid0 →
            (col.updateNote
              { n with tags := n.tags.filter (fun t => !(strStartsWith sibTagPref t)) }).getNote
                nid = col.getNote nid := by
          intro nid hne
          have hne2 : nid ≠ ({ n with
              tags := n.tags.filter (fun t => !(strStartsWith sibTagPref t)) } : SNote).id := by
            show nid ≠ n.id
            rw [hnid]
            exact hne
          exact getNote_updateNote_ne hne2
        refine ⟨?_, ?_, ?_, ?_, ?_⟩
        · exact A.trans (updateNote_cards col _)
        · exact H.trans (updateNote_noteIds col _)
        · intro nid n1 h1
          by_cases hnn : nid = nid0
          · subst hnn
            have heq : n1 = n := by
              rw [hg] at h1
              exact (Option.some.inj h1).symm
            subst heq
            obtain ⟨n', h3, h4⟩ := B nid _ hgself
            refine ⟨n', h3, Or.inr ?_⟩
            rcases h4 with rfl | hft
            · rfl
            · rw [hft]
              exact filter_bool_idem (fun t => !(strStartsWith sibTagPref t)) n1.tags
          · obtain ⟨n', h3, h4⟩ := B nid n1 (by rw [hgne nid hnn]; exact h1)
            exact ⟨n', h3, h4⟩
        · intro nid h1
          have hnn : nid ≠ nid0 := by
            intro he
            rw [he, hg] at h1
            cases h1
          exact C nid (by rw [hgne nid hnn]; exact h1)
        · intro nid hmem n1 h1
          by_cases hnn : nid = nid0
          · subst hnn
            obtain ⟨n', h3, h4⟩ := B nid _ hgself
            refine ⟨n', h3, ?_⟩
            rcases h4 with rfl | hft
            · show ({ n with
                tags := n.tags.filter (fun t => !(strStartsWith sibTagPref t)) } : SNote).tags.filter
                  (fun t => strStartsWith sibTagPref t) = []
              exact sibTags_of_filtered n.tags
            · rw [get_sibling_tags_for_note, hft]
              exact sibTags_of_filtered _
          · rcases List.mem_cons.mp hmem with hx | hmem2
            · exact absurd hx hnn
            · exact D nid hmem2 n1 (by rw [hgne nid hnn]; exact h1)

theorem unsuspendStep_frame (st : ScanSt) (e : Nat × Nat) :
    (∀ cid, cid ≠ e.1 → (unsuspendStep st e).col.getCard cid = st.col.getCard cid) ∧
    (∀ nid, nid ≠ e.2 → (unsuspendStep st e).col.getNote nid = st.col.getNote nid) ∧
    (unsuspendStep st e).col.cards.map SCard.id = st.col.cards.map SCard.id ∧
    (unsuspendStep st e).col.notes.map SNote.id = st.col.notes.map SNote.id := by
  cases hc : st.col.getCard e.1 with
  | none =>
    have hstep : unsuspendStep st e = st := by
      rw [unsuspendStep]
      rw [hc]
    rw [hstep]
    exact ⟨fun _ _ => rfl, fun _ _ => rfl, rfl, rfl⟩
  | some c =>
    cases hn : st.col.getNote e.2 with
    | none =>
      have hstep : unsuspendStep st e = st := by
        rw [unsuspendStep]
        rw [hc, hn]
      rw [hstep]
      exact ⟨fun _ _ => rfl, fun _ _ => rfl, rfl, rfl⟩
    | some n =>
      have hid : c.id = e.1 := (getCard_spec hc).2
      have hnid2 : n.id = e.2 := (getNote_spec hn).2
      by_cases h1 : c.queue = -1 ∧ noteHasMarker n = true
      · by_cases h2 : st.prevReviewed = true ∧ st.releasedOne = false
        · have hstep : unsuspendStep st e =
              { col := (st.col.updateCard { c with queue := 0 }).updateNote
                  (stripMarkers n),
                prevReviewed := st.prevReviewed, releasedOne := true,
                count := st.count + 1 } := by
            rw [unsuspendStep]
            rw [hc, hn]
            show (if c.queue = -1 ∧ noteHasMarker n = true then
              if st.prevReviewed = true ∧ st.releasedOne = false then
                { col := (st.col.updateCard { c with queue := 0 }).updateNote
                    (stripMarkers n),
                  prevReviewed := st.prevReviewed, releasedOne := true,
                  count := st.count + 1 }
              else st
            else
              if countReviews st.col e.1 = 0 ∧ c.ctype = 0 then
                { st with prevReviewed := false }
              else st) = _
            rw [if_pos h1, if_pos h2]
          rw [hstep]
          refine ⟨?_, ?_, ?_, ?_⟩
          · intro cid hcid
            rw [getCard_updateNote]
            have hne : cid ≠ ({ c with queue := 0 } : SCard).id := by
              show cid ≠ c.id
              rw [hid]
              exact hcid
            exact getCard_updateCard_ne hne
          · intro nid hnid
            have hne : nid ≠ (stripMarkers n).id := by
              show nid ≠ n.id
              rw [hnid2]
              exact hnid
            rw [getNote_updateNote_ne hne]
            exact getNote_updateCard st.col _ nid
          · rw [updateNote_cards]
            exact updateCard_cardIds st.col _
          · rw [updateNote_noteIds, updateCard_notes]
        · have hstep : unsuspendStep st e = st := by
            rw [unsuspendStep]
            rw [hc, hn]
            show (if c.queue = -1 ∧ noteHasMarker n = true then
              if st.prevReviewed = true ∧ st.releasedOne = false then
                { col := (st.col.updateCard { c with queue := 0 }).updateNote
                    (stripMarkers n),
                  prevReviewed := st.prevReviewed, releasedOne := true,
                  count := st.count + 1 }
              else st
            else
              if countReviews st.col e.1 = 0 ∧ c.ctype = 0 then
                { st with prevReviewed := false }
              else st) = _
            rw [if_pos h1, if_neg h2]
          rw [hstep]
          exact ⟨fun _ _ => rfl, fun _ _ => rfl, rfl, rfl⟩
      · by_cases h3 : countReviews st.col e.1 = 0 ∧ c.ctype = 0
        · have hstep : unsuspendStep st e = { st with prevReviewed := false } := by
            rw [unsuspendStep]
            rw [hc, hn]
            show (if c.queue = -1 ∧ noteHasMarker n = true then
              if st.prevReviewed = true ∧ st.releasedOne = false then
                { col := (st.col.updateCard { c with queue := 0 }).updateNote
                    (stripMarkers n),
                  prevReviewed := st.prevReviewed, releasedOne := true,
                  count := st.count + 1 }
              else st
            else
              if countReviews st.col e.1 = 0 ∧ c.ctype = 0 then
                { st with prevReviewed := false }
              else st) = _
            rw [if_neg h1, if_pos h3]
          rw [hstep]
          exact ⟨fun _ _ => rfl, fun _ _ => rfl, rfl, rfl⟩
        · have hstep : unsuspendStep st e = st := by
            rw [unsuspendStep]
            rw [hc, hn]
            show (if c.queue = -1 ∧ noteHasMarker n = true then
              if st.prevReviewed = true ∧ st.releasedOne = false then
                { col := (st.col.updateCard { c with queue := 0 }).updateNote
                    (stripMarkers n),
                  prevReviewed := st.prevReviewed, releasedOne := true,
                  count := st.count + 1 }
              else st
            else
              if countReviews st.col e.1 = 0 ∧ c.ctype = 0 then
                { st with prevReviewed := false }
              else st) = _
            rw [if_neg h1, if_neg h3]
          rw [hstep]
          exact ⟨fun _ _ => rfl, fun _ _ => rfl, rfl, rfl⟩

theorem unsuspendFold_frame (L : List (Nat × Nat)) :
    ∀ st : ScanSt,
      (∀ cid, cid ∉ L.map Prod.fst →
        (L.foldl unsuspendStep st).col.getCard cid = st.col.getCard cid) ∧
      (∀ nid, nid ∉ L.map Prod.snd →
        (L.foldl unsuspendStep st).col.getNote nid = st.col.getNote nid) ∧
      (L.foldl unsuspendStep st).col.cards.map SCard.id =
        st.col.cards.map SCard.id ∧
      (L.foldl unsuspendStep st).col.notes.map SNote.id =
        st.col.notes.map SNote.id := by
  induction L with
  | nil => intro st; exact ⟨fun _ _ => rfl, fun _ _ => rfl, rfl, rfl⟩
  | cons e L ih =>
    intro st
    rw [List.foldl_cons]
    obtain ⟨S1, S2, S3, S4⟩ := unsuspendStep_frame st e
    obtain ⟨F1, F2, F3, F4⟩ := ih (unsuspendStep st e)
    refine ⟨?_, ?_, F3.trans S3, F4.trans S4⟩
    · intro cid hcid
      have hh : cid ≠ e.1 ∧ cid ∉ L.map Prod.fst := by
        constructor
        · intro he
          exact hcid (by rw [he]; exact List.mem_cons_self _ _)
        · intro hm
          exact hcid (List.mem_cons_of_mem _ hm)
      exact (F1 cid hh.2).trans (S1 cid hh.1)
    · intro nid hnid
      have hh : nid ≠ e.2 ∧ nid ∉ L.map Prod.snd := by
        constructor
        · intro he
          exact hnid (by rw [he]; exact List.mem_cons_self _ _)
        · intro hm
          exact hnid (List.mem_cons_of_mem _ hm)
      exact (F2 nid hh.2).trans (S2 nid hh.1)

theorem gather_mem (col : Col) (nids : List Nat) (pr : Nat × Nat) :
    pr ∈ gatherGroupCards col nids →
      pr.2 ∈ nids ∧ ∃ c ∈ col.cards, c.id = pr.1 ∧ c.nid = pr.2 := by
  rw [gatherGroupCards]
  have haux : ∀ (l : List Nat) (acc : List (Nat × Nat)),
      pr ∈ l.foldl (fun acc nid =>
        match col.getNote nid with
        | some n => acc ++ (col.noteCards n.id).map (fun c => (c.id, c.nid))
        | none => acc) acc →
      pr ∈ acc ∨ (pr.2 ∈ l ∧ ∃ c ∈ col.cards, c.id = pr.1 ∧ c.nid = pr.2) := by
    intro l
    induction l with
    | nil =>
      intro acc h
      exact Or.inl h
    | cons nid l ih =>
      intro acc h
      rw [List.foldl_cons] at h
      cases hg : col.getNote nid with
      | none =>
        rw [hg] at h
        rcases ih acc h with h1 | ⟨h2, h3⟩
        · exact Or.inl h1
        · exact Or.inr ⟨List.mem_cons_of_mem _ h2, h3⟩
      | some n =>
        rw [hg] at h
        rcases ih _ h with h1 | ⟨h2, h3⟩
        · rcases List.mem_append.mp h1 with h4 | h5
          · exact Or.inl h4
          · obtain ⟨c, hcm, hpr⟩ := List.mem_map.mp h5
            obtain ⟨hcc, hcnid⟩ := mem_noteCards.mp hcm
            have hnid : n.id = nid := (getNote_spec hg).2
            refine Or.inr ⟨?_, c, hcc, ?_, ?_⟩
            · rw [← hpr]
              show c.nid ∈ nid :: l
              rw [hcnid, hnid]
              exact List.mem_cons_self _ _
            · rw [← hpr]
            · rw [← hpr]
        · exact Or.inr ⟨List.mem_cons_of_mem _ h2, h3⟩
  intro h
  rcases haux nids [] h with h1 | h2
  · cases h1
  · exact h2

theorem addGroupEntry_mem (g : String) (nid0 : Nat) :
    ∀ gs : List (String × List Nat), ∀ e ∈ addGroupEntry gs g nid0, ∀ k ∈ e.2,
      (∃ e' ∈ gs, k ∈ e'.2) ∨ k = nid0 := by
  intro gs
  induction gs with
  | nil =>
    intro e he k hk
    rw [addGroupEntry] at he
    have he2 : e = (g, [nid0]) := by
      rcases List.mem_cons.mp he with h1 | h2
      · exact h1
      · cases h2
    rw [he2] at hk
    exact Or.inr (List.mem_singleton.mp hk)
  | cons p gs ih =>
    obtain ⟨g', ns⟩ := p
    intro e he k hk
    rw [addGroupEntry] at he
    by_cases hgg : g' = g
    · rw [if_pos hgg] at he
      rcases List.mem_cons.mp he with h1 | h2
      · rw [h1] at hk
        rcases List.mem_append.mp hk with h3 | h4
        · exact Or.inl ⟨(g', ns), List.mem_cons_self _ _, h3⟩
        · exact Or.inr (List.mem_singleton.mp h4)
      · exact Or.inl ⟨e, List.mem_cons_of_mem _ h2, hk⟩
    · rw [if_neg hgg] at he
      rcases List.mem_cons.mp he with h1 | h2
      · rw [h1] at hk
        exact Or.inl ⟨(g', ns), List.mem_cons_self _ _, hk⟩
      · rcases ih e h2 k hk with ⟨e', he', hk'⟩ | h3
        · exact Or.inl ⟨e', List.mem_cons_of_mem _ he', hk'⟩
        · exact Or.inr h3

theorem groupTagFold_nids (col : Col) (n : SNote) (hnmem : n ∈ col.notes) :
    ∀ ts : List String, (∀ t ∈ ts, t ∈ get_sibling_tags_for_note n) →
      ∀ gs : List (String × List Nat),
      (∀ e ∈ gs, ∀ nid ∈ e.2, ∃ n' ∈ col.notes, n'.id = nid ∧
        get_sibling_tags_for_note n' ≠ []) →
      ∀ e ∈ ts.foldl (groupTagStep n.id) gs, ∀ nid ∈ e.2,
        ∃ n' ∈ col.notes, n'.id = nid ∧ get_sibling_tags_for_note n' ≠ [] := by
  intro ts
  induction ts with
  | nil =>
    intro _ gs hQ
    exact hQ
  | cons t ts ih =>
    intro hsub gs hQ
    rw [List.foldl_cons]
    apply ih (fun t' ht' => hsub t' (List.mem_cons_of_mem t ht'))
    cases hx : extract_group_name t with
    | none =>
      have hstep : groupTagStep n.id gs t = gs := by
        rw [groupTagStep]
        rw [hx]
      rw [hstep]
      exact hQ
    | some g =>
      by_cases hg : g = ""
      · have hstep : groupTagStep n.id gs t = gs := by
          rw [groupTagStep]
          rw [hx]
          show (if g = "" then gs else addGroupEntry gs g n.id) = gs
          rw [if_pos hg]
        rw [hstep]
        exact hQ
      · have hstep : groupTagStep n.id gs t = addGroupEntry gs g n.id := by
          rw [groupTagStep]
          rw [hx]
          show (if g = "" then gs else addGroupEntry gs g n.id) = _
          rw [if_neg hg]
        rw [hstep]
        intro e he nid hnid
        rcases addGroupEntry_mem g n.id gs e he nid hnid with ⟨e', he', hk⟩ | hk
        · exact hQ e' he' nid hk
        · exact ⟨n, hnmem, hk.symm,
            List.ne_nil_of_mem (hsub t (List.mem_cons_self t ts))⟩

theorem groupNoteFold_nids (col : Col) :
    ∀ notes : List SNote, (∀ n ∈ notes, n ∈ col.notes) →
      ∀ gs : List (String × List Nat),
      (∀ e ∈ gs, ∀ nid ∈ e.2, ∃ n' ∈ col.notes, n'.id = nid ∧
        get_sibling_tags_for_note n' ≠ []) →
      ∀ e ∈ notes.foldl groupNoteStep gs, ∀ nid ∈ e.2,
        ∃ n' ∈ col.notes, n'.id = nid ∧ get_sibling_tags_for_note n' ≠ [] := by
  intro notes
  induction notes with
  | nil =>
    intro _ gs hQ
    exact hQ
  | cons n notes ih =>
    intro hsub gs hQ
    rw [List.foldl_cons]
    apply ih (fun n' hn' => hsub n' (List.mem_cons_of_mem n hn'))
    rw [groupNoteStep]
    exact groupTagFold_nids col n (hsub n (List.mem_cons_self n notes))
      (get_sibling_tags_for_note n) (fun _ ht => ht) gs hQ

theorem groups_nids (col : Col) :
    ∀ e ∈ get_all_sibling_groups col, ∀ nid ∈ e.2,
      ∃ n ∈ col.notes, n.id = nid ∧ get_sibling_tags_for_note n ≠ [] := by
  rw [get_all_sibling_groups]
  exact groupNoteFold_nids col col.notes (fun _ h => h) [] (by simp)

theorem processGroup_frame (acc : Col × Nat) (e : String × List Nat)
    (nid0 cid0 : Nat) (n0 : SNote) (c0 : SCard)
    (hnot : nid0 ∉ e.2)
    (hnd : (acc.1.cards.map SCard.id).Nodup)
    (hc : acc.1.getCard cid0 = some c0) (hcn : c0.nid = nid0)
    (hn : acc.1.getNote nid0 = some n0) :
    (processGroup acc e).1.getCard cid0 = some c0 ∧
    (processGroup acc e).1.getNote nid0 = some n0 ∧
    (processGroup acc e).1.cards.map SCard.id = acc.1.cards.map SCard.id ∧
    (processGroup acc e).1.notes.map SNote.id = acc.1.notes.map SNote.id := by
  rw [processGroup]
  by_cases hp : gatherGroupCards acc.1 e.2 = []
  · rw [if_pos hp]
    exact ⟨hc, hn, rfl, rfl⟩
  · rw [if_neg hp]
    have hperm := List.perm_insertionSort cidLe (gatherGroupCards acc.1 e.2)
    obtain ⟨F1, F2, F3, F4⟩ :=
      unsuspendFold_frame (List.insertionSort cidLe (gatherGroupCards acc.1 e.2))
        { col := acc.1, prevReviewed := true, releasedOne := false, count := acc.2 }
    have hcid : cid0 ∉ (List.insertionSort cidLe
        (gatherGroupCards acc.1 e.2)).map Prod.fst := by
      intro hmem
      obtain ⟨pr, hpr, hpr1⟩ := List.mem_map.mp hmem
      have hprG : pr ∈ gatherGroupCards acc.1 e.2 := hperm.mem_iff.mp hpr
      obtain ⟨hsnd, c, hcmem, hcid1, hcnid⟩ := gather_mem acc.1 e.2 pr hprG
      have hgetc : acc.1.getCard c.id = some c := getCard_of_mem_nodup hnd hcmem
      rw [hcid1, hpr1] at hgetc
      rw [hc] at hgetc
      have hcc : c = c0 := (Option.some.inj hgetc).symm
      rw [hcc] at hcnid
      rw [hcn] at hcnid
      rw [← hcnid] at hsnd
      exact hnot hsnd
    have hnid : nid0 ∉ (List.insertionSort cidLe
        (gatherGroupCards acc.1 e.2)).map Prod.snd := by
      intro hmem
      obtain ⟨pr, hpr, hpr2⟩ := List.mem_map.mp hmem
      have hprG : pr ∈ gatherGroupCards acc.1 e.2 := hperm.mem_iff.mp hpr
      have hsnd := (gather_mem acc.1 e.2 pr hprG).1
      rw [hpr2] at hsnd
      exact hnot hsnd
    exact ⟨(F1 cid0 hcid).trans hc, (F2 nid0 hnid).trans hn, F3, F4⟩

theorem scanGroups_frame (gs : List (String × List Nat)) (nid0 cid0 : Nat)
    (n0 : SNote) (c0 : SCard) :
    ∀ acc : Col × Nat,
      (∀ e ∈ gs, nid0 ∉ e.2) →
      (acc.1.cards.map SCard.id).Nodup →
      acc.1.getCard cid0 = some c0 → c0.nid = nid0 →
      acc.1.getNote nid0 = some n0 →
      (gs.foldl processGroup acc).1.getCard cid0 = some c0 ∧
      (gs.foldl processGroup acc).1.getNote nid0 = some n0 := by
  induction gs with
  | nil =>
    intro acc _ _ hc _ hn
    exact ⟨hc, hn⟩
  | cons e gs ih =>
    intro acc hnot hnd hc hcn hn
    rw [List.foldl_cons]
    obtain ⟨P1, P2, P3, P4⟩ := processGroup_frame acc e nid0 cid0 n0 c0
      (hnot e (List.mem_cons_self e gs)) hnd hc hcn hn
    exact ih (processGroup acc e)
      (fun e' he' => hnot e' (List.mem_cons_of_mem e he'))
      (P3 ▸ hnd) P1 hcn P2

/-- C10: the unmark operation removes only `sibling::` labels from the
involved records: cards are never touched (suspended items stay suspended),
every record's tags are either unchanged or reduced to their
non-`sibling::` labels, suspension-marker labels are all preserved, and a
record that ends up without sibling labels — together with its items — is
never changed by a subsequent release scan.  -/
theorem C10_unmark (col : Col) (cardIds : List Nat) (hwf : col.wf) :
    (remove_from_sibling_group col cardIds).1.cards = col.cards ∧
    (∀ nid n n', col.getNote nid = some n →
      (remove_from_sibling_group col cardIds).1.getNote nid = some n' →
      (n' = n ∨ n'.tags = n.tags.filter (fun t => !(strStartsWith sibTagPref t))) ∧
      n'.tags.filter isMarkerTag = n.tags.filter isMarkerTag) ∧
    (∀ nid ∈ dedupNids col cardIds, ∀ n, col.getNote nid = some n →
      ∃ n', (remove_from_sibling_group col cardIds).1.getNote nid = some n' ∧
        get_sibling_tags_for_note n' = []) ∧
    (∀ nid0 n0 cid0 c0,
      (remove_from_sibling_group col cardIds).1.getNote nid0 = some n0 →
      get_sibling_tags_for_note n0 = [] →
      (remove_from_sibling_group col cardIds).1.getCard cid0 = some c0 →
      c0.nid = nid0 →
      (check_and_unsuspend_siblings
        (remove_from_sibling_group col cardIds).1).1.getCard cid0 = some c0 ∧
      (check_and_unsuspend_siblings
        (remove_from_sibling_group col cardIds).1).1.getNote nid0 = some n0) := by
  obtain ⟨A, H, B, C, D⟩ := unmarkFold_spec (dedupNids col cardIds) col 0
  have hR : remove_from_sibling_group col cardIds =
      (dedupNids col cardIds).foldl unmarkStep (col, 0) := rfl
  refine ⟨?_, ?_, ?_, ?_⟩
  · rw [hR]
    exact A
  · intro nid n n' h hRn
    rw [hR] at hRn
    obtain ⟨n1, h1, h2⟩ := B nid n h
    have heq : n' = n1 := by
      rw [hRn] at h1
      exact Option.some.inj h1
    subst heq
    refine ⟨h2, ?_⟩
    rcases h2 with rfl | hft
    · rfl
    · rw [hft]
      exact markers_of_filtered n.tags
  · intro nid hmem n h
    rw [hR]
    exact D nid hmem n h
  · intro nid0 n0 cid0 c0 hn0 hs0 hc0 hcn0
    have hndc : ((remove_from_sibling_group col cardIds).1.cards.map SCard.id).Nodup := by
      rw [hR, A]
      exact hwf.1
    have hndn : ((remove_from_sibling_group col cardIds).1.notes.map SNote.id).Nodup := by
      rw [hR, H]
      exact hwf.2.1
    have hgroups : ∀ e ∈ get_all_sibling_groups
        (remove_from_sibling_group col cardIds).1, nid0 ∉ e.2 := by
      intro e he hmem
      obtain ⟨n, hnmem, hnid, hne⟩ :=
        groups_nids (remove_from_sibling_group col cardIds).1 e he nid0 hmem
      have hg : (remove_from_sibling_group col cardIds).1.getNote n.id = some n :=
        getNote_of_mem_nodup hndn hnmem
      rw [hnid] at hg
      rw [hn0] at hg
      have heq : n0 = n := Option.some.inj hg
      rw [← heq] at hne
      exact hne hs0
    have hscan : check_and_unsuspend_siblings (remove_from_sibling_group col cardIds).1 =
        (get_all_sibling_groups (remove_from_sibling_group col cardIds).1).foldl
          processGroup ((remove_from_sibling_group col cardIds).1, 0) := rfl
    rw [hscan]
    exact scanGroups_frame _ nid0 cid0 n0 c0 _ hgroups hndc hc0 hcn0 hn0

/-- Witness for C10: a sequencer-suspended, marked card whose note is
detached from its only group keeps its suspended state and its marker
through a release scan; the conclusion is the theorem's at this input.  -/
theorem C10_witness :
    (⟨[⟨1, ["sibling::g", "sibling-suspended::g"]⟩], [⟨1, 1, -1, 0, 0⟩],
      [], 0, 0⟩ : Col).wf ∧
    (check_and_unsuspend_siblings
      (remove_from_sibling_group
        (⟨[⟨1, ["sibling::g", "sibling-suspended::g"]⟩], [⟨1, 1, -1, 0, 0⟩],
          [], 0, 0⟩ : Col) [1]).1).1.getCard 1 = some ⟨1, 1, -1, 0, 0⟩ :=
  ⟨by decide,
    ((C10_unmark
      (⟨[⟨1, ["sibling::g", "sibling-suspended::g"]⟩], [⟨1, 1, -1, 0, 0⟩],
        [], 0, 0⟩ : Col) [1] (by decide)).2.2.2 1
      ⟨1, ["sibling-suspended::g"]⟩ 1 ⟨1, 1, -1, 0, 0⟩
      (by decide) (by decide) (by decide) (by decide)).1⟩

/-!  The release scan (claims C1 and C2).  -/

theorem marker_strip (n : SNote) : noteHasMarker (stripMarkers n) = false := by
  rw [noteHasMarker, stripMarkers]
  rw [List.any_eq_false]
  intro t ht
  have := List.of_mem_filter ht
  simp only [Bool.not_eq_true'] at this
  rw [this]
  exact Bool.false_ne_true

theorem unsuspendStep_after (st : ScanSt) (e : Nat × Nat)
    (h : st.releasedOne = true) :
    (unsuspendStep st e).col = st.col ∧ (unsuspendStep st e).count = st.count ∧
    (unsuspendStep st e).releasedOne = true := by
  cases hc : st.col.getCard e.1 with
  | none =>
    have hstep : unsuspendStep st e = st := by
      rw [unsuspendStep]
      rw [hc]
    rw [hstep]
    exact ⟨rfl, rfl, h⟩
  | some c =>
    cases hn : st.col.getNote e.2 with
    | none =>
      have hstep : unsuspendStep st e = st := by
        rw [unsuspendStep]
        rw [hc, hn]
      rw [hstep]
      exact ⟨rfl, rfl, h⟩
    | some n =>
      by_cases h1 : c.queue = -1 ∧ noteHasMarker n = true
      · have h2 : ¬(st.prevReviewed = true ∧ st.releasedOne = false) := by
          intro hx
          rw [h] at hx
          cases hx.2
        have hstep : unsuspendStep st e = st := by
          rw [unsuspendStep]
          rw [hc, hn]
          show (if c.queue = -1 ∧ noteHasMarker n = true then
            if st.prevReviewed = true ∧ st.releasedOne = false then
              { col := (st.col.updateCard { c with queue := 0 }).updateNote
                  (stripMarkers n),
                prevReviewed := st.prevReviewed, releasedOne := true,
                count := st.count + 1 }
            else st
          else
            if countReviews st.col e.1 = 0 ∧ c.ctype = 0 then
              { st with prevReviewed := false }
            else st) = st
          rw [if_pos h1, if_neg h2]
        rw [hstep]
        exact ⟨rfl, rfl, h⟩
      · by_cases h3 : countReviews st.col e.1 = 0 ∧ c.ctype = 0
        · have hstep : unsuspendStep st e = { st with prevReviewed := false } := by
            rw [unsuspendStep]
            rw [hc, hn]
            show (if c.queue = -1 ∧ noteHasMarker n = true then
              if st.prevReviewed = true ∧ st.releasedOne = false then
                { col := (st.col.updateCard { c with queue := 0 }).updateNote
                    (stripMarkers n),
                  prevReviewed := st.prevReviewed, releasedOne := true,
                  count := st.count + 1 }
              else st
            else
              if countReviews st.col e.1 = 0 ∧ c.ctype = 0 then
                { st with prevReviewed := false }
              else st) = { st with prevReviewed := false }
            rw [if_neg h1, if_pos h3]
          rw [hstep]
          exact ⟨rfl, rfl, h⟩
        · have hstep : unsuspendStep st e = st := by
            rw [unsuspendStep]
            rw [hc, hn]
            show (if c.queue = -1 ∧ noteHasMarker n = true then
              if st.prevReviewed = true ∧ st.releasedOne = false then
                { col := (st.col.updateCard { c with queue := 0 }).updateNote
                    (stripMarkers n),
                  prevReviewed := st.prevReviewed, releasedOne := true,
                  count := st.count + 1 }
              else st
            else
              if countReviews st.col e.1 = 0 ∧ c.ctype = 0 then
                { st with prevReviewed := false }
              else st) = st
            rw [if_neg h1, if_neg h3]
          rw [hstep]
          exact ⟨rfl, rfl, h⟩

theorem scanFold_after (L : List (Nat × Nat)) :
    ∀ st : ScanSt, st.releasedOne = true →
      (L.foldl unsuspendStep st).col = st.col ∧
      (L.foldl unsuspendStep st).count = st.count ∧
      (L.foldl unsuspendStep st).releasedOne = true := by
  induction L with
  | nil =>
    intro st h
    exact ⟨rfl, rfl, h⟩
  | cons e L ih =>
    intro st h
    rw [List.foldl_cons]
    obtain ⟨S1, S2, S3⟩ := unsuspendStep_after st e h
    obtain ⟨F1, F2, F3⟩ := ih (unsuspendStep st e) S3
    exact ⟨F1.trans S1, F2.trans S2, F3⟩

theorem unsuspendStep_eq_some (st : ScanSt) (e : Nat × Nat) (c : SCard) (n : SNote)
    (hc : st.col.getCard e.1 = some c) (hn : st.col.getNote e.2 = some n) :
    unsuspendStep st e =
      (if c.queue = -1 ∧ noteHasMarker n = true then
        if st.prevReviewed = true ∧ st.releasedOne = false then
          { col := (st.col.updateCard { c with queue := 0 }).updateNote (stripMarkers n),
            prevReviewed := st.prevReviewed, releasedOne := true,
            count := st.count + 1 }
        else st
      else
        if countReviews st.col e.1 = 0 ∧ c.ctype = 0 then
          { st with prevReviewed := false }
        else st) := by
  rw [unsuspendStep]
  rw [hc, hn]

theorem prevUpd_eq_some (col : Col) (p : Bool) (e : Nat × Nat) (c : SCard) (n : SNote)
    (hc : col.getCard e.1 = some c) (hn : col.getNote e.2 = some n) :
    prevUpd col p e =
      (if c.queue = -1 ∧ noteHasMarker n = true then p
       else if countReviews col e.1 = 0 ∧ c.ctype = 0 then false else p) := by
  rw [prevUpd]
  rw [hc, hn]

theorem scanFold_release (L : List (Nat × Nat)) :
    ∀ (col : Col) (p : Bool) (cnt : Nat),
      ((L.foldl unsuspendStep
          { col := col, prevReviewed := p, releasedOne := false,
            count := cnt }).releasedOne = false ∧
        (L.foldl unsuspendStep
          { col := col, prevReviewed := p, releasedOne := false,
            count := cnt }).col = col ∧
        (L.foldl unsuspendStep
          { col := col, prevReviewed := p, releasedOne := false,
            count := cnt }).count = cnt) ∨
      (∃ L1 e L2 c n,
        L = L1 ++ e :: L2 ∧
        prevAfter col p L1 = true ∧
        col.getCard e.1 = some c ∧ c.queue = -1 ∧
        col.getNote e.2 = some n ∧ noteHasMarker n = true ∧
        (L.foldl unsuspendStep
          { col := col, prevReviewed := p, releasedOne := false,
            count := cnt }).col =
          (col.updateCard { c with queue := 0 }).updateNote (stripMarkers n) ∧
        (L.foldl unsuspendStep
          { col := col, prevReviewed := p, releasedOne := false,
            count := cnt }).count = cnt + 1) := by
  induction L with
  | nil =>
    intro col p cnt
    exact Or.inl ⟨rfl, rfl, rfl⟩
  | cons e L ih =>
    intro col p cnt
    rw [List.foldl_cons]
    have hcont : ∀ p' : Bool, prevUpd col p e = p' →
        ((L.foldl unsuspendStep
            { col := col, prevReviewed := p', releasedOne := false,
              count := cnt }).releasedOne = false ∧
          (L.foldl unsuspendStep
            { col := col, prevReviewed := p', releasedOne := false,
              count := cnt }).col = col ∧
          (L.foldl unsuspendStep
            { col := col, prevReviewed := p', releasedOne := false,
              count := cnt }).count = cnt) ∨
        (∃ L1 e' L2 c n,
          e :: L = L1 ++ e' :: L2 ∧
          prevAfter col p L1 = true ∧
          col.getCard e'.1 = some c ∧ c.queue = -1 ∧
          col.getNote e'.2 = some n ∧ noteHasMarker n = true ∧
          (L.foldl unsuspendStep
            { col := col, prevReviewed := p', releasedOne := false,
              count := cnt }).col =
            (col.updateCard { c with queue := 0 }).updateNote (stripMarkers n) ∧
          (L.foldl unsuspendStep
            { col := col, prevReviewed := p', releasedOne := false,
              count := cnt }).count = cnt + 1) := by
      intro p' hp'
      rcases ih col p' cnt with hl | hr
      · exact Or.inl hl
      · obtain ⟨L1, e', L2, c, n, hsplit, hprevA, h3, h4, h5, h6, h7, h8⟩ := hr
        refine Or.inr ⟨e :: L1, e', L2, c, n, by rw [hsplit, List.cons_append], ?_,
          h3, h4, h5, h6, h7, h8⟩
        rw [prevAfter, List.foldl_cons, hp']
        exact hprevA
    cases hc : col.getCard e.1 with
    | none =>
      have hstep : unsuspendStep
          { col := col, prevReviewed := p, releasedOne := false, count := cnt } e =
          { col := col, prevReviewed := p, releasedOne := false, count := cnt } := by
        rw [unsuspendStep]
        rw [hc]
      have hprev : prevUpd col p e = p := by
        rw [prevUpd]
        rw [hc]
      rw [hstep]
      exact hcont p hprev
    | some c =>
      cases hn : col.getNote e.2 with
      | none =>
        have hstep : unsuspendStep
            { col := col, prevReviewed := p, releasedOne := false, count := cnt } e =
            { col := col, prevReviewed := p, releasedOne := false, count := cnt } := by
          rw [unsuspendStep]
          rw [hc, hn]
        have hprev : prevUpd col p e = p := by
          rw [prevUpd]
          rw [hc, hn]
        rw [hstep]
        exact hcont p hprev
      | some n =>
        rw [unsuspendStep_eq_some
          { col := col, prevReviewed := p, releasedOne := false, count := cnt }
          e c n hc hn]
        dsimp only
        have hprevEq := prevUpd_eq_some col p e c n hc hn
        by_cases h1 : c.queue = -1 ∧ noteHasMarker n = true
        · rw [if_pos h1]
          by_cases hp : p = true
          · have h2 : p = true ∧ false = false := ⟨hp, rfl⟩
            rw [if_pos h2]
            obtain ⟨F1, F2, F3⟩ := scanFold_after L
              { col := (col.updateCard { c with queue := 0 }).updateNote (stripMarkers n),
                prevReviewed := p, releasedOne := true, count := cnt + 1 } rfl
            exact Or.inr ⟨[], e, L, c, n, rfl, hp, hc, h1.1, hn, h1.2, F1, F2⟩
          · have h2 : ¬(p = true ∧ false = false) := fun hx => hp hx.1
            rw [if_neg h2]
            have hprev : prevUpd col p e = p := by
              rw [hprevEq, if_pos h1]
            exact hcont p hprev
        · rw [if_neg h1]
          by_cases h3 : countReviews col e.1 = 0 ∧ c.ctype = 0
          · rw [if_pos h3]
            have hprev : prevUpd col p e = false := by
              rw [hprevEq, if_neg h1, if_pos h3]
            exact hcont false hprev
          · rw [if_neg h3]
            have hprev : prevUpd col p e = p := by
              rw [hprevEq, if_neg h1, if_neg h3]
            exact hcont p hprev

theorem processGroup_ids (acc : Col × Nat) (e : String × List Nat) :
    (processGroup acc e).1.cards.map SCard.id = acc.1.cards.map SCard.id ∧
    (processGroup acc e).1.notes.map SNote.id = acc.1.notes.map SNote.id := by
  rw [processGroup]
  by_cases hp : gatherGroupCards acc.1 e.2 = []
  · rw [if_pos hp]
    exact ⟨rfl, rfl⟩
  · rw [if_neg hp]
    obtain ⟨F1, F2, F3, F4⟩ := unsuspendFold_frame
      (List.insertionSort cidLe (gatherGroupCards acc.1 e.2))
      { col := acc.1, prevReviewed := true, releasedOne := false, count := acc.2 }
    exact ⟨F3, F4⟩

/-- Counterexample for C1: the scan checks for any suspension marker, not one
for the scanned group.  The only group is "g", the note's sole marker names
"h", yet the pass over "g" releases the card.  -/
theorem C1_counterexample :
    get_all_sibling_groups
      (⟨[⟨1, ["sibling::g", "sibling-suspended::h"]⟩], [⟨1, 1, -1, 0, 0⟩],
        [], 0, 0⟩ : Col) = [("g", [1])] ∧
    (susTagPref ++ "g") ∉ ["sibling::g", "sibling-suspended::h"] ∧
    (⟨[⟨1, ["sibling::g", "sibling-suspended::h"]⟩], [⟨1, 1, -1, 0, 0⟩],
      [], 0, 0⟩ : Col).getCard 1 = some ⟨1, 1, -1, 0, 0⟩ ∧
    (check_and_unsuspend_siblings
      (⟨[⟨1, ["sibling::g", "sibling-suspended::h"]⟩], [⟨1, 1, -1, 0, 0⟩],
        [], 0, 0⟩ : Col)).1.getCard 1 = some ⟨1, 1, 0, 0, 0⟩ := by decide

/-- C1 (amended): one pass of the release scan over a group releases at most
one item: either the pass leaves the collection and the count unchanged, or
the sorted gathered entries split around a single released entry whose card
was suspended and whose record carried some suspension marker (not
necessarily this group's), the flag over the preceding entries is true, all
markers are stripped from that record, and the count rises by exactly one.  -/
theorem C1_release_scan (col : Col) (cnt : Nat) (entry : String × List Nat) :
    (List.insertionSort cidLe (gatherGroupCards col entry.2)).Perm
      (gatherGroupCards col entry.2) ∧
    (List.insertionSort cidLe (gatherGroupCards col entry.2)).Sorted cidLe ∧
    (processGroup (col, cnt) entry = (col, cnt) ∨
      ∃ L1 e L2 c n,
        List.insertionSort cidLe (gatherGroupCards col entry.2) = L1 ++ e :: L2 ∧
        prevAfter col true L1 = true ∧
        col.getCard e.1 = some c ∧ c.queue = -1 ∧
        col.getNote e.2 = some n ∧ noteHasMarker n = true ∧
        processGroup (col, cnt) entry =
          ((col.updateCard { c with queue := 0 }).updateNote (stripMarkers n),
            cnt + 1)) := by
  refine ⟨List.perm_insertionSort _ _, List.sorted_insertionSort _ _, ?_⟩
  rw [processGroup]
  dsimp only
  by_cases hp : gatherGroupCards col entry.2 = []
  · rw [if_pos hp]
    exact Or.inl rfl
  · rw [if_neg hp]
    rcases scanFold_release (List.insertionSort cidLe (gatherGroupCards col entry.2))
        col true cnt with ⟨hA, hB, hC⟩ |
        ⟨L1, e, L2, c, n, hsplit, hprevA, h3, h4, h5, h6, h7, h8⟩
    · left
      rw [hB, hC]
    · right
      exact ⟨L1, e, L2, c, n, hsplit, hprevA, h3, h4, h5, h6, by rw [h7, h8]⟩

/-- Witness for C1: the gathered entries of a concrete group pass are a
permutation of their sort, via the theorem at this input.  -/
theorem C1_witness :
    (List.insertionSort cidLe (gatherGroupCards
      (⟨[⟨1, ["sibling::g", "sibling-suspended::h"]⟩], [⟨1, 1, -1, 0, 0⟩],
        [], 0, 0⟩ : Col) [1])).Perm
      (gatherGroupCards
        (⟨[⟨1, ["sibling::g", "sibling-suspended::h"]⟩], [⟨1, 1, -1, 0, 0⟩],
          [], 0, 0⟩ : Col) [1]) :=
  (C1_release_scan
    (⟨[⟨1, ["sibling::g", "sibling-suspended::h"]⟩], [⟨1, 1, -1, 0, 0⟩],
      [], 0, 0⟩ : Col) 0 ("g", [1])).1

theorem ScanRel_refl (s : Col) : ScanRel s s :=
  ⟨fun _ => ⟨fun c h => ⟨c, h, Or.inl rfl⟩, fun h => h⟩,
   fun _ => ⟨fun n h => ⟨n, h, Or.inl rfl⟩, fun h => h⟩⟩

theorem ScanRel_trans {s t u : Col} (h1 : ScanRel s t) (h2 : ScanRel t u) :
    ScanRel s u := by
  constructor
  · intro cid
    constructor
    · intro c hc
      obtain ⟨c1, hc1, hrel1⟩ := (h1.1 cid).1 c hc
      obtain ⟨c2, hc2, hrel2⟩ := (h2.1 cid).1 c1 hc1
      refine ⟨c2, hc2, ?_⟩
      rcases hrel1 with rfl | hr1
      · rcases hrel2 with rfl | hr2
        · exact Or.inl rfl
        · obtain ⟨hq, heq, n1, hn1, hm1⟩ := hr2
          refine Or.inr ⟨hq, heq, ?_⟩
          cases hs : s.getNote c1.nid with
          | none =>
            have hx := (h1.2 c1.nid).2 hs
            rw [hx] at hn1
            cases hn1
          | some n0 =>
            obtain ⟨n', hn', hrel⟩ := (h1.2 c1.nid).1 n0 hs
            rw [hn1] at hn'
            have heq2 : n1 = n' := Option.some.inj hn'
            rcases hrel with hre | ⟨hstr, _⟩
            · refine ⟨n0, rfl, ?_⟩
              rw [← hre, ← heq2]
              exact hm1
            · rw [heq2, hstr, marker_strip] at hm1
              cases hm1
      · rcases hrel2 with rfl | hr2
        · exact Or.inr hr1
        · obtain ⟨hq1, heq1, _⟩ := hr1
          obtain ⟨hq2, _, _⟩ := hr2
          rw [heq1] at hq2
          have hx : (0 : Int) = -1 := hq2
          exact absurd hx (by decide)
    · intro hc
      exact (h2.1 cid).2 ((h1.1 cid).2 hc)
  · intro nid
    constructor
    · intro n hn
      obtain ⟨n1, hn1, hrel1⟩ := (h1.2 nid).1 n hn
      obtain ⟨n2, hn2, hrel2⟩ := (h2.2 nid).1 n1 hn1
      refine ⟨n2, hn2, ?_⟩
      rcases hrel1 with rfl | ⟨hstr1, hm1⟩
      · exact hrel2
      · rcases hrel2 with rfl | ⟨hstr2, hm2⟩
        · exact Or.inr ⟨hstr1, hm1⟩
        · rw [hstr1, marker_strip] at hm2
          cases hm2
    · intro hn
      exact (h2.2 nid).2 ((h1.2 nid).2 hn)

theorem processGroup_rel (acc : Col × Nat) (e : String × List Nat)
    (hnd : (acc.1.cards.map SCard.id).Nodup) :
    ScanRel acc.1 (processGroup acc e).1 := by
  rw [processGroup]
  dsimp only
  by_cases hp : gatherGroupCards acc.1 e.2 = []
  · rw [if_pos hp]
    exact ScanRel_refl acc.1
  · rw [if_neg hp]
    rcases scanFold_release (List.insertionSort cidLe (gatherGroupCards acc.1 e.2))
        acc.1 true acc.2 with ⟨hA, hB, hC⟩ |
        ⟨L1, er, L2, c, n, hsplit, hprevA, h3, h4, h5, h6, h7, h8⟩
    · dsimp only
      rw [hB]
      exact ScanRel_refl acc.1
    · dsimp only
      rw [h7]
      have herL : er ∈ List.insertionSort cidLe (gatherGroupCards acc.1 e.2) := by
        rw [hsplit]
        exact List.mem_append.mpr (Or.inr (List.mem_cons_self er L2))
      have herG : er ∈ gatherGroupCards acc.1 e.2 :=
        (List.perm_insertionSort cidLe (gatherGroupCards acc.1 e.2)).mem_iff.mp herL
      obtain ⟨hsnd, cg, hcgm, hcgid, hcgnid⟩ := gather_mem acc.1 e.2 er herG
      have hcg : acc.1.getCard cg.id = some cg := getCard_of_mem_nodup hnd hcgm
      rw [hcgid] at hcg
      rw [h3] at hcg
      have hceq : c = cg := Option.some.inj hcg
      have hcnid : c.nid = er.2 := by
        rw [hceq]
        exact hcgnid
      have hcid : c.id = er.1 := (getCard_spec h3).2
      have hnid : n.id = er.2 := (getNote_spec h5).2
      have hc3 : acc.1.getCard c.id = some c := by
        rw [hcid]
        exact h3
      have hn3 : acc.1.getNote n.id = some n := by
        rw [hnid]
        exact h5
      constructor
      · intro cid
        constructor
        · intro c0 hc0
          by_cases hx : cid = c.id
          · subst hx
            have hc0c : c0 = c := by
              rw [hc3] at hc0
              exact (Option.some.inj hc0).symm
            subst hc0c
            refine ⟨{ c0 with queue := 0 }, ?_, Or.inr ⟨h4, rfl, ?_⟩⟩
            · rw [getCard_updateNote]
              exact getCard_updateCard_self
                (show acc.1.getCard ({ c0 with queue := 0 } : SCard).id = some c0 from hc3)
            · refine ⟨n, ?_, h6⟩
              rw [hcnid]
              exact h5
          · refine ⟨c0, ?_, Or.inl rfl⟩
            rw [getCard_updateNote]
            have hne : cid ≠ ({ c with queue := 0 } : SCard).id := hx
            rw [getCard_updateCard_ne hne]
            exact hc0
        · intro hc0
          rw [getCard_updateNote]
          by_cases hx : cid = c.id
          · rw [hx] at hc0
            rw [hc3] at hc0
            cases hc0
          · have hne : cid ≠ ({ c with queue := 0 } : SCard).id := hx
            rw [getCard_updateCard_ne hne]
            exact hc0
      · intro nid
        constructor
        · intro n0 hn0
          by_cases hx : nid = n.id
          · subst hx
            have hn0n : n0 = n := by
              rw [hn3] at hn0
              exact (Option.some.inj hn0).symm
            subst hn0n
            refine ⟨stripMarkers n0, ?_, Or.inr ⟨rfl, h6⟩⟩
            have hbase : (acc.1.updateCard { c with queue := 0 }).getNote
                (stripMarkers n0).id = some n0 := by
              show (acc.1.updateCard { c with queue := 0 }).getNote n0.id = some n0
              rw [getNote_updateCard]
              exact hn3
            exact getNote_updateNote_self hbase
          · refine ⟨n0, ?_, Or.inl rfl⟩
            have hne : nid ≠ (stripMarkers n).id := hx
            rw [getNote_updateNote_ne hne, getNote_updateCard]
            exact hn0
        · intro hn0
          by_cases hx : nid = n.id
          · rw [hx] at hn0
            rw [hn3] at hn0
            cases hn0
          · have hne : nid ≠ (stripMarkers n).id := hx
            rw [getNote_updateNote_ne hne, getNote_updateCard]
            exact hn0

theorem scanGroups_rel (gs : List (String × List Nat)) :
    ∀ acc : Col × Nat, (acc.1.cards.map SCard.id).Nodup →
      ScanRel acc.1 (gs.foldl processGroup acc).1 := by
  induction gs with
  | nil =>
    intro acc _
    exact ScanRel_refl acc.1
  | cons e gs ih =>
    intro acc hnd
    rw [List.foldl_cons]
    have hnd2 : ((processGroup acc e).1.cards.map SCard.id).Nodup := by
      rw [(processGroup_ids acc e).1]
      exact hnd
    exact ScanRel_trans (processGroup_rel acc e hnd) (ih (processGroup acc e) hnd2)

/-- Counterexample for C2: the marker lives on the record, not the item, so
a user-suspended item is auto-released.  The separation pass leaves card 1
active and marks its record (its sibling card 2 was suspended); then a user
suspension of card 1 carries no marker of its own, yet the next release scan
transitions card 1 back to new.  -/
theorem C2_counterexample :
    (suspend_new_card_siblings
      (⟨[⟨1, ["sibling::g"]⟩, ⟨2, ["sibling::g"]⟩],
        [⟨1, 1, 0, 0, 0⟩, ⟨2, 1, 0, 0, 1⟩, ⟨3, 2, 0, 0, 2⟩], [], 0, 0⟩ : Col)
      "g" [1, 2, 3]).1.getCard 1 = some ⟨1, 1, 0, 0, 0⟩ ∧
    (userSuspend (suspend_new_card_siblings
      (⟨[⟨1, ["sibling::g"]⟩, ⟨2, ["sibling::g"]⟩],
        [⟨1, 1, 0, 0, 0⟩, ⟨2, 1, 0, 0, 1⟩, ⟨3, 2, 0, 0, 2⟩], [], 0, 0⟩ : Col)
      "g" [1, 2, 3]).1 1).getCard 1 = some ⟨1, 1, -1, 0, 0⟩ ∧
    (check_and_unsuspend_siblings (userSuspend (suspend_new_card_siblings
      (⟨[⟨1, ["sibling::g"]⟩, ⟨2, ["sibling::g"]⟩],
        [⟨1, 1, 0, 0, 0⟩, ⟨2, 1, 0, 0, 1⟩, ⟨3, 2, 0, 0, 2⟩], [], 0, 0⟩ : Col)
      "g" [1, 2, 3]).1 1)).1.getCard 1 = some ⟨1, 1, 0, 0, 0⟩ := by decide

/-- C2 (amended): for a well-formed collection, every card the release scan
changes was suspended and is released to new, and its owning record carried
some suspension marker at the start of the scan; cards of marker-free
records are never auto-released.  Because the marker sits on the record and
not on the item, this does not distinguish a sequencer suspension from a
user suspension of an item whose record is marked.  -/
theorem C2_scan (col : Col) (hwf : col.wf) :
    (∀ cid c c', col.getCard cid = some c →
      (check_and_unsuspend_siblings col).1.getCard cid = some c' → c' ≠ c →
      c.queue = -1 ∧ c' = { c with queue := 0 } ∧
      ∃ n, col.getNote c.nid = some n ∧ noteHasMarker n = true) ∧
    ScanRel col (check_and_unsuspend_siblings col).1 := by
  have hrel : ScanRel col (check_and_unsuspend_siblings col).1 := by
    have hfun : check_and_unsuspend_siblings col =
        (get_all_sibling_groups col).foldl processGroup (col, 0) := rfl
    rw [hfun]
    exact scanGroups_rel (get_all_sibling_groups col) (col, 0) hwf.1
  refine ⟨?_, hrel⟩
  intro cid c c' hc hc' hne
  obtain ⟨c'', hc'', hrel2⟩ := (hrel.1 cid).1 c hc
  have heq : c' = c'' := by
    rw [hc'] at hc''
    exact Option.some.inj hc''
  subst heq
  rcases hrel2 with rfl | hr
  · exact absurd rfl hne
  · exact hr

/-- Witness for C2: a suspended card of a marked record is changed by the
scan, and the theorem yields that it was suspended beforehand.  -/
theorem C2_witness :
    (⟨[⟨1, ["sibling::g", "sibling-suspended::g"]⟩], [⟨1, 1, -1, 0, 0⟩],
      [], 0, 0⟩ : Col).wf ∧
    (⟨1, 1, -1, 0, 0⟩ : SCard).queue = -1 :=
  ⟨by decide,
    ((C2_scan
      (⟨[⟨1, ["sibling::g", "sibling-suspended::g"]⟩], [⟨1, 1, -1, 0, 0⟩],
        [], 0, 0⟩ : Col) (by decide)).1 1 ⟨1, 1, -1, 0, 0⟩ ⟨1, 1, 0, 0, 0⟩
      (by decide) (by decide) (by decide)).1⟩
